import Mathlib

/-!
# Ocean: a cellular ecosystem on a toroidal grid (`oceann.cpp`)

A shallow embedding of the simulation engine of `oceann.cpp`.

* An `Object*` is an address: an index into the heap, a list of objects.
  `nullptr` is `none`.  `new` appends to the heap, so the address it returns is
  the old length of the heap and differs from every address in use.
  `delete` only ends the lifetime of an object; addresses are never reused.
* `int` values are integers (`Int`), with the truncating division and
  remainder of C++ (`Int.tdiv`, `Int.tmod`).  The `int` ages of stones and
  reefs, which can start from any value a reef's memory holds, wrap on `age++`
  as two's complement numbers of 32 bits (`incr_int`): the standard leaves the
  overflow undefined, and this is what the usual builds do.  The other sums
  (coordinates, `speed`, `hunger`) are exact; `speed` and `hunger` stay within
  `[0, 7]` in every state the program reaches.  The `unsigned int` ages of the
  animals wrap at `2 ^ 32`.
* An operation returns `none` where the C++ program has no defined behaviour:
  a vector index outside `[0, size)`, a division by zero, a dereference of an
  address that was never allocated.
* `std::rand()` and the value of the uninitialised `Reef::age` come from an
  environment `Env`: `rand k` is what the `k`-th call of `std::rand` returns,
  `junk p` is what the memory of a `Reef` allocated at address `p` holds.
-/

set_option autoImplicit false

namespace OceanSim

/-- The type `Cell = Object*`: `none` is `nullptr`, `some p` is the address `p`. -/
abbrev Cell := Option Nat

/-- The struct `Neighbourhood`: the vector `cells` (the field `radius` is never
written nor read and is left out). -/
structure Neighbourhood where
  cells : List Cell
deriving DecidableEq, Repr

/-- The enumeration `Move::Direction`. -/
inductive Move.Direction where
  | N
  | S
  | W
  | E
deriving DecidableEq, Repr

/-- The two subclasses of `Action`, each with the object it was built for. -/
inductive Action where
  | NoAction (obj : Nat)
  | Move (obj : Nat) (count : Int) (direction : Move.Direction)
deriving DecidableEq, Repr

/-- The class `Stone`: its mutable field. -/
structure Stone where
  age : Int
deriving DecidableEq, Repr

/-- The class `Reef`: its mutable field. -/
structure Reef where
  age : Int
deriving DecidableEq, Repr

/-- The class `Prey`: its mutable fields. -/
structure Prey where
  age : Nat
  speed : Int
  adult_prey_nearby : Bool
  isdead : Bool
  reef_nearby : Bool
deriving DecidableEq, Repr

/-- The class `Predator`: its mutable fields. -/
structure Predator where
  age : Nat
  speed : Int
  hunger : Int
  adult_predator_nearby : Bool
  isdead : Bool
deriving DecidableEq, Repr

/-- The class `ApexPredator`: its mutable fields. -/
structure ApexPredator where
  age : Nat
  speed : Int
  hunger : Int
  adult_ap_nearby : Bool
  isdead : Bool
deriving DecidableEq, Repr

/-- An object of one of the five classes derived from `Object`. -/
inductive Object where
  | stone (s : Stone)
  | reef (r : Reef)
  | prey (p : Prey)
  | predator (p : Predator)
  | apex (a : ApexPredator)
deriving DecidableEq, Repr

/-- The field `Stone::age_to_reef`. -/
def Stone.age_to_reef : Int := 8

/-- The field `Reef::age_to_stone`. -/
def Reef.age_to_stone : Int := 4

/-- The field `Prey::mature_age`. -/
def Prey.mature_age : Nat := 2

/-- The field `Prey::max_age`. -/
def Prey.max_age : Nat := 7

/-- The field `Predator::mature_age`. -/
def Predator.mature_age : Nat := 5

/-- The field `Predator::max_age`. -/
def Predator.max_age : Nat := 15

/-- The field `ApexPredator::mature_age`. -/
def ApexPredator.mature_age : Nat := 10

/-- The field `ApexPredator::max_age`. -/
def ApexPredator.max_age : Nat := 18

/-- The constructor `Stone()`: it sets `age = 0`. -/
def Stone.new : Stone := { age := 0 }

/-- The constructor `Reef()`: it sets `sym` only, so `age` keeps whatever the
memory held, the value `junk`. -/
def Reef.new (junk : Int) : Reef := { age := junk }

/-- The constructor `Prey()`. -/
def Prey.new : Prey :=
  { age := 0, speed := 1, adult_prey_nearby := false, isdead := false, reef_nearby := false }

/-- The constructor `Predator()`. -/
def Predator.new : Predator :=
  { age := 0, speed := 1, hunger := 0, adult_predator_nearby := false, isdead := false }

/-- The constructor `ApexPredator()`. -/
def ApexPredator.new : ApexPredator :=
  { age := 0, speed := 1, hunger := 0, adult_ap_nearby := false, isdead := false }

/-- The method `Object::getSym`: the symbol each constructor stores in `sym`. -/
def Object.getSym : Object → Char
  | .stone _ => '#'
  | .reef _ => 'R'
  | .prey _ => 'F'
  | .predator _ => 'P'
  | .apex _ => 'A'

/-- The class `Ocean`: `rows`, `cols` and the vector `data`. -/
structure Ocean where
  rows : Int
  cols : Int
  data : List Cell
deriving DecidableEq, Repr

/-- The state of the program: the ocean, the heap of objects its cells point
into, and the number of calls of `std::rand` made so far. -/
structure World where
  ocean : Ocean
  heap : List Object
  rand_calls : Nat
deriving DecidableEq, Repr

/-- What the program does not determine: the results of `std::rand` and the
content of uninitialised memory. -/
structure Env where
  rand : Nat → Nat
  junk : Nat → Int

/-- The increment of an `unsigned int`. -/
def incr_unsigned (a : Nat) : Nat := (a + 1) % 4294967296

/-- The value of an `int` that holds the integer `z`: the two's complement
number of 32 bits congruent to `z`, in `[-2 ^ 31, 2 ^ 31)`. -/
def wrap_int (z : Int) : Int := (z + 2147483648) % 4294967296 - 2147483648

/-- The increment `age++` of an `int`: `a + 1`, and `-2 ^ 31` for `a = 2 ^ 31 - 1`. -/
def incr_int (a : Int) : Int := wrap_int (a + 1)

/-- The `int` division `a / b` of C++: truncating, undefined for `b = 0`. -/
def cdiv (a b : Int) : Option Int := if b = 0 then none else some (a.tdiv b)

/-- The `int` remainder `a % b` of C++: truncating, undefined for `b = 0`. -/
def cmod (a b : Int) : Option Int := if b = 0 then none else some (a.tmod b)

/-- The search loop `for (i ...) if (data[i] == obj) { index = i; break; }`: the
first position that holds `obj`, if there is one. -/
def first_position (obj : Nat) : List Cell → Option Nat
  | [] => none
  | c :: cs => if c = some obj then some 0 else (first_position obj cs).map (· + 1)

/-- The variable `index` after the search loop that opens `Move::apply`,
`generate_neighbourhood` and the spawning and transforming code: the first `i`
with `data[i] == obj`, and still `0` when there is none. -/
def find_index (data : List Cell) (obj : Nat) : Nat :=
  (first_position obj data).getD 0

/-- The read `data[k]` of the vector with an `int` index: undefined outside
`[0, size)`. -/
def Ocean.read (o : Ocean) (k : Int) : Option Cell :=
  if 0 ≤ k then o.data[k.toNat]? else none

/-- The write `data[k] = c` of the vector with an `int` index: undefined outside
`[0, size)`. -/
def Ocean.write (o : Ocean) (k : Int) (c : Cell) : Option Ocean :=
  if 0 ≤ k ∧ k.toNat < o.data.length then some { o with data := o.data.set k.toNat c }
  else none

/-- The four indices `Ocean::generate_neighbourhood` reads around `index`, in
the order North, South, West, East. -/
def Ocean.neighbour_indices (o : Ocean) (index : Int) : Option (List Int) :=
  match cdiv index o.cols, cmod index o.cols with
  | some row, some col =>
    match cmod (row - 1 + o.rows) o.rows, cmod (row + 1) o.rows,
          cmod (col - 1 + o.cols) o.cols, cmod (col + 1) o.cols with
    | some rn, some rs, some cw, some ce =>
      some [rn * o.cols + col, rs * o.cols + col, row * o.cols + cw, row * o.cols + ce]
    | _, _, _, _ => none
  | _, _ => none

/-- The method `Ocean::generate_neighbourhood`: the cells North, South, West
and East of the first position that holds `cell`. -/
def Ocean.generate_neighbourhood (o : Ocean) (cell : Nat) : Option Neighbourhood :=
  match o.neighbour_indices (find_index o.data cell : Nat) with
  | some [kn, ks, kw, ke] =>
    match o.read kn, o.read ks, o.read kw, o.read ke with
    | some n, some s, some w, some e => some { cells := [n, s, w, e] }
    | _, _, _, _ => none
  | _ => none

/-- The destination `(new_row, new_col)` that the `switch` of `Move::apply`
computes from `(row, col)`. -/
def Move.destination (o : Ocean) (row col count : Int) :
    Move.Direction → Option (Int × Int)
  | .N => (cmod (row - count + o.rows) o.rows).map (fun r => (r, col))
  | .S => (cmod (row + count + o.rows) o.rows).map (fun r => (r, col))
  | .W => (cmod (col - count + o.cols) o.cols).map (fun c => (row, c))
  | .E => (cmod (col + count + o.cols) o.cols).map (fun c => (row, c))

/-- The index `new_index` that `Move::apply` computes for `obj`. -/
def Move.new_index (o : Ocean) (obj : Nat) (count : Int) (direction : Move.Direction) :
    Option Int :=
  let index : Int := (find_index o.data obj : Nat)
  match cdiv index o.cols, cmod index o.cols with
  | some row, some col =>
    match Move.destination o row col count direction with
    | some (new_row, new_col) => some (new_row * o.cols + new_col)
    | none => none
  | _, _ => none

/-- The method `Move::apply`: the value it returns and the ocean it leaves. -/
def Move.apply (o : Ocean) (obj : Nat) (count : Int) (direction : Move.Direction) :
    Option (Bool × Ocean) :=
  match Move.new_index o obj count direction with
  | none => none
  | some new_index =>
    match o.read new_index with
    | none => none
    | some (some _) => some (true, o)
    | some none =>
      match o.write new_index (some obj) with
      | none => none
      | some o1 =>
        match o1.write (find_index o.data obj : Nat) none with
        | none => none
        | some o2 => some (true, o2)

/-- The method `NoAction::apply`. -/
def NoAction.apply (o : Ocean) : Option (Bool × Ocean) := some (true, o)

/-- The call `(*action)(ocean)`: the virtual `apply` of the action. -/
def Action.apply (o : Ocean) : Action → Option (Bool × Ocean)
  | .NoAction _ => NoAction.apply o
  | .Move obj count direction => Move.apply o obj count direction

/-- The dereference of the address `p`: undefined when nothing was allocated
there. -/
def World.deref (w : World) (p : Nat) : Option Object := w.heap[p]?

/-- An assignment to the fields of the object at address `p`. -/
def World.store (w : World) (p : Nat) (x : Object) : World :=
  { w with heap := w.heap.set p x }

/-- The method `die` of `Prey`, `Predator` and `ApexPredator`. -/
def Object.die : Object → Object
  | .prey p => .prey { p with isdead := true }
  | .predator p => .predator { p with isdead := true }
  | .apex a => .apex { a with isdead := true }
  | x => x

/-- The loop `for (i ...) if (neighbourhood.cells[i] == nullptr) { ...; break; }`:
the first empty slot, counted from `i`. -/
def first_empty : List Cell → Nat → Option Nat
  | [], _ => none
  | none :: _, i => some i
  | some _ :: cs, i => first_empty cs (i + 1)

/-- The index `new_index` of the spawning code of `Prey::tick`, `Predator::tick`
and `ApexPredator::tick`, for the slot `i` around `index`. -/
def Ocean.spawn_index (o : Ocean) (index : Int) (i : Nat) : Option Int :=
  match cdiv index o.cols, cmod index o.cols with
  | some row, some col =>
    if i = 0 then (cmod (row - 1 + o.rows) o.rows).map (fun r => r * o.cols + col)
    else if i = 1 then (cmod (row + 1 + o.rows) o.rows).map (fun r => r * o.cols + col)
    else if i = 2 then (cmod (col - 1 + o.cols) o.cols).map (fun c => row * o.cols + c)
    else (cmod (col + 1) o.cols).map (fun c => row * o.cols + c)
  | _, _ => none

/-- The body of `if (neighbourhood.cells[i] == nullptr)` in the three spawning
loops: search `this`, compute `new_index`, and store a `new` object there. -/
def World.spawn (w : World) (this : Nat) (i : Nat) (child : Object) : Option World :=
  match w.ocean.spawn_index (find_index w.ocean.data this : Nat) i with
  | none => none
  | some new_index =>
    match w.ocean.write new_index (some w.heap.length) with
    | none => none
    | some o1 => some { w with ocean := o1, heap := w.heap ++ [child] }

/-- The spawning loop over the slots: the child goes to the first empty slot of
the neighbourhood; nothing happens when no slot is empty. -/
def World.spawn_first_empty (w : World) (this : Nat) (nb : Neighbourhood)
    (child : Object) : Option World :=
  match first_empty nb.cells 0 with
  | none => some w
  | some i => w.spawn this i child

/-- A loop `for (cell ...) if (cell != nullptr && cell->getSym() == ...) { ...; break; }`:
the slot and the address of the first neighbour whose symbol is one of `syms`,
slots counted from `i`. -/
def World.first_with_sym (w : World) (syms : List Char) :
    List Cell → Nat → Option (Option (Nat × Nat))
  | [], _ => some none
  | none :: cs, i => w.first_with_sym syms cs (i + 1)
  | some q :: cs, i =>
    match w.deref q with
    | none => none
    | some x =>
      if x.getSym ∈ syms then some (some (i, q)) else w.first_with_sym syms cs (i + 1)

/-- The second loop of `Prey::tick`, which has no `break`: whether some
neighbour has the symbol `sym`. -/
def World.any_with_sym (w : World) (sym : Char) : List Cell → Option Bool
  | [] => some false
  | none :: cs => w.any_with_sym sym cs
  | some q :: cs =>
    match w.deref q, w.any_with_sym sym cs with
    | some x, some b => some (x.getSym == sym || b)
    | _, _ => none

/-- The hunting loops of `Predator::tick` and `ApexPredator::tick`: the address
of the first neighbour that is a prey with neither `isdead` nor `reef_nearby`
set or, when `with_predators` holds (the branch `hunger >= 5` of the apex
predator), a predator with `isdead` not set. -/
def World.first_victim (w : World) (with_predators : Bool) : List Cell → Option (Option Nat)
  | [] => some none
  | none :: cs => w.first_victim with_predators cs
  | some q :: cs =>
    match w.deref q with
    | none => none
    | some (.prey p) =>
      if !p.isdead && !p.reef_nearby then some (some q)
      else w.first_victim with_predators cs
    | some (.predator p) =>
      if with_predators && !p.isdead then some (some q)
      else w.first_victim with_predators cs
    | some _ => w.first_victim with_predators cs

/-- The closing `switch (randomChance)` of the three animals. -/
def random_move (this : Nat) (speed : Int) : Nat → Action
  | 0 => .Move this speed .N
  | 1 => .Move this speed .E
  | 2 => .Move this speed .S
  | 3 => .Move this speed .W
  | _ => .NoAction this

/-- The call `std::rand() % 4` and the action the closing `switch` builds from it. -/
def World.draw_move (env : Env) (w : World) (this : Nat) (speed : Int) : Action × World :=
  (random_move this speed (env.rand w.rand_calls % 4),
    { w with rand_calls := w.rand_calls + 1 })

/-- The method `Stone::tick`. -/
def Stone.tick (env : Env) (w : World) (this : Nat) (_nb : Neighbourhood) :
    Option (Action × World) :=
  match w.deref this with
  | some (.stone s) =>
    let s1 : Stone := { s with age := incr_int s.age }
    let w1 := w.store this (.stone s1)
    if s1.age ≥ Stone.age_to_reef then
      match w1.ocean.write (find_index w1.ocean.data this : Nat) (some w1.heap.length) with
      | none => none
      | some o1 =>
        some (.NoAction this,
          { w1 with ocean := o1, heap := w1.heap ++ [.reef (Reef.new (env.junk w1.heap.length))] })
    else some (.NoAction this, w1)
  | _ => none

/-- The method `Reef::tick`. -/
def Reef.tick (w : World) (this : Nat) (_nb : Neighbourhood) : Option (Action × World) :=
  match w.deref this with
  | some (.reef r) =>
    let r1 : Reef := { r with age := incr_int r.age }
    let w1 := w.store this (.reef r1)
    if r1.age ≥ Reef.age_to_stone then
      match w1.ocean.write (find_index w1.ocean.data this : Nat) (some w1.heap.length) with
      | none => none
      | some o1 =>
        some (.NoAction this, { w1 with ocean := o1, heap := w1.heap ++ [.stone Stone.new] })
    else some (.NoAction this, w1)
  | _ => none

/-- The `switch (i)` of `Prey::tick`: the direction away from slot `i`
(`move_direction` is `N` initially). -/
def Prey.flee_direction : Nat → Move.Direction
  | 0 => .S
  | 1 => .N
  | 2 => .E
  | 3 => .W
  | _ => .N

/-- The reproduction block shared, up to the class, by `Prey::tick`,
`Predator::tick` and `ApexPredator::tick`: the first neighbour with the symbol
`sym` of the own class is cast to that class; if it is `mature`, a `child` is
spawned at the first empty slot.  Only that first neighbour is looked at (the
outer `break`). -/
def World.reproduce (w : World) (this : Nat) (nb : Neighbourhood) (sym : Char)
    (mature : Object → Bool) (child : Object) : Option World :=
  match w.first_with_sym [sym] nb.cells 0 with
  | none => none
  | some none => some w
  | some (some (_, other)) =>
    match w.deref other with
    | none => none
    | some x => if mature x then w.spawn_first_empty this nb child else some w

/-- The test `other_prey->age >= mature_age` of `Prey::tick`. -/
def Prey.mature : Object → Bool
  | .prey other_prey => decide (other_prey.age ≥ Prey.mature_age)
  | _ => false

/-- The reproduction block of `Prey::tick`. -/
def Prey.reproduce (w : World) (this : Nat) (nb : Neighbourhood) : Option World :=
  w.reproduce this nb 'F' Prey.mature (.prey Prey.new)

/-- The method `Prey::tick`.  The variable `reef_nearby` its second loop sets is
a local one, declared in the body; the field of the same name is not assigned. -/
def Prey.tick (env : Env) (w : World) (this : Nat) (nb : Neighbourhood) :
    Option (Action × World) :=
  match w.deref this with
  | some (.prey p) =>
    let p1 : Prey := { p with age := incr_unsigned p.age }
    let w1 := w.store this (.prey p1)
    if p1.age > Prey.max_age then
      some (.NoAction this, w1.store this (.prey { p1 with isdead := true }))
    else
      match w1.first_with_sym ['P', 'A'] nb.cells 0, w1.any_with_sym 'R' nb.cells with
      | some predator_nearby, some _reef_nearby =>
        match predator_nearby with
        | some (i, _) => some (.Move this p1.speed (Prey.flee_direction i), w1)
        | none =>
          match (if p1.age ≥ Prey.mature_age then Prey.reproduce w1 this nb else some w1) with
          | none => none
          | some w2 => some (w2.draw_move env this p1.speed)
      | _, _ => none
  | _ => none

/-- The test `other_predator->age >= mature_age && other_predator->hunger <= 5`
of `Predator::tick`. -/
def Predator.mature : Object → Bool
  | .predator other_predator =>
    decide (other_predator.age ≥ Predator.mature_age ∧ other_predator.hunger ≤ 5)
  | _ => false

/-- The reproduction block of `Predator::tick`. -/
def Predator.reproduce (w : World) (this : Nat) (nb : Neighbourhood) : Option World :=
  w.reproduce this nb 'P' Predator.mature (.predator Predator.new)

/-- The method `Predator::tick`. -/
def Predator.tick (env : Env) (w : World) (this : Nat) (nb : Neighbourhood) :
    Option (Action × World) :=
  match w.deref this with
  | some (.predator p) =>
    let p1 : Predator := { p with age := incr_unsigned p.age }
    let w1 := w.store this (.predator p1)
    if p1.age > Predator.max_age ∨ p1.hunger > 6 then
      some (.NoAction this, w1.store this (.predator { p1 with isdead := true }))
    else
      match w1.first_victim false nb.cells with
      | none => none
      | some (some prey) =>
        match w1.deref prey with
        | none => none
        | some x =>
          some (.NoAction this,
            (w1.store prey x.die).store this (.predator { p1 with hunger := 0, speed := 1 }))
      | some none =>
        match (if p1.age ≥ Predator.mature_age ∧ p1.hunger ≤ 5
               then Predator.reproduce w1 this nb else some w1) with
        | none => none
        | some w2 =>
          let p2 : Predator := { p1 with speed := if p1.hunger = 2 then p1.speed + 1 else p1.speed }
          let p3 : Predator := { p2 with hunger := p2.hunger + 1 }
          some ((w2.store this (.predator p3)).draw_move env this p3.speed)
  | _ => none

/-- The test `other_ap->age >= mature_age && other_ap->hunger <= 3` of
`ApexPredator::tick`. -/
def ApexPredator.mature : Object → Bool
  | .apex other_ap => decide (other_ap.age ≥ ApexPredator.mature_age ∧ other_ap.hunger ≤ 3)
  | _ => false

/-- The reproduction block of `ApexPredator::tick`. -/
def ApexPredator.reproduce (w : World) (this : Nat) (nb : Neighbourhood) : Option World :=
  w.reproduce this nb 'A' ApexPredator.mature (.apex ApexPredator.new)

/-- The method `ApexPredator::tick`. -/
def ApexPredator.tick (env : Env) (w : World) (this : Nat) (nb : Neighbourhood) :
    Option (Action × World) :=
  match w.deref this with
  | some (.apex a) =>
    let a1 : ApexPredator := { a with age := incr_unsigned a.age }
    let w1 := w.store this (.apex a1)
    if a1.age > ApexPredator.max_age ∨ a1.hunger ≥ 7 then
      some (.NoAction this, w1.store this (.apex { a1 with isdead := true }))
    else
      match w1.first_victim (decide (a1.hunger ≥ 5)) nb.cells with
      | none => none
      | some (some victim) =>
        match w1.deref victim with
        | none => none
        | some x =>
          some (.NoAction this,
            (w1.store victim x.die).store this (.apex { a1 with hunger := 0, speed := 1 }))
      | some none =>
        match (if a1.age ≥ ApexPredator.mature_age ∧ a1.hunger ≤ 3
               then ApexPredator.reproduce w1 this nb else some w1) with
        | none => none
        | some w2 =>
          let a2 : ApexPredator :=
            { a1 with speed := if a1.hunger = 2 then a1.speed + 1 else a1.speed }
          let a3 : ApexPredator :=
            { a2 with speed := if a2.hunger = 5 then a2.speed + 1 else a2.speed }
          let a4 : ApexPredator := { a3 with hunger := a3.hunger + 1 }
          some ((w2.store this (.apex a4)).draw_move env this a4.speed)
  | _ => none

/-- The virtual call `cell->tick(neighbourhood, ocean)`. -/
def Object.tick (env : Env) (w : World) (this : Nat) (nb : Neighbourhood) :
    Option (Action × World) :=
  match w.deref this with
  | none => none
  | some (.stone _) => Stone.tick env w this nb
  | some (.reef _) => Reef.tick w this nb
  | some (.prey _) => Prey.tick env w this nb
  | some (.predator _) => Predator.tick env w this nb
  | some (.apex _) => ApexPredator.tick env w this nb

/-- The body of the first loop of `Ocean::tick` for the position `i`. -/
def Ocean.tick_cell (env : Env) (w : World) (i : Nat) : Option World :=
  match w.ocean.data[i]? with
  | some (some cell) =>
    match w.ocean.generate_neighbourhood cell with
    | none => none
    | some nb =>
      match Object.tick env w cell nb with
      | none => none
      | some (action, w1) =>
        match action.apply w1.ocean with
        | none => none
        | some (_, o2) => some { w1 with ocean := o2 }
  | _ => some w

/-- The first loop of `Ocean::tick`, run over the positions below `i`. -/
def Ocean.scan (env : Env) (w : World) : Nat → Option World
  | 0 => some w
  | i + 1 =>
    match Ocean.scan env w i with
    | none => none
    | some w1 => Ocean.tick_cell env w1 i

/-- The body of the second loop of `Ocean::tick` for a cell: what the cell
holds afterwards. -/
def Ocean.sweep_cell (w : World) : Cell → Option Cell
  | none => some none
  | some q =>
    match w.deref q with
    | none => none
    | some (.prey p) => some (if p.isdead then none else some q)
    | some (.predator p) => some (if p.isdead then none else some q)
    | some (.apex a) => some (if a.isdead then none else some q)
    | some _ => some (some q)

/-- The second loop of `Ocean::tick` over a list of cells. -/
def Ocean.sweep_cells (w : World) : List Cell → Option (List Cell)
  | [] => some []
  | c :: cs =>
    match Ocean.sweep_cell w c, Ocean.sweep_cells w cs with
    | some c1, some cs1 => some (c1 :: cs1)
    | _, _ => none

/-- The second loop of `Ocean::tick`: the cells of the animals flagged dead are
emptied. -/
def Ocean.sweep (w : World) : Option World :=
  match Ocean.sweep_cells w w.ocean.data with
  | none => none
  | some data1 => some { w with ocean := { w.ocean with data := data1 } }

/-- The method `Ocean::tick`. -/
def Ocean.tick (env : Env) (w : World) : Option World :=
  match Ocean.scan env w w.ocean.data.length with
  | none => none
  | some w1 => Ocean.sweep w1

/-- The loop of `main` without display and pause: `n` calls of `Ocean::tick`. -/
def Ocean.run (env : Env) : Nat → World → Option World
  | 0, w => some w
  | n + 1, w =>
    match Ocean.tick env w with
    | none => none
    | some w1 => Ocean.run env n w1

/-! ## The properties of the grid the claims speak of -/

/-- No address is recorded at two positions of the grid. -/
def Exclusive (data : List Cell) : Prop :=
  ∀ i j p : Nat, data[i]? = some (some p) → data[j]? = some (some p) → i = j

/-- A grid as the constructor `Ocean(rows, cols)` builds it: positive `rows` and
`cols`, and `rows * cols` cells. -/
structure Ocean.WF (o : Ocean) : Prop where
  rows_pos : 1 ≤ o.rows
  cols_pos : 1 ≤ o.cols
  size : (o.data.length : Int) = o.rows * o.cols

/-- A state in which every entity is stored at one position and every cell is
empty or holds the address of an allocated object. -/
structure World.Valid (w : World) : Prop where
  wf : w.ocean.WF
  exclusive : Exclusive w.ocean.data
  allocated : ∀ i p : Nat, w.ocean.data[i]? = some (some p) → p < w.heap.length

/-- Whether the hunting loop takes the object as its victim: a prey with
neither `isdead` nor `reef_nearby` set or, when `with_predators` holds, a
predator with `isdead` not set. -/
def Object.is_victim (with_predators : Bool) : Object → Bool
  | .prey p => !p.isdead && !p.reef_nearby
  | .predator p => with_predators && !p.isdead
  | _ => false

/-- Every address in the list of cells is allocated. -/
def World.allocated (w : World) (cells : List Cell) : Prop :=
  ∀ j q : Nat, cells[j]? = some (some q) → ∃ x, w.deref q = some x

/-- The destination in the words of the specification: the coordinate
`(coord ± distance + extent) mod extent`, where `mod` is the remainder
normalised to `[0, extent)`. -/
def wrapped_destination (o : Ocean) (row col count : Int) : Move.Direction → Int × Int
  | .N => ((row - count + o.rows) % o.rows, col)
  | .S => ((row + count + o.rows) % o.rows, col)
  | .W => (row, (col - count + o.cols) % o.cols)
  | .E => (row, (col + count + o.cols) % o.cols)

/-- An environment whose every draw is `r` and whose fresh memory holds `j`. -/
def Env.const (r : Nat) (j : Int) : Env := { rand := fun _ => r, junk := fun _ => j }

/-- A grid of two rows and two columns with one freshly constructed apex
predator at row 1, column 0. -/
def apex_on_2x2 : World :=
  { ocean := { rows := 2, cols := 2, data := [none, none, some 0, none] },
    heap := [.apex ApexPredator.new], rand_calls := 0 }

/-- A grid of two rows and one column with one freshly constructed apex
predator at row 0. -/
def apex_on_2x1 : World :=
  { ocean := { rows := 2, cols := 1, data := [some 0, none] },
    heap := [.apex ApexPredator.new], rand_calls := 0 }

/-- A grid of one cell holding a stone of age 7, one tick before it turns into
a reef. -/
def stone_of_age_7 : World :=
  { ocean := { rows := 1, cols := 1, data := [some 0] },
    heap := [.stone { age := 7 }], rand_calls := 0 }

/-- A grid of three rows and three columns: a reef at row 0, column 1; in row 1
a stone, a prey and a predator, all freshly constructed (the reef with age 0).
The prey is adjacent to the reef, and the predator is East of the prey. -/
def prey_beside_reef : World :=
  { ocean := { rows := 3, cols := 3,
               data := [none, some 0, none, some 1, some 2, some 3, none, none, none] },
    heap := [.reef { age := 0 }, .stone Stone.new, .prey Prey.new, .predator Predator.new],
    rand_calls := 0 }

/-- A grid of one row and three columns: a prey flagged dead, a predator, and a
live prey, from West to East. -/
def predator_between_preys : World :=
  { ocean := { rows := 1, cols := 3, data := [some 0, some 1, some 2] },
    heap := [.prey { Prey.new with isdead := true }, .predator Predator.new, .prey Prey.new],
    rand_calls := 0 }

/-- The field `age` of the five classes, as one function. -/
def Object.age : Object → Int
  | .stone s => s.age
  | .reef r => r.age
  | .prey p => p.age
  | .predator p => p.age
  | .apex a => a.age

/-- The age of an object after `k` executions of `age++`: the `int` ages of
stones and reefs grow by `k` and wrap as `int` values do, the `unsigned int`
ages of the animals grow by `k` modulo `2 ^ 32`. -/
def Object.age_after (k : Nat) : Object → Int
  | .stone s => wrap_int (s.age + k)
  | .reef r => wrap_int (r.age + k)
  | .prey p => ((p.age + k) % 4294967296 : Nat)
  | .predator p => ((p.age + k) % 4294967296 : Nat)
  | .apex a => ((a.age + k) % 4294967296 : Nat)

/-- Whether the object is a stone or a reef whose age has reached the age at
which `Stone::tick` and `Reef::tick` replace it. -/
def Object.transformed : Object → Bool
  | .stone s => decide (s.age ≥ Stone.age_to_reef)
  | .reef r => decide (r.age ≥ Reef.age_to_stone)
  | _ => false

/-- Whether the object is an animal with `isdead` set. -/
def Object.flagged_dead : Object → Bool
  | .prey p => p.isdead
  | .predator p => p.isdead
  | .apex a => a.isdead
  | _ => false

/-- What one call `cell->tick(neighbourhood, ocean)` for the object at `this`
does to the state: the action is a no-op or a move of `this`, a move only for
an animal; the dimensions stay; the other objects are unchanged or flagged
dead; `this` keeps its class and is one `age++` older; and the grid either is
unchanged, or receives a newly allocated child of age 0 of the class of `this`
at the index computed for the first empty slot, or (stone and reef whose age
has reached the threshold) has the first position of `this` overwritten with a
newly allocated reef or stone. -/
structure TickEffect (w : World) (this : Nat) (nb : Neighbourhood) (a : Action)
    (w1 : World) : Prop where
  action : a = .NoAction this ∨
    ∃ (count : Int) (d : Move.Direction) (x : Object), a = .Move this count d ∧
      w.deref this = some x ∧ x.getSym ∈ ['F', 'P', 'A']
  rows : w1.ocean.rows = w.ocean.rows
  cols : w1.ocean.cols = w.ocean.cols
  others : ∀ (q : Nat) (x : Object), q ≠ this → w.deref q = some x →
    w1.deref q = some x ∨ w1.deref q = some x.die
  self : ∃ x x1 : Object, w.deref this = some x ∧ w1.deref this = some x1 ∧
    x1.getSym = x.getSym ∧ x1.age = x.age_after 1
  grid :
    (w1.ocean.data = w.ocean.data ∧ w1.heap.length = w.heap.length) ∨
    (∃ (x child : Object) (i : Nat) (k : Int),
      w.deref this = some x ∧ x.getSym ∈ ['F', 'P', 'A'] ∧
      first_empty nb.cells 0 = some i ∧
      w.ocean.spawn_index (find_index w.ocean.data this : Nat) i = some k ∧
      0 ≤ k ∧ k.toNat < w.ocean.data.length ∧
      w1.ocean.data = w.ocean.data.set k.toNat (some w.heap.length) ∧
      w1.heap.length = w.heap.length + 1 ∧
      w1.deref w.heap.length = some child ∧ child.age = 0 ∧ child.getSym = x.getSym) ∨
    (∃ x z child : Object,
      w.deref this = some x ∧ x.getSym ∈ ['#', 'R'] ∧ a = .NoAction this ∧
      w1.deref this = some z ∧ z.transformed = true ∧
      find_index w.ocean.data this < w.ocean.data.length ∧
      w1.ocean.data = w.ocean.data.set (find_index w.ocean.data this) (some w.heap.length) ∧
      w1.heap.length = w.heap.length + 1 ∧
      w1.deref w.heap.length = some child ∧ child.getSym ∈ ['#', 'R'])

/-- What the body of the first loop of `Ocean::tick` does at a position that
holds `p`, in a valid state: the state stays valid; every other entity stays
where it is, and no entity that existed before appears elsewhere; the other
objects are unchanged or flagged dead; `p` keeps its class and is one `age++`
older; `p` is still in the grid unless it is a stone or reef that was replaced;
and a stone or reef does not move. -/
structure StepEffect (w : World) (p : Nat) (w1 : World) : Prop where
  valid : w1.Valid
  heap_length : w.heap.length ≤ w1.heap.length
  stay : ∀ q j : Nat, q ≠ p → w.ocean.data[j]? = some (some q) →
    w1.ocean.data[j]? = some (some q)
  origin : ∀ q j : Nat, q ≠ p → q < w.heap.length → w1.ocean.data[j]? = some (some q) →
    w.ocean.data[j]? = some (some q)
  others : ∀ (q : Nat) (x : Object), q ≠ p → w.deref q = some x →
    w1.deref q = some x ∨ w1.deref q = some x.die
  self : ∃ x x1 : Object, w.deref p = some x ∧ w1.deref p = some x1 ∧
    x1.getSym = x.getSym ∧ x1.age = x.age_after 1
  kept : (∃ j : Nat, w1.ocean.data[j]? = some (some p)) ∨
    ∃ z : Object, w1.deref p = some z ∧ z.transformed = true
  fixed : ∀ (x : Object) (j : Nat), w.deref p = some x → x.getSym ∈ ['#', 'R'] →
    w1.ocean.data[j]? = some (some p) → w.ocean.data[j]? = some (some p)

/-- The entity at address `q` is recorded at some position of the grid. -/
def Ocean.holds (o : Ocean) (q : Nat) : Prop := ∃ j : Nat, o.data[j]? = some (some q)

/-- The first neighbour in the order North, South, West, East that has the
symbol `sym` is `mature`, as the reproduction block tests it. -/
def World.first_is_mature (w : World) (nb : Neighbourhood) (sym : Char)
    (mature : Object → Bool) : Prop :=
  ∃ (j q : Nat) (x : Object), nb.cells[j]? = some (some q) ∧ w.deref q = some x ∧
    x.getSym = sym ∧ mature x = true ∧
    ∀ (j1 q1 : Nat) (x1 : Object), j1 < j → nb.cells[j1]? = some (some q1) →
      w.deref q1 = some x1 → x1.getSym ≠ sym

/-- The state after a child was spawned at index `k`: the child is allocated,
and its address is stored in the cell `k`. -/
def World.with_child (w : World) (k : Nat) (child : Object) : World :=
  { w with ocean := { w.ocean with data := w.ocean.data.set k (some w.heap.length) },
           heap := w.heap ++ [child] }

/-- A grid of three rows and three columns with a mature prey (age 5, address
0) in the middle; North of it a prey of age 0, South of it a prey of age 5; the
West and East cells are empty. -/
def prey_between_young_and_adult : World :=
  { ocean := { rows := 3, cols := 3,
               data := [none, some 1, none, none, some 0, none, none, some 2, none] },
    heap := [.prey { Prey.new with age := 5 }, .prey Prey.new, .prey { Prey.new with age := 5 }],
    rand_calls := 0 }

/-- A grid of three rows and three columns with a mature prey (age 5, address
0) in the middle and a prey of age 5 North of it; the other cells are empty. -/
def prey_below_adult : World :=
  { ocean := { rows := 3, cols := 3,
               data := [none, some 1, none, none, some 0, none, none, none, none] },
    heap := [.prey { Prey.new with age := 5 }, .prey { Prey.new with age := 5 }],
    rand_calls := 0 }

/-- The state `prey_beside_reef` after one `Ocean::tick` in which no draw is
made: the prey was marked dead by the predator and swept. -/
def prey_beside_reef_after : World :=
  { ocean := { rows := 3, cols := 3,
               data := [none, some 0, none, some 1, none, some 3, none, none, none] },
    heap := [.reef { age := 1 }, .stone { age := 1 },
             .prey { Prey.new with age := 1, isdead := true },
             .predator { Predator.new with age := 1 }],
    rand_calls := 0 }

/-- The number of calls `q->tick(...)` in the first loop of `Ocean::tick`
before it reaches the position `n`: the number of positions `i < n` that held
`q` when the loop reached them. -/
def Ocean.evaluations (env : Env) (w : World) (q : Nat) : Nat → Nat
  | 0 => 0
  | i + 1 =>
    Ocean.evaluations env w q i +
      (match Ocean.scan env w i with
       | some wi => if wi.ocean.data[i]? = some (some q) then 1 else 0
       | none => 0)

/-- A grid of three rows and three columns with one freshly constructed prey
at row 0, column 0. -/
def lone_prey : World :=
  { ocean := { rows := 3, cols := 3,
               data := [some 0, none, none, none, none, none, none, none, none] },
    heap := [.prey Prey.new], rand_calls := 0 }

/-- The invariant of the first loop of `Ocean::tick` for an entity `q` that was
at position `j0`, with the fields `x`, when the loop started; `v` is the state
when the loop reaches position `i`.  The entity has been evaluated as often as
its age tells; not before the loop reached `j0`, and once when it passed `j0`;
a stone or reef exactly once; at most once for each position from `j0` on;
exactly once if its first evaluation left it at no position after `j0`, and
again at the position after `j0` that its first evaluation moved it to. -/
structure Tracked (env : Env) (w : World) (q j0 : Nat) (x : Object) (i : Nat)
    (v : World) : Prop where
  scanned : Ocean.scan env w i = some v
  alive : ∃ xi : Object, v.deref q = some xi ∧ xi.getSym = x.getSym ∧
    (Ocean.evaluations env w q i = 0 → xi.age = x.age) ∧
    (1 ≤ Ocean.evaluations env w q i → xi.age = x.age_after (Ocean.evaluations env w q i))
  before : i ≤ j0 → v.ocean.data[j0]? = some (some q) ∧ Ocean.evaluations env w q i = 0
  after : j0 < i → 1 ≤ Ocean.evaluations env w q i
  fixed : x.getSym ∈ ['#', 'R'] → j0 < i →
    Ocean.evaluations env w q i = 1 ∧
      ∀ j : Nat, v.ocean.data[j]? = some (some q) → j = j0
  count : j0 < i → Ocean.evaluations env w q i + j0 ≤ i
  once : j0 < i → ∀ v0 : World, Ocean.scan env w (j0 + 1) = some v0 →
    (∀ j1 : Nat, v0.ocean.data[j1]? = some (some q) → j1 ≤ j0) →
    Ocean.evaluations env w q i = 1 ∧
      ∀ j : Nat, v.ocean.data[j]? = some (some q) → j ≤ j0
  again : j0 < i → ∀ (v0 : World) (j1 : Nat), Ocean.scan env w (j0 + 1) = some v0 →
    v0.ocean.data[j1]? = some (some q) → j0 < j1 →
    (i ≤ j1 → v.ocean.data[j1]? = some (some q)) ∧
      (j1 < i → 2 ≤ Ocean.evaluations env w q i)

/-- The state `lone_prey` after one `Ocean::tick` in which every draw is 1
(East): the prey is back at row 0, column 0, and has age 3. -/
def lone_prey_after : World :=
  { ocean := lone_prey.ocean, heap := [.prey { Prey.new with age := 3 }], rand_calls := 3 }

/-- What the sweep of `Ocean::tick` leaves in a cell: nothing when the cell
holds an animal flagged dead, the cell as it was otherwise. -/
def World.swept (w : World) : Cell → Cell
  | none => none
  | some q =>
    match w.deref q with
    | some z => if z.flagged_dead then none else some q
    | none => some q

/-- A grid of one row and two columns with a prey of age 7 and a predator of
hunger 7, both one tick before their death check fires. -/
def old_prey_and_starved_predator : World :=
  { ocean := { rows := 1, cols := 2, data := [some 0, some 1] },
    heap := [.prey { Prey.new with age := 7 }, .predator { Predator.new with hunger := 7, speed := 2 }],
    rand_calls := 0 }

/-- A grid of three rows and three columns with an apex predator of hunger 5
at the centre; North of it a prey flagged dead, South of it a live predator,
West of it a live prey, and nothing East of it. -/
def hungry_apex_among_animals : World :=
  { ocean := { rows := 3, cols := 3,
               data := [none, some 1, none, some 3, some 0, none, none, some 2, none] },
    heap := [.apex { ApexPredator.new with hunger := 5, speed := 2 },
             .prey { Prey.new with isdead := true }, .predator Predator.new, .prey Prey.new],
    rand_calls := 0 }

/-- A grid of three rows and three columns with a predator of hunger 2 at the
centre and a prey flagged dead West of it. -/
def predator_of_hunger_2 : World :=
  { ocean := { rows := 3, cols := 3,
               data := [none, none, none, some 1, some 0, none, none, none, none] },
    heap := [.predator { Predator.new with hunger := 2 }, .prey { Prey.new with isdead := true }],
    rand_calls := 0 }

/-- The states of a predator reached from a freshly constructed one by calls
of `Predator::tick` on it, in any world, with any neighbourhood and any draws. -/
inductive Predator.Reachable : Predator → Prop
  | fresh : Predator.Reachable Predator.new
  | tick (env : Env) (w w1 : World) (this : Nat) (nb : Neighbourhood) (a : Action)
      (p p1 : Predator) :
      Predator.Reachable p → w.deref this = some (.predator p) →
      Predator.tick env w this nb = some (a, w1) → w1.deref this = some (.predator p1) →
      Predator.Reachable p1

/-- The states of an apex predator reached from a freshly constructed one by
calls of `ApexPredator::tick` on it, in any world, with any neighbourhood and
any draws. -/
inductive ApexPredator.Reachable : ApexPredator → Prop
  | fresh : ApexPredator.Reachable ApexPredator.new
  | tick (env : Env) (w w1 : World) (this : Nat) (nb : Neighbourhood) (a : Action)
      (p p1 : ApexPredator) :
      ApexPredator.Reachable p → w.deref this = some (.apex p) →
      ApexPredator.tick env w this nb = some (a, w1) → w1.deref this = some (.apex p1) →
      ApexPredator.Reachable p1

/-- A grid of one cell that holds the object `x`, the only object there is. -/
def alone (x : Object) : World :=
  { ocean := { rows := 1, cols := 1, data := [some 0] }, heap := [x], rand_calls := 0 }

/-- A grid of one cell holding a reef of age 3, one tick before it turns into a
stone. -/
def reef_of_age_3 : World :=
  { ocean := { rows := 1, cols := 1, data := [some 0] },
    heap := [.reef { age := 3 }], rand_calls := 0 }

/-- A grid of one cell holding a reef whose age is the greatest `int`. -/
def reef_of_greatest_age : World :=
  { ocean := { rows := 1, cols := 1, data := [some 0] },
    heap := [.reef { age := 2147483647 }], rand_calls := 0 }

/-- The speed of the object is the one the program gives an object of its
class and hunger: 1 for a prey; for a predator 1 up to hunger 2 and 2 from
hunger 3 on; for an apex predator `1 + [hunger ≥ 3] + [hunger ≥ 6]`; the
hunger being in `[0, 7]`. -/
def Object.paced : Object → Bool
  | .prey p => decide (p.speed = 1)
  | .predator p =>
    decide (0 ≤ p.hunger ∧ p.hunger ≤ 7 ∧ (p.hunger ≤ 2 → p.speed = 1) ∧
      (3 ≤ p.hunger → p.speed = 2))
  | .apex p =>
    decide (0 ≤ p.hunger ∧ p.hunger ≤ 7 ∧
      p.speed = 1 + (if 3 ≤ p.hunger then 1 else 0) + (if 6 ≤ p.hunger then 1 else 0))
  | _ => true

/-- Every object of the heap has the speed of its class and hunger. -/
def World.Paced (w : World) : Prop :=
  ∀ (q : Nat) (x : Object), w.deref q = some x → x.paced = true

/-- The state `apex_on_2x1` after four calls of `Ocean::tick` in which every
draw is 0 (North): the apex predator is at row 0 again, with hunger 5 and
speed 2. -/
def apex_on_2x1_after_4 : World :=
  { ocean := { rows := 2, cols := 1, data := [some 0, none] },
    heap := [.apex { age := 5, speed := 2, hunger := 5, adult_ap_nearby := false,
                     isdead := false }],
    rand_calls := 5 }

/-! ## Lemmas -/

theorem first_position_some {obj : Nat} {data : List Cell} {k : Nat}
    (h : first_position obj data = some k) :
    data[k]? = some (some obj) ∧ ∀ j : Nat, j < k → data[j]? ≠ some (some obj) := by
  induction data generalizing k with
  | nil => simp [first_position] at h
  | cons c cs ih =>
    unfold first_position at h
    split at h
    · rename_i hc
      simp at h
      subst h
      simp [hc]
    · rename_i hc
      simp at h
      obtain ⟨k1, hk1, rfl⟩ := h
      obtain ⟨h1, h2⟩ := ih hk1
      refine ⟨by simpa using h1, ?_⟩
      intro j hj
      cases j with
      | zero => simpa using hc
      | succ j => simpa using h2 j (by omega)

theorem first_position_none {obj : Nat} {data : List Cell}
    (h : first_position obj data = none) : ∀ j : Nat, data[j]? ≠ some (some obj) := by
  induction data with
  | nil => simp
  | cons c cs ih =>
    unfold first_position at h
    split at h
    · simp at h
    · rename_i hc
      simp at h
      intro j
      cases j with
      | zero => simpa using hc
      | succ j => simpa using ih h j

theorem find_index_spec {data : List Cell} {obj p : Nat} (h : data[p]? = some (some obj)) :
    data[find_index data obj]? = some (some obj) ∧ find_index data obj ≤ p := by
  unfold find_index
  cases hf : first_position obj data with
  | none => exact absurd h (first_position_none hf p)
  | some k =>
    obtain ⟨h1, h2⟩ := first_position_some hf
    refine ⟨h1, ?_⟩
    by_contra hlt
    exact h2 p (by simpa using hlt) h

theorem find_index_of_exclusive {data : List Cell} {obj p : Nat} (hx : Exclusive data)
    (hp : data[p]? = some (some obj)) : find_index data obj = p :=
  hx _ _ obj (find_index_spec hp).1 hp

/-- A decidable criterion for `Exclusive`: no two cells of the list hold the
same address. -/
theorem Exclusive_of_pairwise {data : List Cell}
    (h : data.Pairwise (fun a b => a = none ∨ a ≠ b)) : Exclusive data := by
  rw [List.pairwise_iff_getElem] at h
  intro i j p hi hj
  obtain ⟨hi1, hi2⟩ := List.getElem?_eq_some_iff.1 hi
  obtain ⟨hj1, hj2⟩ := List.getElem?_eq_some_iff.1 hj
  rcases Nat.lt_trichotomy i j with hlt | heq | hgt
  · have := h i j hi1 hj1 hlt
    rw [hi2, hj2] at this
    simp at this
  · exact heq
  · have := h j i hj1 hi1 hgt
    rw [hi2, hj2] at this
    simp at this

theorem cdiv_eq {a b : Int} (hb : 1 ≤ b) : cdiv a b = some (a.tdiv b) := by
  unfold cdiv
  rw [if_neg (by omega)]

theorem cmod_eq {a b : Int} (hb : 1 ≤ b) : cmod a b = some (a.tmod b) := by
  unfold cmod
  rw [if_neg (by omega)]

theorem tmod_range {a b : Int} (ha : 0 ≤ a) (hb : 1 ≤ b) : 0 ≤ a.tmod b ∧ a.tmod b < b :=
  ⟨Int.tmod_nonneg b ha, Int.tmod_lt_of_pos a (by omega)⟩

theorem cell_index_range {rows cols r c : Int} (hr0 : 0 ≤ r) (hr : r < rows)
    (hc0 : 0 ≤ c) (hc : c < cols) : 0 ≤ r * cols + c ∧ r * cols + c < rows * cols := by
  constructor
  · have := Int.mul_nonneg hr0 (by omega : (0 : Int) ≤ cols)
    omega
  · have h1 : (r + 1) * cols ≤ rows * cols :=
      Int.mul_le_mul_of_nonneg_right (by omega) (by omega)
    have h2 : (r + 1) * cols = r * cols + cols := by ring
    omega

theorem row_col_range {o : Ocean} (hwf : o.WF) {idx : Nat} (hidx : idx < o.data.length) :
    0 ≤ (idx : Int).tdiv o.cols ∧ (idx : Int).tdiv o.cols < o.rows ∧
    0 ≤ (idx : Int).tmod o.cols ∧ (idx : Int).tmod o.cols < o.cols ∧
    (idx : Int).tdiv o.cols * o.cols + (idx : Int).tmod o.cols = idx := by
  have hc := hwf.cols_pos
  have hsz := hwf.size
  have h0 : (0 : Int) ≤ idx := Int.ofNat_nonneg idx
  have hlt : (idx : Int) < o.rows * o.cols := by
    have : (idx : Int) < o.data.length := by exact_mod_cast hidx
    omega
  rw [Int.tdiv_eq_ediv h0 (by omega), Int.tmod_eq_emod h0 (by omega)]
  refine ⟨Int.ediv_nonneg h0 (by omega), Int.ediv_lt_of_lt_mul (by omega) hlt,
    Int.emod_nonneg _ (by omega), Int.emod_lt_of_pos _ (by omega), ?_⟩
  have := Int.ediv_add_emod (idx : Int) o.cols
  rw [Int.mul_comm] at this
  exact this

theorem read_in_range {o : Ocean} {k : Int} (h0 : 0 ≤ k) (h1 : k < o.data.length) :
    ∃ c, o.read k = some c ∧ o.data[k.toNat]? = some c := by
  have hk : k.toNat < o.data.length := by omega
  refine ⟨o.data[k.toNat], ?_, List.getElem?_eq_getElem hk⟩
  unfold Ocean.read
  rw [if_pos h0]
  exact List.getElem?_eq_getElem hk

theorem read_eq_some {o : Ocean} {k : Int} {c : Cell} (h : o.read k = some c) :
    0 ≤ k ∧ k.toNat < o.data.length ∧ o.data[k.toNat]? = some c := by
  unfold Ocean.read at h
  split at h
  · rename_i h0
    refine ⟨h0, ?_, h⟩
    exact (List.getElem?_eq_some_iff.1 h).1
  · simp at h

theorem write_eq_some {o o1 : Ocean} {k : Int} {c : Cell} (h : o.write k c = some o1) :
    0 ≤ k ∧ k.toNat < o.data.length ∧ o1 = { o with data := o.data.set k.toNat c } := by
  unfold Ocean.write at h
  split at h
  · rename_i h0
    simp at h
    exact ⟨h0.1, h0.2, h.symm⟩
  · simp at h

theorem write_in_range {o : Ocean} {k : Int} (c : Cell) (h0 : 0 ≤ k)
    (h1 : k.toNat < o.data.length) :
    o.write k c = some { o with data := o.data.set k.toNat c } := by
  unfold Ocean.write
  rw [if_pos ⟨h0, h1⟩]

/-- On a well-formed grid the four neighbour indices exist and lie in the grid. -/
theorem neighbour_indices_spec {o : Ocean} (hwf : o.WF) {idx : Nat}
    (hidx : idx < o.data.length) :
    ∃ kn ks kw ke : Int, o.neighbour_indices idx = some [kn, ks, kw, ke] ∧
      (0 ≤ kn ∧ kn < o.data.length) ∧ (0 ≤ ks ∧ ks < o.data.length) ∧
      (0 ≤ kw ∧ kw < o.data.length) ∧ (0 ≤ ke ∧ ke < o.data.length) := by
  obtain ⟨hr0, hr1, hc0, hc1, -⟩ := row_col_range hwf hidx
  have hR := hwf.rows_pos
  have hC := hwf.cols_pos
  have hsz := hwf.size
  unfold Ocean.neighbour_indices
  simp only [cdiv_eq hC, cmod_eq hC, cmod_eq hR]
  refine ⟨_, _, _, _, rfl, ?_, ?_, ?_, ?_⟩
  · have h := tmod_range (a := (idx : Int).tdiv o.cols - 1 + o.rows) (by omega) hR
    have := cell_index_range h.1 h.2 hc0 hc1
    omega
  · have h := tmod_range (a := (idx : Int).tdiv o.cols + 1) (by omega) hR
    have := cell_index_range h.1 h.2 hc0 hc1
    omega
  · have h := tmod_range (a := (idx : Int).tmod o.cols - 1 + o.cols) (by omega) hC
    have := cell_index_range hr0 hr1 h.1 h.2
    omega
  · have h := tmod_range (a := (idx : Int).tmod o.cols + 1) (by omega) hC
    have := cell_index_range hr0 hr1 h.1 h.2
    omega

/-- The index the spawning code computes for slot `i` is the index
`generate_neighbourhood` reads for that slot. -/
theorem spawn_index_eq {o : Ocean} (hwf : o.WF) {idx : Nat} (hidx : idx < o.data.length)
    {ks : List Int} (hks : o.neighbour_indices idx = some ks) {i : Nat} (hi : i < 4) :
    o.spawn_index idx i = ks[i]? := by
  obtain ⟨hr0, hr1, hc0, hc1, -⟩ := row_col_range hwf hidx
  have hR := hwf.rows_pos
  have hC := hwf.cols_pos
  unfold Ocean.neighbour_indices at hks
  simp only [cdiv_eq hC, cmod_eq hC, cmod_eq hR, Option.some.injEq] at hks
  subst hks
  unfold Ocean.spawn_index
  simp only [cdiv_eq hC, cmod_eq hC, cmod_eq hR, Option.map_some']
  have hS : ((idx : Int).tdiv o.cols + 1 + o.rows).tmod o.rows
      = ((idx : Int).tdiv o.cols + 1).tmod o.rows := by
    rw [Int.tmod_eq_emod (by omega) (by omega), Int.tmod_eq_emod (by omega) (by omega),
      Int.add_emod_self]
  rcases i with _ | _ | _ | _ | i
  · simp
  · simp [hS]
  · simp
  · simp
  · omega

/-- The increment of an `int` below the greatest `int` is the successor. -/
theorem incr_int_eq {a : Int} (h0 : -2147483648 ≤ a) (h1 : a < 2147483647) :
    incr_int a = a + 1 := by
  unfold incr_int wrap_int
  omega

/-- The increment of the greatest `int` is the least `int`. -/
theorem incr_int_max : incr_int 2147483647 = -2147483648 := by
  unfold incr_int wrap_int
  omega

theorem first_empty_spec {cells : List Cell} {s i : Nat} (h : first_empty cells s = some i) :
    ∃ j : Nat, i = s + j ∧ cells[j]? = some none ∧
      ∀ j1 : Nat, j1 < j → ∃ q : Nat, cells[j1]? = some (some q) := by
  induction cells generalizing s with
  | nil => simp [first_empty] at h
  | cons c cs ih =>
    cases c with
    | none =>
      simp [first_empty] at h
      exact ⟨0, by omega, by simp, by intro j1 hj1; omega⟩
    | some q =>
      simp only [first_empty] at h
      obtain ⟨j, hj, hc, hall⟩ := ih h
      refine ⟨j + 1, by omega, by simpa using hc, ?_⟩
      intro j1 hj1
      cases j1 with
      | zero => exact ⟨q, by simp⟩
      | succ j1 => simpa using hall j1 (by omega)

theorem first_empty_none {cells : List Cell} {s : Nat} (h : first_empty cells s = none) :
    ∀ j : Nat, cells[j]? ≠ some none := by
  induction cells generalizing s with
  | nil => simp
  | cons c cs ih =>
    cases c with
    | none => simp [first_empty] at h
    | some q =>
      simp only [first_empty] at h
      intro j
      cases j with
      | zero => simp
      | succ j => simpa using ih h j

/-- What `generate_neighbourhood` returns: the cells read at the four neighbour
indices. -/
theorem generate_neighbourhood_eq {o : Ocean} {cell : Nat} {nb : Neighbourhood}
    (h : o.generate_neighbourhood cell = some nb) :
    ∃ (kn ks kw ke : Int) (n s w e : Cell),
      o.neighbour_indices (find_index o.data cell : Nat) = some [kn, ks, kw, ke] ∧
      o.read kn = some n ∧ o.read ks = some s ∧ o.read kw = some w ∧ o.read ke = some e ∧
      nb.cells = [n, s, w, e] := by
  unfold Ocean.generate_neighbourhood at h
  split at h
  · rename_i kn ks kw ke hk
    split at h
    · rename_i n s w e hn hs hw he
      simp at h
      subst h
      exact ⟨kn, ks, kw, ke, n, s, w, e, hk, hn, hs, hw, he, rfl⟩
    · simp at h
  · simp at h

/-- On a well-formed grid `generate_neighbourhood` is defined for every entity
of the grid. -/
theorem generate_neighbourhood_defined {o : Ocean} (hwf : o.WF) {cell p : Nat}
    (hp : o.data[p]? = some (some cell)) : ∃ nb, o.generate_neighbourhood cell = some nb := by
  have hlt : find_index o.data cell < o.data.length :=
    (List.getElem?_eq_some_iff.1 (find_index_spec hp).1).1
  obtain ⟨kn, ks, kw, ke, hk, hn, hs, hw, he⟩ := neighbour_indices_spec hwf hlt
  obtain ⟨n, hn1, -⟩ := read_in_range hn.1 hn.2
  obtain ⟨s, hs1, -⟩ := read_in_range hs.1 hs.2
  obtain ⟨w, hw1, -⟩ := read_in_range hw.1 hw.2
  obtain ⟨e, he1, -⟩ := read_in_range he.1 he.2
  refine ⟨{ cells := [n, s, w, e] }, ?_⟩
  unfold Ocean.generate_neighbourhood
  simp [hk, hn1, hs1, hw1, he1]

/-- Slot `i` of the neighbourhood holds what the grid holds at the index the
spawning code computes for slot `i`. -/
theorem slot_eq_read {o : Ocean} (hwf : o.WF) {cell p : Nat}
    (hp : o.data[p]? = some (some cell)) {nb : Neighbourhood}
    (h : o.generate_neighbourhood cell = some nb) {i : Nat} {c : Cell}
    (hc : nb.cells[i]? = some c) :
    ∃ k : Int, o.spawn_index (find_index o.data cell : Nat) i = some k ∧ 0 ≤ k ∧
      k.toNat < o.data.length ∧ o.data[k.toNat]? = some c := by
  have hlt : find_index o.data cell < o.data.length :=
    (List.getElem?_eq_some_iff.1 (find_index_spec hp).1).1
  obtain ⟨kn, ks, kw, ke, n, s, w, e, hk, hn, hs, hw, he, hcells⟩ :=
    generate_neighbourhood_eq h
  rw [hcells] at hc
  have hi : i < 4 := by
    have := (List.getElem?_eq_some_iff.1 hc).1
    simpa using this
  rw [spawn_index_eq hwf hlt hk hi]
  rcases i with _ | _ | _ | _ | i
  · simp at hc
    subst hc
    exact ⟨kn, by simp, read_eq_some hn⟩
  · simp at hc
    subst hc
    exact ⟨ks, by simp, read_eq_some hs⟩
  · simp at hc
    subst hc
    exact ⟨kw, by simp, read_eq_some hw⟩
  · simp at hc
    subst hc
    exact ⟨ke, by simp, read_eq_some he⟩
  · omega

theorem neighbourhood_length {o : Ocean} {cell : Nat} {nb : Neighbourhood}
    (h : o.generate_neighbourhood cell = some nb) : nb.cells.length = 4 := by
  obtain ⟨kn, ks, kw, ke, n, s, w, e, -, -, -, -, -, hcells⟩ := generate_neighbourhood_eq h
  simp [hcells]

theorem find_index_lt_of_nonempty {data : List Cell} (obj : Nat) (h : 0 < data.length) :
    find_index data obj < data.length := by
  unfold find_index
  cases hf : first_position obj data with
  | none => simpa using h
  | some k =>
    have := (first_position_some hf).1
    simpa using (List.getElem?_eq_some_iff.1 this).1

/-- What `Move::apply` does when it is defined: it returns `true`, and either
the destination is occupied and the ocean is unchanged, or the destination is
empty and the object is stored there and the first position holding it is
emptied. -/
theorem Move.apply_spec {o o1 : Ocean} {obj : Nat} {count : Int} {d : Move.Direction}
    {b : Bool} (h : Move.apply o obj count d = some (b, o1)) :
    b = true ∧ ∃ k : Int, Move.new_index o obj count d = some k ∧ 0 ≤ k ∧
      k.toNat < o.data.length ∧
      ((∃ q : Nat, o.data[k.toNat]? = some (some q) ∧ o1 = o) ∨
       (o.data[k.toNat]? = some none ∧
        o1 = { o with data := (o.data.set k.toNat (some obj)).set (find_index o.data obj) none })) := by
  unfold Move.apply at h
  split at h
  · simp at h
  · rename_i k hk
    split at h
    · simp at h
    · rename_i q hr
      simp at h
      obtain ⟨h0, h1, h2⟩ := read_eq_some hr
      exact ⟨h.1, k, hk, h0, h1, Or.inl ⟨q, h2, h.2.symm⟩⟩
    · rename_i hr
      obtain ⟨h0, h1, h2⟩ := read_eq_some hr
      rw [write_in_range _ h0 h1] at h
      simp only at h
      rw [write_in_range _ (Int.ofNat_nonneg _) (by
        simpa using find_index_lt_of_nonempty obj (by omega))] at h
      simp at h
      exact ⟨h.1, k, hk, h0, h1, Or.inr ⟨h2, by rw [← h.2]⟩⟩

/-- `Move::apply` is defined as soon as its destination index is in the grid. -/
theorem Move.apply_defined {o : Ocean} {obj : Nat} {count : Int} {d : Move.Direction}
    {k : Int} (hk : Move.new_index o obj count d = some k) (h0 : 0 ≤ k)
    (h1 : k.toNat < o.data.length) : ∃ o1, Move.apply o obj count d = some (true, o1) := by
  unfold Move.apply
  rw [hk]
  simp only
  have hr : o.read k = o.data[k.toNat]? := by unfold Ocean.read; rw [if_pos h0]
  rw [hr, List.getElem?_eq_getElem h1]
  cases o.data[k.toNat] with
  | some q => exact ⟨o, rfl⟩
  | none =>
    simp only
    rw [write_in_range _ h0 h1]
    simp only
    rw [write_in_range _ (Int.ofNat_nonneg _) (by
      simpa using find_index_lt_of_nonempty obj (by omega))]
    exact ⟨_, rfl⟩

theorem World.spawn_spec {w w1 : World} {this i : Nat} {child : Object}
    (h : w.spawn this i child = some w1) :
    ∃ k : Int, w.ocean.spawn_index (find_index w.ocean.data this : Nat) i = some k ∧ 0 ≤ k ∧
      k.toNat < w.ocean.data.length ∧
      w1 = { w with ocean := { w.ocean with data := w.ocean.data.set k.toNat (some w.heap.length) },
                    heap := w.heap ++ [child] } := by
  unfold World.spawn at h
  split at h
  · simp at h
  · rename_i k hk
    split at h
    · simp at h
    · rename_i o1 hw
      obtain ⟨h0, h1, h2⟩ := write_eq_some hw
      simp at h
      exact ⟨k, hk, h0, h1, by rw [← h, h2]⟩

theorem World.spawn_first_empty_spec {w w1 : World} {this : Nat} {nb : Neighbourhood}
    {child : Object} (h : w.spawn_first_empty this nb child = some w1) :
    (first_empty nb.cells 0 = none ∧ w1 = w) ∨
    ∃ i : Nat, first_empty nb.cells 0 = some i ∧ w.spawn this i child = some w1 := by
  unfold World.spawn_first_empty at h
  split at h
  · rename_i hf
    simp at h
    exact Or.inl ⟨hf, h.symm⟩
  · rename_i i hf
    exact Or.inr ⟨i, hf, h⟩

/-- A reproduction block either leaves the state as it is or spawns the child
at the first empty slot. -/
theorem World.reproduce_spec {w w1 : World} {this : Nat} {nb : Neighbourhood} {sym : Char}
    {mature : Object → Bool} {child : Object}
    (h : w.reproduce this nb sym mature child = some w1) :
    w1 = w ∨ ∃ i : Nat, first_empty nb.cells 0 = some i ∧ w.spawn this i child = some w1 := by
  unfold World.reproduce at h
  split at h
  · simp at h
  · simp at h
    exact Or.inl h.symm
  · split at h
    · simp at h
    · split at h
      · rcases World.spawn_first_empty_spec h with ⟨-, h1⟩ | h1
        · exact Or.inl h1
        · exact Or.inr h1
      · simp at h
        exact Or.inl h.symm

theorem World.deref_store_self {w : World} {p : Nat} (x : Object) (hp : p < w.heap.length) :
    (w.store p x).deref p = some x := by
  simp [World.store, World.deref, List.getElem?_set, hp]

theorem World.deref_store_ne {w : World} {p q : Nat} (x : Object) (hpq : p ≠ q) :
    (w.store p x).deref q = w.deref q := by
  simp [World.store, World.deref, List.getElem?_set, hpq]

theorem World.deref_lt {w : World} {p : Nat} {x : Object} (h : w.deref p = some x) :
    p < w.heap.length := (List.getElem?_eq_some_iff.1 h).1

theorem World.allocated_store {w : World} {cells : List Cell} (h : w.allocated cells)
    (p : Nat) (x : Object) : (w.store p x).allocated cells := by
  intro j q hj
  obtain ⟨y, hy⟩ := h j q hj
  by_cases hpq : p = q
  · subst hpq
    exact ⟨x, World.deref_store_self _ (World.deref_lt hy)⟩
  · exact ⟨y, by rw [World.deref_store_ne _ hpq]; exact hy⟩


/-- A decidable criterion for `World.allocated`. -/
theorem allocated_of_all {w : World} {cells : List Cell}
    (h : cells.all (fun c => c.all (fun q => decide (q < w.heap.length))) = true) :
    w.allocated cells := by
  intro j q hj
  have hmem : some q ∈ cells := List.mem_iff_getElem?.2 ⟨j, hj⟩
  have := List.all_eq_true.1 h (some q) hmem
  simp at this
  exact ⟨w.heap[q], by simp [World.deref, List.getElem?_eq_getElem this]⟩

/-- A decidable criterion for a property of every allocated neighbour. -/
theorem neighbours_of_all {w : World} {cells : List Cell} (f : Object → Bool)
    (h : cells.all (fun c => c.all (fun q => (w.heap[q]?).all f)) = true) :
    ∀ (j q : Nat) (x : Object), cells[j]? = some (some q) → w.deref q = some x → f x = true := by
  intro j q x hj hx
  have hmem : some q ∈ cells := List.mem_iff_getElem?.2 ⟨j, hj⟩
  have := List.all_eq_true.1 h (some q) hmem
  simp only [Option.all_some] at this
  unfold World.deref at hx
  rw [hx] at this
  simpa using this

/-- A decidable criterion for `World.Valid`. -/
theorem valid_of_checks {w : World} (hr : 1 ≤ w.ocean.rows) (hc : 1 ≤ w.ocean.cols)
    (hs : (w.ocean.data.length : Int) = w.ocean.rows * w.ocean.cols)
    (hx : w.ocean.data.Pairwise (fun a b => a = none ∨ a ≠ b))
    (ha : w.ocean.data.all (fun c => c.all (fun q => decide (q < w.heap.length))) = true) :
    w.Valid := by
  refine ⟨⟨hr, hc, hs⟩, Exclusive_of_pairwise hx, ?_⟩
  intro i p hi
  obtain ⟨x, hx1⟩ := allocated_of_all ha i p hi
  exact World.deref_lt hx1

/-- The result of a loop that looks for the first neighbour with one of the
symbols `syms`, when every neighbour is allocated. -/
theorem World.first_with_sym_spec (w : World) (syms : List Char) {cells : List Cell}
    (hall : w.allocated cells) (s : Nat) :
    (w.first_with_sym syms cells s = some none ∧
      ∀ (j q : Nat) (x : Object), cells[j]? = some (some q) → w.deref q = some x →
        x.getSym ∉ syms) ∨
    ∃ (j q : Nat) (x : Object), w.first_with_sym syms cells s = some (some (s + j, q)) ∧
      cells[j]? = some (some q) ∧ w.deref q = some x ∧ x.getSym ∈ syms ∧
      ∀ (j1 q1 : Nat) (x1 : Object), j1 < j → cells[j1]? = some (some q1) →
        w.deref q1 = some x1 → x1.getSym ∉ syms := by
  induction cells generalizing s with
  | nil => left; simp [World.first_with_sym]
  | cons c cs ih =>
    have hall1 : w.allocated cs := fun j q hj => hall (j + 1) q (by simpa using hj)
    cases c with
    | none =>
      simp only [World.first_with_sym]
      rcases ih hall1 (s + 1) with ⟨h1, h2⟩ | ⟨j, q, x, h1, h2, h3, h4, h5⟩
      · left
        refine ⟨h1, ?_⟩
        intro j q x hj hx
        cases j with
        | zero => simp at hj
        | succ j => exact h2 j q x (by simpa using hj) hx
      · right
        refine ⟨j + 1, q, x, ?_, by simpa using h2, h3, h4, ?_⟩
        · rw [h1]; congr 3; omega
        · intro j1 q1 x1 hj1 hc hx
          cases j1 with
          | zero => simp at hc
          | succ j1 => exact h5 j1 q1 x1 (by omega) (by simpa using hc) hx
    | some q0 =>
      obtain ⟨x0, hx0⟩ := hall 0 q0 (by simp)
      simp only [World.first_with_sym, hx0]
      by_cases hs : x0.getSym ∈ syms
      · right
        rw [if_pos hs]
        exact ⟨0, q0, x0, rfl, by simp, hx0, hs, by intro j1 q1 x1 hj1; omega⟩
      · rw [if_neg hs]
        rcases ih hall1 (s + 1) with ⟨h1, h2⟩ | ⟨j, q, x, h1, h2, h3, h4, h5⟩
        · left
          refine ⟨h1, ?_⟩
          intro j q x hj hx
          cases j with
          | zero =>
            simp at hj
            subst hj
            rw [hx0] at hx
            simp at hx
            subst hx
            exact hs
          | succ j => exact h2 j q x (by simpa using hj) hx
        · right
          refine ⟨j + 1, q, x, ?_, by simpa using h2, h3, h4, ?_⟩
          · rw [h1]; congr 3; omega
          · intro j1 q1 x1 hj1 hc hx
            cases j1 with
            | zero =>
              simp at hc
              subst hc
              rw [hx0] at hx
              simp at hx
              subst hx
              exact hs
            | succ j1 => exact h5 j1 q1 x1 (by omega) (by simpa using hc) hx

/-- The second loop of `Prey::tick` is defined when every neighbour is
allocated. -/
theorem World.any_with_sym_defined (w : World) (sym : Char) {cells : List Cell}
    (hall : w.allocated cells) : ∃ b, w.any_with_sym sym cells = some b := by
  induction cells with
  | nil => exact ⟨false, rfl⟩
  | cons c cs ih =>
    have hall1 : w.allocated cs := fun j q hj => hall (j + 1) q (by simpa using hj)
    obtain ⟨b, hb⟩ := ih hall1
    cases c with
    | none => exact ⟨b, by simp [World.any_with_sym, hb]⟩
    | some q0 =>
      obtain ⟨x0, hx0⟩ := hall 0 q0 (by simp)
      exact ⟨(x0.getSym == sym || b), by simp [World.any_with_sym, hb, hx0]⟩

/-- The result of the hunting loop when every neighbour is allocated. -/
theorem World.first_victim_spec (w : World) (b : Bool) {cells : List Cell}
    (hall : w.allocated cells) :
    (w.first_victim b cells = some none ∧
      ∀ (j q : Nat) (x : Object), cells[j]? = some (some q) → w.deref q = some x →
        x.is_victim b = false) ∨
    ∃ (j q : Nat) (x : Object), w.first_victim b cells = some (some q) ∧
      cells[j]? = some (some q) ∧ w.deref q = some x ∧ x.is_victim b = true ∧
      ∀ (j1 q1 : Nat) (x1 : Object), j1 < j → cells[j1]? = some (some q1) →
        w.deref q1 = some x1 → x1.is_victim b = false := by
  induction cells with
  | nil => left; simp [World.first_victim]
  | cons c cs ih =>
    have hall1 : w.allocated cs := fun j q hj => hall (j + 1) q (by simpa using hj)
    have lift_none : ∀ (x0 : Object) (q0 : Nat), w.deref q0 = some x0 →
        x0.is_victim b = false →
        (∀ (j q : Nat) (x : Object), cs[j]? = some (some q) → w.deref q = some x →
          x.is_victim b = false) →
        ∀ (j q : Nat) (x : Object), (some q0 :: cs)[j]? = some (some q) →
          w.deref q = some x → x.is_victim b = false := by
      intro x0 q0 hx0 hv h2 j q x hj hx
      cases j with
      | zero =>
        simp at hj
        subst hj
        rw [hx0] at hx
        simp at hx
        subst hx
        exact hv
      | succ j => exact h2 j q x (by simpa using hj) hx
    cases c with
    | none =>
      simp only [World.first_victim]
      rcases ih hall1 with ⟨h1, h2⟩ | ⟨j, q, x, h1, h2, h3, h4, h5⟩
      · left
        refine ⟨h1, ?_⟩
        intro j q x hj hx
        cases j with
        | zero => simp at hj
        | succ j => exact h2 j q x (by simpa using hj) hx
      · right
        refine ⟨j + 1, q, x, h1, by simpa using h2, h3, h4, ?_⟩
        intro j1 q1 x1 hj1 hc hx
        cases j1 with
        | zero => simp at hc
        | succ j1 => exact h5 j1 q1 x1 (by omega) (by simpa using hc) hx
    | some q0 =>
      obtain ⟨x0, hx0⟩ := hall 0 q0 (by simp)
      by_cases hv : x0.is_victim b = true
      · right
        refine ⟨0, q0, x0, ?_, by simp, hx0, hv, by intro j1 q1 x1 hj1; omega⟩
        cases x0 with
        | prey p => simp only [World.first_victim, hx0]; rw [if_pos (by simpa [Object.is_victim] using hv)]
        | predator p => simp only [World.first_victim, hx0]; rw [if_pos (by simpa [Object.is_victim] using hv)]
        | stone s => simp [Object.is_victim] at hv
        | reef r => simp [Object.is_victim] at hv
        | apex a => simp [Object.is_victim] at hv
      · have hv1 : x0.is_victim b = false := by simpa using hv
        have hstep : w.first_victim b (some q0 :: cs) = w.first_victim b cs := by
          cases x0 with
          | prey p => simp only [World.first_victim, hx0]; rw [if_neg (by simpa [Object.is_victim] using hv)]
          | predator p => simp only [World.first_victim, hx0]; rw [if_neg (by simpa [Object.is_victim] using hv)]
          | stone s => simp only [World.first_victim, hx0]
          | reef r => simp only [World.first_victim, hx0]
          | apex a => simp only [World.first_victim, hx0]
        rw [hstep]
        rcases ih hall1 with ⟨h1, h2⟩ | ⟨j, q, x, h1, h2, h3, h4, h5⟩
        · left
          exact ⟨h1, lift_none x0 q0 hx0 hv1 h2⟩
        · right
          refine ⟨j + 1, q, x, h1, by simpa using h2, h3, h4, ?_⟩
          intro j1 q1 x1 hj1 hc hx
          cases j1 with
          | zero =>
            simp at hc
            subst hc
            rw [hx0] at hx
            simp at hx
            subst hx
            exact hv1
          | succ j1 => exact h5 j1 q1 x1 (by omega) (by simpa using hc) hx

theorem random_move_shape (this : Nat) (speed : Int) (n : Nat) :
    random_move this speed n = .NoAction this ∨
    ∃ (count : Int) (d : Move.Direction), random_move this speed n = .Move this count d := by
  rcases n with _ | _ | _ | _ | n
  · exact Or.inr ⟨speed, .N, rfl⟩
  · exact Or.inr ⟨speed, .E, rfl⟩
  · exact Or.inr ⟨speed, .S, rfl⟩
  · exact Or.inr ⟨speed, .W, rfl⟩
  · exact Or.inl rfl

theorem stone_tick_effect {env : Env} {w w1 : World} {this : Nat} {nb : Neighbourhood}
    {a : Action} (h : Stone.tick env w this nb = some (a, w1)) : TickEffect w this nb a w1 := by
  unfold Stone.tick at h
  split at h
  · rename_i s hs
    have hlt := World.deref_lt hs
    simp only at h
    split at h
    · rename_i hth
      split at h
      · simp at h
      · rename_i o1 hw
        obtain ⟨h0, h1, h2⟩ := write_eq_some hw
        simp at h
        obtain ⟨rfl, rfl⟩ := h
        subst h2
        refine ⟨Or.inl rfl, rfl, rfl, ?_, ?_, ?_⟩
        · intro q x hq hx
          left
          have hql := World.deref_lt hx
          simp only [World.deref, World.store] at hx ⊢
          rw [List.getElem?_append_left (by simpa using hql)]
          simpa [List.getElem?_set, Ne.symm hq] using hx
        · refine ⟨_, .stone { age := incr_int s.age }, hs, ?_, rfl, by simp [Object.age, Object.age_after, incr_int]⟩
          simp only [World.deref, World.store]
          rw [List.getElem?_append_left (by simpa using hlt)]
          simp [List.getElem?_set, hlt]
        · right; right
          refine ⟨_, .stone { age := incr_int s.age }, .reef (Reef.new (env.junk (w.heap.set this
              (.stone { age := incr_int s.age })).length)), hs, by simp [Object.getSym], rfl,
            ?_, by simpa [Object.transformed] using hth,
            by simpa [World.store] using h1,
            by simp [World.store], by simp [World.store], ?_, by simp [Object.getSym]⟩
          · simp only [World.deref, World.store]
            rw [List.getElem?_append_left (by simpa using hlt)]
            simp [List.getElem?_set, hlt]
          · simp only [World.deref, World.store]
            rw [List.getElem?_append_right (by simp)]
            simp
    · simp at h
      obtain ⟨rfl, rfl⟩ := h
      refine ⟨Or.inl rfl, rfl, rfl, ?_, ?_, Or.inl ⟨rfl, by simp [World.store]⟩⟩
      · intro q x hq hx
        left
        rw [World.deref_store_ne _ (Ne.symm hq)]
        exact hx
      · exact ⟨_, _, hs, World.deref_store_self _ hlt, rfl,
          by simp [Object.age, Object.age_after, incr_int]⟩
  · simp at h

theorem reef_tick_effect {w w1 : World} {this : Nat} {nb : Neighbourhood}
    {a : Action} (h : Reef.tick w this nb = some (a, w1)) : TickEffect w this nb a w1 := by
  unfold Reef.tick at h
  split at h
  · rename_i s hs
    have hlt := World.deref_lt hs
    simp only at h
    split at h
    · rename_i hth
      split at h
      · simp at h
      · rename_i o1 hw
        obtain ⟨h0, h1, h2⟩ := write_eq_some hw
        simp at h
        obtain ⟨rfl, rfl⟩ := h
        subst h2
        refine ⟨Or.inl rfl, rfl, rfl, ?_, ?_, ?_⟩
        · intro q x hq hx
          left
          have hql := World.deref_lt hx
          simp only [World.deref, World.store] at hx ⊢
          rw [List.getElem?_append_left (by simpa using hql)]
          simpa [List.getElem?_set, Ne.symm hq] using hx
        · refine ⟨_, .reef { age := incr_int s.age }, hs, ?_, rfl, by simp [Object.age, Object.age_after, incr_int]⟩
          simp only [World.deref, World.store]
          rw [List.getElem?_append_left (by simpa using hlt)]
          simp [List.getElem?_set, hlt]
        · right; right
          refine ⟨_, .reef { age := incr_int s.age }, .stone Stone.new, hs,
            by simp [Object.getSym], rfl,
            ?_, by simpa [Object.transformed] using hth,
            by simpa [World.store] using h1,
            by simp [World.store], by simp [World.store], ?_, by simp [Object.getSym]⟩
          · simp only [World.deref, World.store]
            rw [List.getElem?_append_left (by simpa using hlt)]
            simp [List.getElem?_set, hlt]
          · simp only [World.deref, World.store]
            rw [List.getElem?_append_right (by simp)]
            simp
    · simp at h
      obtain ⟨rfl, rfl⟩ := h
      refine ⟨Or.inl rfl, rfl, rfl, ?_, ?_, Or.inl ⟨rfl, by simp [World.store]⟩⟩
      · intro q x hq hx
        left
        rw [World.deref_store_ne _ (Ne.symm hq)]
        exact hx
      · exact ⟨_, _, hs, World.deref_store_self _ hlt, rfl,
          by simp [Object.age, Object.age_after, incr_int]⟩
  · simp at h

/-- The effect of the last part of the tick of an animal: after the store of
the incremented age, an optional spawn, then an optional store to the fields of
`this`, with the grid of the state after the spawn. -/
theorem effect_after_reproduce {w v w3 : World} {this : Nat} {nb : Neighbourhood}
    {a : Action} {x y z c : Object}
    (hx : w.deref this = some x) (hsym : x.getSym ∈ ['F', 'P', 'A'])
    (h3s : z.getSym = x.getSym) (h3a : z.age = x.age_after 1)
    (hc0 : c.age = 0) (hcs : c.getSym = x.getSym)
    (hrep : v = w.store this y ∨
      ∃ i : Nat, first_empty nb.cells 0 = some i ∧
        (w.store this y).spawn this i c = some v)
    (hoc : w3.ocean = v.ocean)
    (hheap : (w3.heap = v.heap ∧ z = y) ∨ w3.heap = v.heap.set this z)
    (ha : a = .NoAction this ∨ ∃ (count : Int) (d : Move.Direction), a = .Move this count d) :
    TickEffect w this nb a w3 := by
  have hlt := World.deref_lt hx
  replace ha : a = .NoAction this ∨
      ∃ (count : Int) (d : Move.Direction) (x : Object), a = .Move this count d ∧
        w.deref this = some x ∧ x.getSym ∈ ['F', 'P', 'A'] := by
    rcases ha with h | ⟨count, d, h⟩
    · exact Or.inl h
    · exact Or.inr ⟨count, d, x, h, hx, hsym⟩
  have hd3 : ∀ q : Nat, w3.deref q = w3.heap[q]? := fun q => rfl
  rcases hrep with rfl | ⟨i, hi, hsp⟩
  · -- no spawn
    have hself : w3.deref this = some z := by
      rw [hd3]
      rcases hheap with ⟨h, rfl⟩ | h
      · rw [h]; simp [World.store, List.getElem?_set, hlt]
      · rw [h]; simp [World.store, List.getElem?_set, hlt]
    have hoth : ∀ q : Nat, q ≠ this → w3.deref q = w.deref q := by
      intro q hq
      rw [hd3]
      rcases hheap with ⟨h, -⟩ | h
      · rw [h]; simp [World.store, World.deref, List.getElem?_set, Ne.symm hq]
      · rw [h]; simp [World.store, World.deref, List.getElem?_set, Ne.symm hq]
    refine ⟨ha, by rw [hoc]; rfl, by rw [hoc]; rfl, ?_, ⟨x, z, hx, hself, h3s, h3a⟩, ?_⟩
    · intro q y hq hy
      left
      rw [hoth q hq]
      exact hy
    · left
      refine ⟨by rw [hoc]; rfl, ?_⟩
      rcases hheap with ⟨h, -⟩ | h
      · rw [h]; simp [World.store]
      · rw [h]; simp [World.store]
  · obtain ⟨k, hk, hk0, hk1, rfl⟩ := World.spawn_spec hsp
    simp only [World.store] at hoc hheap hk hk1
    have hself : w3.deref this = some z := by
      rw [hd3]
      rcases hheap with ⟨h, rfl⟩ | h
      · rw [h, List.getElem?_append_left (by simpa using hlt)]
        simp [List.getElem?_set, hlt]
      · rw [h, List.getElem?_set]
        simp
        omega
    have hoth : ∀ q : Nat, q ≠ this → q < w.heap.length → w3.deref q = w.deref q := by
      intro q hq hql
      rw [hd3]
      rcases hheap with ⟨h, -⟩ | h
      · rw [h, List.getElem?_append_left (by simpa using hql)]
        simp [World.deref, List.getElem?_set, Ne.symm hq]
      · rw [h, List.getElem?_set_ne (Ne.symm hq), List.getElem?_append_left (by simpa using hql)]
        simp [World.deref, List.getElem?_set, Ne.symm hq]
    have hchild : w3.deref w.heap.length = some c := by
      rw [hd3]
      rcases hheap with ⟨h, -⟩ | h
      · rw [h, List.getElem?_append_right (by simp)]
        simp
      · rw [h, List.getElem?_set_ne (by omega), List.getElem?_append_right (by simp)]
        simp
    refine ⟨ha, by rw [hoc], by rw [hoc], ?_, ⟨x, z, hx, hself, h3s, h3a⟩, ?_⟩
    · intro q y hq hy
      left
      rw [hoth q hq (World.deref_lt hy)]
      exact hy
    · right; left
      refine ⟨x, c, i, k, hx, hsym, hi, hk, hk0, hk1, ?_, ?_, hchild, hc0, hcs⟩
      · rw [hoc]
        simp
      · rcases hheap with ⟨h, -⟩ | h
        · rw [h]; simp
        · rw [h]; simp

/-- The effect of a tick that only writes to `this`, to its victim `v` (which
may be absent), and to `this` again. -/
theorem effect_without_spawn {w w3 : World} {this : Nat} {nb : Neighbourhood}
    {a : Action} {x z : Object}
    (hx : w.deref this = some x) (hsym : x.getSym ∈ ['F', 'P', 'A'])
    (h3s : z.getSym = x.getSym) (h3a : z.age = x.age_after 1)
    (hoc : w3.ocean = w.ocean) (hlen : w3.heap.length = w.heap.length)
    (hself : w3.deref this = some z)
    (hoth : ∀ (q : Nat) (y : Object), q ≠ this → w.deref q = some y →
      w3.deref q = some y ∨ w3.deref q = some y.die)
    (ha : a = .NoAction this ∨ ∃ (count : Int) (d : Move.Direction), a = .Move this count d) :
    TickEffect w this nb a w3 := by
  refine ⟨?_, by rw [hoc], by rw [hoc], hoth, ⟨x, z, hx, hself, h3s, h3a⟩,
    Or.inl ⟨by rw [hoc], hlen⟩⟩
  rcases ha with h | ⟨count, d, h⟩
  · exact Or.inl h
  · exact Or.inr ⟨count, d, x, h, hx, hsym⟩

theorem prey_tick_effect {env : Env} {w w1 : World} {this : Nat} {nb : Neighbourhood}
    {a : Action} (h : Prey.tick env w this nb = some (a, w1)) : TickEffect w this nb a w1 := by
  unfold Prey.tick at h
  split at h
  · rename_i p hp
    have hlt := World.deref_lt hp
    simp only at h
    split at h
    · -- death by age
      simp at h
      obtain ⟨rfl, rfl⟩ := h
      refine effect_without_spawn (z := .prey { p with age := incr_unsigned p.age, isdead := true })
        hp (by simp [Object.getSym]) rfl rfl rfl (by simp [World.store]) ?_ ?_ (Or.inl rfl)
      · rw [World.deref_store_self _ (by simpa [World.store] using hlt)]
      · intro q y hq hy
        left
        rw [World.deref_store_ne _ (Ne.symm hq), World.deref_store_ne _ (Ne.symm hq)]
        exact hy
    · split at h
      · rename_i pn rn hpn hrn
        split at h
        · -- flight
          simp at h
          obtain ⟨rfl, rfl⟩ := h
          refine effect_without_spawn (z := .prey { p with age := incr_unsigned p.age })
            hp (by simp [Object.getSym]) rfl rfl rfl (by simp [World.store]) (World.deref_store_self _ hlt) ?_
            (Or.inr ⟨_, _, rfl⟩)
          intro q y hq hy
          left
          rw [World.deref_store_ne _ (Ne.symm hq)]
          exact hy
        · split at h
          · simp at h
          · rename_i w2 hw2
            simp only [World.draw_move, Option.some.injEq, Prod.mk.injEq] at h
            obtain ⟨rfl, rfl⟩ := h
            refine effect_after_reproduce (y := .prey { p with age := incr_unsigned p.age })
              (z := .prey { p with age := incr_unsigned p.age }) (c := .prey Prey.new)
              (v := w2) hp (by simp [Object.getSym]) rfl rfl rfl rfl ?_ rfl (Or.inl ⟨rfl, rfl⟩)
              (random_move_shape _ _ _)
            split at hw2
            · rcases World.reproduce_spec hw2 with h1 | h1
              · exact Or.inl h1
              · exact Or.inr h1
            · simp at hw2
              exact Or.inl hw2.symm
      · simp at h
  · simp at h

theorem predator_tick_effect {env : Env} {w w1 : World} {this : Nat} {nb : Neighbourhood}
    {a : Action} (h : Predator.tick env w this nb = some (a, w1)) :
    TickEffect w this nb a w1 := by
  unfold Predator.tick at h
  split at h
  · rename_i p hp
    have hlt := World.deref_lt hp
    simp only at h
    split at h
    · -- death by age or hunger
      simp at h
      obtain ⟨rfl, rfl⟩ := h
      refine effect_without_spawn
        (z := .predator { p with age := incr_unsigned p.age, isdead := true })
        hp (by simp [Object.getSym]) rfl rfl rfl (by simp [World.store]) ?_ ?_ (Or.inl rfl)
      · rw [World.deref_store_self _ (by simpa [World.store] using hlt)]
      · intro q y hq hy
        left
        rw [World.deref_store_ne _ (Ne.symm hq), World.deref_store_ne _ (Ne.symm hq)]
        exact hy
    · split at h
      · simp at h
      · -- a kill
        rename_i victim hv
        split at h
        · simp at h
        · rename_i y hy
          simp at h
          obtain ⟨rfl, rfl⟩ := h
          refine effect_without_spawn
            (z := .predator { p with age := incr_unsigned p.age, hunger := 0, speed := 1 })
            hp (by simp [Object.getSym]) rfl rfl rfl (by simp [World.store]) ?_ ?_ (Or.inl rfl)
          · rw [World.deref_store_self _ (by simpa [World.store] using hlt)]
          · intro q z hq hz
            rw [World.deref_store_ne _ (Ne.symm hq)]
            by_cases hqv : victim = q
            · subst hqv
              right
              rw [World.deref_store_self _ (by simpa [World.store] using World.deref_lt hz)]
              rw [World.deref_store_ne _ (Ne.symm hq), hz] at hy
              simp at hy
              rw [hy]
            · left
              rw [World.deref_store_ne _ hqv, World.deref_store_ne _ (Ne.symm hq)]
              exact hz
      · split at h
        · simp at h
        · rename_i w2 hw2
          simp only [World.draw_move, Option.some.injEq, Prod.mk.injEq] at h
          obtain ⟨rfl, rfl⟩ := h
          refine effect_after_reproduce (y := .predator { p with age := incr_unsigned p.age })
            (z := .predator { age := incr_unsigned p.age, speed := (if p.hunger = 2 then p.speed + 1 else p.speed), hunger := p.hunger + 1, adult_predator_nearby := p.adult_predator_nearby, isdead := p.isdead })
            (c := .predator Predator.new)
            (v := w2) hp (by simp [Object.getSym]) rfl rfl rfl rfl ?_ rfl (Or.inr rfl)
            (random_move_shape _ _ _)
          split at hw2
          · rcases World.reproduce_spec hw2 with h1 | h1
            · exact Or.inl h1
            · exact Or.inr h1
          · simp at hw2
            exact Or.inl hw2.symm
  · simp at h

theorem apex_tick_effect {env : Env} {w w1 : World} {this : Nat}
    {nb : Neighbourhood} {a : Action} (h : ApexPredator.tick env w this nb = some (a, w1)) :
    TickEffect w this nb a w1 := by
  unfold ApexPredator.tick at h
  split at h
  · rename_i p hp
    have hlt := World.deref_lt hp
    simp only at h
    split at h
    · -- death by age or hunger
      simp at h
      obtain ⟨rfl, rfl⟩ := h
      refine effect_without_spawn
        (z := .apex { p with age := incr_unsigned p.age, isdead := true })
        hp (by simp [Object.getSym]) rfl rfl rfl (by simp [World.store]) ?_ ?_ (Or.inl rfl)
      · rw [World.deref_store_self _ (by simpa [World.store] using hlt)]
      · intro q y hq hy
        left
        rw [World.deref_store_ne _ (Ne.symm hq), World.deref_store_ne _ (Ne.symm hq)]
        exact hy
    · split at h
      · simp at h
      · -- a kill
        rename_i victim hv
        split at h
        · simp at h
        · rename_i y hy
          simp at h
          obtain ⟨rfl, rfl⟩ := h
          refine effect_without_spawn
            (z := .apex { p with age := incr_unsigned p.age, hunger := 0, speed := 1 })
            hp (by simp [Object.getSym]) rfl rfl rfl (by simp [World.store]) ?_ ?_ (Or.inl rfl)
          · rw [World.deref_store_self _ (by simpa [World.store] using hlt)]
          · intro q z hq hz
            rw [World.deref_store_ne _ (Ne.symm hq)]
            by_cases hqv : victim = q
            · subst hqv
              right
              rw [World.deref_store_self _ (by simpa [World.store] using World.deref_lt hz)]
              rw [World.deref_store_ne _ (Ne.symm hq), hz] at hy
              simp at hy
              rw [hy]
            · left
              rw [World.deref_store_ne _ hqv, World.deref_store_ne _ (Ne.symm hq)]
              exact hz
      · split at h
        · simp at h
        · rename_i w2 hw2
          simp only [World.draw_move, Option.some.injEq, Prod.mk.injEq] at h
          obtain ⟨rfl, rfl⟩ := h
          refine effect_after_reproduce (y := .apex { p with age := incr_unsigned p.age })
            (z := .apex { age := incr_unsigned p.age, speed := (if p.hunger = 5 then (if p.hunger = 2 then p.speed + 1 else p.speed) + 1 else (if p.hunger = 2 then p.speed + 1 else p.speed)), hunger := p.hunger + 1, adult_ap_nearby := p.adult_ap_nearby, isdead := p.isdead })
            (c := .apex ApexPredator.new)
            (v := w2) hp (by simp [Object.getSym]) rfl rfl rfl rfl ?_ rfl (Or.inr rfl)
            (random_move_shape _ _ _)
          split at hw2
          · rcases World.reproduce_spec hw2 with h1 | h1
            · exact Or.inl h1
            · exact Or.inr h1
          · simp at hw2
            exact Or.inl hw2.symm
  · simp at h

/-- Every defined call `cell->tick(neighbourhood, ocean)` has the effect
`TickEffect`. -/
theorem object_tick_effect {env : Env} {w w1 : World} {this : Nat} {nb : Neighbourhood}
    {a : Action} (h : Object.tick env w this nb = some (a, w1)) : TickEffect w this nb a w1 := by
  unfold Object.tick at h
  split at h
  · simp at h
  · exact stone_tick_effect h
  · exact reef_tick_effect h
  · exact prey_tick_effect h
  · exact predator_tick_effect h
  · exact apex_tick_effect h

theorem Exclusive_set_fresh {data : List Cell} {k h : Nat} (hx : Exclusive data)
    (hfresh : ∀ j : Nat, data[j]? ≠ some (some h)) : Exclusive (data.set k (some h)) := by
  intro i j q hi hj
  rw [List.getElem?_set] at hi hj
  by_cases hik : k = i
  · by_cases hjk : k = j
    · omega
    · rw [if_pos hik] at hi
      rw [if_neg hjk] at hj
      split at hi
      · simp at hi
        subst hi
        exact absurd hj (hfresh j)
      · simp at hi
  · rw [if_neg hik] at hi
    by_cases hjk : k = j
    · rw [if_pos hjk] at hj
      split at hj
      · simp at hj
        subst hj
        exact absurd hi (hfresh i)
      · simp at hj
    · rw [if_neg hjk] at hj
      exact hx i j q hi hj

theorem Exclusive_move {data : List Cell} {s k p : Nat} (hx : Exclusive data)
    (hs : data[s]? = some (some p)) (hk : data[k]? = some none) :
    Exclusive ((data.set k (some p)).set s none) := by
  have hsk : s ≠ k := by
    intro h
    rw [h, hk] at hs
    simp at hs
  have key : ∀ (i q : Nat), ((data.set k (some p)).set s none)[i]? = some (some q) →
      (i = k ∧ q = p) ∨ (i ≠ k ∧ i ≠ s ∧ data[i]? = some (some q)) := by
    intro i q hi
    rw [List.getElem?_set] at hi
    by_cases h1 : s = i
    · rw [if_pos h1] at hi
      split at hi <;> simp at hi
    · rw [if_neg h1, List.getElem?_set] at hi
      by_cases h2 : k = i
      · rw [if_pos h2] at hi
        split at hi
        · simp at hi
          exact Or.inl ⟨h2.symm, hi.symm⟩
        · simp at hi
      · rw [if_neg h2] at hi
        exact Or.inr ⟨Ne.symm h2, Ne.symm h1, hi⟩
  intro i j q hi hj
  rcases key i q hi with ⟨h1, h2⟩ | ⟨h1, h2, h3⟩ <;>
    rcases key j q hj with ⟨h4, h5⟩ | ⟨h4, h5, h6⟩
  · omega
  · subst h2
    exact absurd (hx j s q h6 hs) h5
  · subst h5
    exact absurd (hx i s q h3 hs) h2
  · exact hx i j q h3 h6

/-- The frame of `Move::apply` on a grid that stores each entity once: the grid
stays well-formed and exclusive, every other entity stays where it is, no
entity appears that was not there, and the moved entity is still in the grid. -/
theorem move_frame {o o2 : Ocean} {p i : Nat} {count : Int} {d : Move.Direction} {b : Bool}
    (hwf : o.WF) (hx : Exclusive o.data) (hp : o.data[i]? = some (some p))
    (h : Move.apply o p count d = some (b, o2)) :
    o2.WF ∧ Exclusive o2.data ∧
    (∀ q j : Nat, q ≠ p → o.data[j]? = some (some q) → o2.data[j]? = some (some q)) ∧
    (∀ q j : Nat, q ≠ p → o2.data[j]? = some (some q) → o.data[j]? = some (some q)) ∧
    (∃ j : Nat, o2.data[j]? = some (some p)) ∧
    (∀ q j : Nat, o2.data[j]? = some (some q) → ∃ j1 : Nat, o.data[j1]? = some (some q)) := by
  obtain ⟨-, k, -, hk0, hk1, hcase⟩ := Move.apply_spec h
  rcases hcase with ⟨q, -, rfl⟩ | ⟨hkn, rfl⟩
  · exact ⟨hwf, hx, fun _ _ _ h => h, fun _ _ _ h => h, ⟨i, hp⟩, fun q j h => ⟨j, h⟩⟩
  · have hs : find_index o.data p = i := find_index_of_exclusive hx hp
    rw [hs]
    have hil : i < o.data.length := (List.getElem?_eq_some_iff.1 hp).1
    have hik : i ≠ k.toNat := by
      intro h
      rw [h, hkn] at hp
      simp at hp
    have key : ∀ (j q : Nat), ((o.data.set k.toNat (some p)).set i none)[j]? = some (some q) ↔
        ((j = k.toNat ∧ q = p) ∨ (j ≠ k.toNat ∧ j ≠ i ∧ o.data[j]? = some (some q))) := by
      intro j q
      rw [List.getElem?_set]
      by_cases h1 : i = j
      · rw [if_pos h1]
        constructor
        · intro h
          split at h <;> simp at h
        · rintro (⟨h2, -⟩ | ⟨-, h2, -⟩)
          · omega
          · omega
      · rw [if_neg h1, List.getElem?_set]
        by_cases h2 : k.toNat = j
        · rw [if_pos h2, if_pos hk1]
          constructor
          · intro h
            simp at h
            exact Or.inl ⟨h2.symm, h.symm⟩
          · rintro (⟨-, h3⟩ | ⟨h3, -, -⟩)
            · rw [h3]
            · omega
        · rw [if_neg h2]
          constructor
          · intro h
            exact Or.inr ⟨Ne.symm h2, Ne.symm h1, h⟩
          · rintro (⟨h3, -⟩ | ⟨-, -, h3⟩)
            · omega
            · exact h3
    refine ⟨⟨hwf.rows_pos, hwf.cols_pos, by simpa using hwf.size⟩, Exclusive_move hx hp hkn,
      ?_, ?_, ⟨k.toNat, (key _ _).2 (Or.inl ⟨rfl, rfl⟩)⟩, ?_⟩
    · intro q j hq hj
      refine (key j q).2 (Or.inr ⟨?_, ?_, hj⟩)
      · intro h
        rw [h, hkn] at hj
        simp at hj
      · intro h
        rw [h, hp] at hj
        simp at hj
        exact hq hj.symm
    · intro q j hq hj
      rcases (key j q).1 hj with ⟨-, h1⟩ | ⟨-, -, h1⟩
      · exact absurd h1 hq
      · exact h1
    · intro q j hj
      rcases (key j q).1 hj with ⟨-, h1⟩ | ⟨-, -, h1⟩
      · exact ⟨i, by rw [h1]; exact hp⟩
      · exact ⟨j, h1⟩

/-- The frame of one call of `tick` on a valid state, before the action is
applied. -/
theorem tick_frame {w w1 : World} {p i : Nat} {nb : Neighbourhood} {a : Action}
    (hv : w.Valid) (hp : w.ocean.data[i]? = some (some p))
    (hnb : w.ocean.generate_neighbourhood p = some nb) (E : TickEffect w p nb a w1) :
    w1.Valid ∧ w.heap.length ≤ w1.heap.length ∧
    (∀ q j : Nat, q ≠ p → w.ocean.data[j]? = some (some q) →
      w1.ocean.data[j]? = some (some q)) ∧
    (∀ q j : Nat, q ≠ p → q < w.heap.length → w1.ocean.data[j]? = some (some q) →
      w.ocean.data[j]? = some (some q)) ∧
    (w1.ocean.data[i]? = some (some p) ∨
      (a = .NoAction p ∧ (∀ j : Nat, w1.ocean.data[j]? ≠ some (some p)) ∧
        ∃ z : Object, w1.deref p = some z ∧ z.transformed = true)) ∧
    (∀ j : Nat, w1.ocean.data[j]? = some (some p) → w.ocean.data[j]? = some (some p)) := by
  have hfresh : ∀ j : Nat, w.ocean.data[j]? ≠ some (some w.heap.length) := by
    intro j hj
    exact absurd (hv.allocated j _ hj) (lt_irrefl _)
  have hplt : p < w.heap.length := hv.allocated i p hp
  rcases E.grid with ⟨hd, hl⟩ | ⟨x, child, i1, k, hx, hsym, hi1, hk, hk0, hk1, hd, hl, hch, -, -⟩ |
      ⟨x, z, child, hx, hsym, ha, hz, hzt, hs, hd, hl, hch, -⟩
  · refine ⟨⟨⟨?_, ?_, ?_⟩, by rw [hd]; exact hv.exclusive, ?_⟩, by omega, ?_, ?_, ?_, ?_⟩
    · rw [E.rows]; exact hv.wf.rows_pos
    · rw [E.cols]; exact hv.wf.cols_pos
    · rw [E.rows, E.cols, hd]; exact hv.wf.size
    · intro j q hj
      rw [hd] at hj
      rw [hl]
      exact hv.allocated j q hj
    · intro q j _ hj
      rw [hd]; exact hj
    · intro q j _ _ hj
      rw [hd] at hj; exact hj
    · left
      rw [hd]; exact hp
    · intro j hj
      rw [hd] at hj; exact hj
  · -- a child is spawned at the index `k`
    obtain ⟨j1, hj1, hc1, -⟩ := first_empty_spec hi1
    have hi1' : i1 = j1 := by omega
    subst hi1'
    obtain ⟨k1, hk1', -, -, hkn⟩ := slot_eq_read hv.wf hp hnb hc1
    rw [hk] at hk1'
    simp at hk1'
    subst hk1'
    have key : ∀ (j q : Nat), w1.ocean.data[j]? = some (some q) ↔
        ((j = k.toNat ∧ q = w.heap.length) ∨ (j ≠ k.toNat ∧ w.ocean.data[j]? = some (some q))) := by
      intro j q
      rw [hd, List.getElem?_set]
      by_cases h2 : k.toNat = j
      · rw [if_pos h2, if_pos hk1]
        constructor
        · intro h
          simp at h
          exact Or.inl ⟨h2.symm, h.symm⟩
        · rintro (⟨-, h3⟩ | ⟨h3, -⟩)
          · rw [h3]
          · omega
      · rw [if_neg h2]
        constructor
        · intro h
          exact Or.inr ⟨Ne.symm h2, h⟩
        · rintro (⟨h3, -⟩ | ⟨-, h3⟩)
          · omega
          · exact h3
    have hne : ∀ (j q : Nat), w.ocean.data[j]? = some (some q) → j ≠ k.toNat := by
      intro j q hj h
      rw [h, hkn] at hj
      simp at hj
    refine ⟨⟨⟨?_, ?_, ?_⟩, by rw [hd]; exact Exclusive_set_fresh hv.exclusive hfresh, ?_⟩,
      by omega, ?_, ?_, ?_, ?_⟩
    · rw [E.rows]; exact hv.wf.rows_pos
    · rw [E.cols]; exact hv.wf.cols_pos
    · rw [E.rows, E.cols, hd]; simpa using hv.wf.size
    · intro j q hj
      rcases (key j q).1 hj with ⟨-, h1⟩ | ⟨-, h1⟩
      · omega
      · have := hv.allocated j q h1
        omega
    · intro q j _ hj
      exact (key j q).2 (Or.inr ⟨hne j q hj, hj⟩)
    · intro q j _ hq hj
      rcases (key j q).1 hj with ⟨-, h1⟩ | ⟨-, h1⟩
      · omega
      · exact h1
    · left
      exact (key i p).2 (Or.inr ⟨hne i p hp, hp⟩)
    · intro j hj
      rcases (key j p).1 hj with ⟨-, h1⟩ | ⟨-, h1⟩
      · omega
      · exact h1
  · -- a stone or reef is replaced
    have hsi : find_index w.ocean.data p = i := find_index_of_exclusive hv.exclusive hp
    rw [hsi] at hd hs
    have key : ∀ (j q : Nat), w1.ocean.data[j]? = some (some q) ↔
        ((j = i ∧ q = w.heap.length) ∨ (j ≠ i ∧ w.ocean.data[j]? = some (some q))) := by
      intro j q
      rw [hd, List.getElem?_set]
      by_cases h2 : i = j
      · rw [if_pos h2, if_pos hs]
        constructor
        · intro h
          simp at h
          exact Or.inl ⟨h2.symm, h.symm⟩
        · rintro (⟨-, h3⟩ | ⟨h3, -⟩)
          · rw [h3]
          · omega
      · rw [if_neg h2]
        constructor
        · intro h
          exact Or.inr ⟨Ne.symm h2, h⟩
        · rintro (⟨h3, -⟩ | ⟨-, h3⟩)
          · omega
          · exact h3
    have hgone : ∀ j : Nat, w1.ocean.data[j]? ≠ some (some p) := by
      intro j hj
      rcases (key j p).1 hj with ⟨-, h1⟩ | ⟨h0, h1⟩
      · omega
      · exact h0 (hv.exclusive j i p h1 hp)
    refine ⟨⟨⟨?_, ?_, ?_⟩, by rw [hd]; exact Exclusive_set_fresh hv.exclusive hfresh, ?_⟩,
      by omega, ?_, ?_, ?_, ?_⟩
    · rw [E.rows]; exact hv.wf.rows_pos
    · rw [E.cols]; exact hv.wf.cols_pos
    · rw [E.rows, E.cols, hd]; simpa using hv.wf.size
    · intro j q hj
      rcases (key j q).1 hj with ⟨-, h1⟩ | ⟨-, h1⟩
      · omega
      · have := hv.allocated j q h1
        omega
    · intro q j hq hj
      refine (key j q).2 (Or.inr ⟨?_, hj⟩)
      intro h
      rw [h, hp] at hj
      simp at hj
      exact hq hj.symm
    · intro q j _ hq hj
      rcases (key j q).1 hj with ⟨-, h1⟩ | ⟨-, h1⟩
      · omega
      · exact h1
    · right
      exact ⟨ha, hgone, z, hz, hzt⟩
    · intro j hj
      exact absurd hj (hgone j)

/-- The body of the first loop of `Ocean::tick`, at a position that holds `p`
in a valid state, has the effect `StepEffect`. -/
theorem tick_cell_effect {env : Env} {w w1 : World} {p i : Nat} (hv : w.Valid)
    (hp : w.ocean.data[i]? = some (some p)) (h : Ocean.tick_cell env w i = some w1) :
    StepEffect w p w1 := by
  unfold Ocean.tick_cell at h
  rw [hp] at h
  simp only at h
  split at h
  · simp at h
  · rename_i nb hnb
    split at h
    · simp at h
    · rename_i a w0 htick
      have E := object_tick_effect htick
      obtain ⟨hv0, hlen, hstay, horigin, hkept, hpos⟩ := tick_frame hv hp hnb E
      split at h
      · simp at h
      · rename_i b o2 happ
        simp at h
        subst h
        have hfixed0 : ∀ (x : Object), w.deref p = some x → x.getSym ∈ ['#', 'R'] →
            a = .NoAction p := by
          intro x hx hsym
          rcases E.action with h1 | ⟨count, d, y, -, hy, hysym⟩
          · exact h1
          · rw [hx] at hy
            simp at hy
            subst hy
            simp at hsym hysym
            rcases hsym with h | h <;> rcases hysym with h1 | h1 | h1 <;> rw [h] at h1 <;>
              simp at h1
        cases a with
        | NoAction obj =>
          simp [Action.apply, NoAction.apply] at happ
          obtain ⟨-, rfl⟩ := happ
          refine ⟨hv0, hlen, hstay, horigin, E.others, E.self, ?_, ?_⟩
          · rcases hkept with h1 | ⟨-, -, h1⟩
            · exact Or.inl ⟨i, h1⟩
            · exact Or.inr h1
          · intro x j _ _ hj
            exact hpos j hj
        | Move obj count d =>
          have hobj : obj = p := by
            rcases E.action with h1 | ⟨_, _, _, h1, -, -⟩
            · simp at h1
            · simp at h1
              exact h1.1
          subst hobj
          have hp0 : w0.ocean.data[i]? = some (some obj) := by
            rcases hkept with h1 | ⟨h1, -, -⟩
            · exact h1
            · simp at h1
          simp only [Action.apply] at happ
          obtain ⟨hwf2, hx2, hstay2, horigin2, hkept2, hsub2⟩ :=
            move_frame hv0.wf hv0.exclusive hp0 happ
          refine ⟨⟨hwf2, hx2, ?_⟩, hlen, ?_, ?_, E.others, E.self, Or.inl hkept2, ?_⟩
          · intro j q hj
            obtain ⟨j1, hj1⟩ := hsub2 q j hj
            exact hv0.allocated j1 q hj1
          · intro q j hq hj
            exact hstay2 q j hq (hstay q j hq hj)
          · intro q j hq hql hj
            exact horigin q j hq hql (horigin2 q j hq hj)
          · intro x j hx hsym _
            have := hfixed0 x hx hsym
            simp at this

/-- The body of the first loop either skips an empty position or has the
effect `StepEffect` for the occupant. -/
theorem tick_cell_cases {env : Env} {w w1 : World} {i : Nat} (hv : w.Valid)
    (h : Ocean.tick_cell env w i = some w1) :
    (w1 = w ∧ ∀ p : Nat, w.ocean.data[i]? ≠ some (some p)) ∨
    ∃ p : Nat, w.ocean.data[i]? = some (some p) ∧ StepEffect w p w1 := by
  cases hc : w.ocean.data[i]? with
  | none =>
    left
    unfold Ocean.tick_cell at h
    rw [hc] at h
    simp at h
    exact ⟨h.symm, by simp⟩
  | some c =>
    cases c with
    | none =>
      left
      unfold Ocean.tick_cell at h
      rw [hc] at h
      simp at h
      exact ⟨h.symm, by simp⟩
    | some p => exact Or.inr ⟨p, rfl, tick_cell_effect hv hc h⟩

theorem die_transformed (x : Object) : x.die.transformed = x.transformed := by
  cases x <;> rfl

theorem die_getSym (x : Object) : x.die.getSym = x.getSym := by
  cases x <;> rfl

theorem die_age (x : Object) : x.die.age = x.age := by
  cases x <;> rfl

/-- An induction principle for the first loop of `Ocean::tick`: a property of
the state that every loop body preserves on valid states holds after the loop,
and the state is valid. -/
theorem scan_induction {env : Env} (P : Nat → World → Prop)
    (hstep : ∀ (w w1 : World) (i : Nat), w.Valid → P i w →
      Ocean.tick_cell env w i = some w1 → P (i + 1) w1)
    {w : World} (hv : w.Valid) (h0 : P 0 w) :
    ∀ (n : Nat) (wn : World), Ocean.scan env w n = some wn → wn.Valid ∧ P n wn := by
  intro n
  induction n with
  | zero =>
    intro wn h
    simp [Ocean.scan] at h
    subst h
    exact ⟨hv, h0⟩
  | succ n ih =>
    intro wn h
    simp only [Ocean.scan] at h
    split at h
    · simp at h
    · rename_i wm hm
      obtain ⟨hvm, hpm⟩ := ih wm hm
      refine ⟨?_, hstep wm wn n hvm hpm h⟩
      rcases tick_cell_cases hvm h with ⟨rfl, -⟩ | ⟨p, -, E⟩
      · exact hvm
      · exact E.valid

/-- After the first loop every entity of the grid is still in the grid, or is a
stone or reef that was replaced. -/
theorem scan_keeps {env : Env} {w : World} (hv : w.Valid) {n : Nat} {wn : World}
    (h : Ocean.scan env w n = some wn) :
    wn.Valid ∧ ∀ q : Nat, w.ocean.holds q →
      wn.ocean.holds q ∨ ∃ z : Object, wn.deref q = some z ∧ z.transformed = true := by
  refine scan_induction
    (fun _ v => ∀ q : Nat, w.ocean.holds q →
      v.ocean.holds q ∨ ∃ z : Object, v.deref q = some z ∧ z.transformed = true)
    ?_ hv (fun q hq => Or.inl hq) n wn h
  intro v v1 i hvv hP hstep q hq
  rcases tick_cell_cases hvv hstep with ⟨rfl, -⟩ | ⟨p, hp, E⟩
  · exact hP q hq
  · rcases hP q hq with ⟨j, hj⟩ | ⟨z, hz, hzt⟩
    · by_cases hqp : q = p
      · subst hqp
        rcases E.kept with h1 | h1
        · exact Or.inl h1
        · exact Or.inr h1
      · exact Or.inl ⟨j, E.stay q j hqp hj⟩
    · by_cases hqp : q = p
      · subst hqp
        rcases E.kept with h1 | h1
        · exact Or.inl h1
        · exact Or.inr h1
      · right
        rcases E.others q z hqp hz with h1 | h1
        · exact ⟨z, h1, hzt⟩
        · exact ⟨z.die, h1, by rw [die_transformed]; exact hzt⟩

theorem sweep_cell_spec {w : World} {c c1 : Cell} (h : Ocean.sweep_cell w c = some c1) :
    (c = none ∧ c1 = none) ∨
    ∃ (q : Nat) (z : Object), c = some q ∧ w.deref q = some z ∧
      ((z.flagged_dead = true ∧ c1 = none) ∨ (z.flagged_dead = false ∧ c1 = some q)) := by
  cases c with
  | none =>
    simp [Ocean.sweep_cell] at h
    exact Or.inl ⟨rfl, h.symm⟩
  | some q =>
    right
    simp only [Ocean.sweep_cell] at h
    split at h
    · simp at h
    · rename_i p hp
      simp at h
      refine ⟨q, _, rfl, hp, ?_⟩
      cases hd : p.isdead <;> simp [hd, Object.flagged_dead] at h ⊢ <;> exact h.symm
    · rename_i p hp
      simp at h
      refine ⟨q, _, rfl, hp, ?_⟩
      cases hd : p.isdead <;> simp [hd, Object.flagged_dead] at h ⊢ <;> exact h.symm
    · rename_i p hp
      simp at h
      refine ⟨q, _, rfl, hp, ?_⟩
      cases hd : p.isdead <;> simp [hd, Object.flagged_dead] at h ⊢ <;> exact h.symm
    · rename_i z h1 h2 h3 hz
      simp at h
      refine ⟨q, z, rfl, hz, Or.inr ⟨?_, h.symm⟩⟩
      cases z with
      | stone s => rfl
      | reef r => rfl
      | prey p => exact absurd rfl (h1 p)
      | predator p => exact absurd rfl (h2 p)
      | apex a => exact absurd rfl (h3 a)

theorem sweep_cells_spec {w : World} {cells cells1 : List Cell}
    (h : Ocean.sweep_cells w cells = some cells1) :
    cells1.length = cells.length ∧
    ∀ (j : Nat) (c : Cell), cells[j]? = some c →
      ∃ c1 : Cell, cells1[j]? = some c1 ∧ Ocean.sweep_cell w c = some c1 := by
  induction cells generalizing cells1 with
  | nil =>
    simp [Ocean.sweep_cells] at h
    subst h
    simp
  | cons c cs ih =>
    simp only [Ocean.sweep_cells] at h
    split at h
    · rename_i c1 cs1 hc hcs
      simp at h
      subst h
      obtain ⟨hl, hall⟩ := ih hcs
      refine ⟨by simp [hl], ?_⟩
      intro j c0 hj
      cases j with
      | zero =>
        simp at hj
        subst hj
        exact ⟨c1, by simp, hc⟩
      | succ j => simpa using hall j c0 (by simpa using hj)
    · simp at h

theorem sweep_cells_defined {w : World} {cells : List Cell} (hall : w.allocated cells) :
    ∃ cells1, Ocean.sweep_cells w cells = some cells1 := by
  induction cells with
  | nil => exact ⟨[], rfl⟩
  | cons c cs ih =>
    have hall1 : w.allocated cs := fun j q hj => hall (j + 1) q (by simpa using hj)
    obtain ⟨cs1, hcs1⟩ := ih hall1
    have hc : ∃ c1, Ocean.sweep_cell w c = some c1 := by
      cases c with
      | none => exact ⟨none, rfl⟩
      | some q =>
        obtain ⟨x, hx⟩ := hall 0 q (by simp)
        cases x <;> simp [Ocean.sweep_cell, hx]
    obtain ⟨c1, hc1⟩ := hc
    exact ⟨c1 :: cs1, by simp [Ocean.sweep_cells, hc1, hcs1]⟩

theorem Valid.allocated_data {w : World} (hv : w.Valid) : w.allocated w.ocean.data := by
  intro j q hj
  have := hv.allocated j q hj
  exact ⟨w.heap[q], by simp [World.deref, List.getElem?_eq_getElem this]⟩

/-- The sweep of `Ocean::tick` on a valid state: it is defined, the state stays
valid, the heap is untouched, and a position holds `q` afterwards exactly when
it held `q` before and `q` is not an animal flagged dead. -/
theorem sweep_spec {w : World} (hv : w.Valid) :
    ∃ w1, Ocean.sweep w = some w1 ∧ w1.Valid ∧ w1.heap = w.heap ∧
      w1.rand_calls = w.rand_calls ∧ w1.ocean.rows = w.ocean.rows ∧
      w1.ocean.cols = w.ocean.cols ∧
      (∀ j q : Nat, w1.ocean.data[j]? = some (some q) ↔
        (w.ocean.data[j]? = some (some q) ∧
          ∃ z : Object, w.deref q = some z ∧ z.flagged_dead = false)) ∧
      (∀ j : Nat, w.ocean.data[j]? = some none → w1.ocean.data[j]? = some none) ∧
      (∀ (j q : Nat) (z : Object), w.ocean.data[j]? = some (some q) → w.deref q = some z →
        z.flagged_dead = true → w1.ocean.data[j]? = some none) := by
  obtain ⟨cells1, hc⟩ := sweep_cells_defined (Valid.allocated_data hv)
  obtain ⟨hl, hall⟩ := sweep_cells_spec hc
  have key : ∀ j q : Nat, cells1[j]? = some (some q) ↔
      (w.ocean.data[j]? = some (some q) ∧
        ∃ z : Object, w.deref q = some z ∧ z.flagged_dead = false) := by
    intro j q
    constructor
    · intro h
      have hj : j < w.ocean.data.length := by
        rw [← hl]
        exact (List.getElem?_eq_some_iff.1 h).1
      obtain ⟨c1, h1, h2⟩ := hall j _ (List.getElem?_eq_getElem hj)
      rw [h] at h1
      simp at h1
      subst h1
      rcases sweep_cell_spec h2 with ⟨-, h3⟩ | ⟨q1, z, h3, h4, h5⟩
      · simp at h3
      · rcases h5 with ⟨-, h6⟩ | ⟨h6, h7⟩
        · simp at h6
        · simp at h7
          subst h7
          exact ⟨by rw [List.getElem?_eq_getElem hj, h3], z, h4, h6⟩
    · rintro ⟨h1, z, h2, h3⟩
      obtain ⟨c1, h4, h5⟩ := hall j _ h1
      rcases sweep_cell_spec h5 with ⟨h6, -⟩ | ⟨q1, z1, h6, h7, h8⟩
      · simp at h6
      · simp at h6
        subst h6
        rw [h2] at h7
        simp at h7
        subst h7
        rcases h8 with ⟨h9, -⟩ | ⟨-, h9⟩
        · rw [h3] at h9
          simp at h9
        · rw [h4, h9]
  refine ⟨{ w with ocean := { w.ocean with data := cells1 } }, ?_, ?_, rfl, rfl, rfl, rfl, key,
    ?_, ?_⟩
  · simp [Ocean.sweep, hc]
  · refine ⟨⟨hv.wf.rows_pos, hv.wf.cols_pos, ?_⟩, ?_, ?_⟩
    · simp only [hl]
      exact hv.wf.size
    · intro i j q hi hj
      exact hv.exclusive i j q ((key i q).1 hi).1 ((key j q).1 hj).1
    · intro j q hj
      exact hv.allocated j q ((key j q).1 hj).1
  · intro j hj
    obtain ⟨c1, h4, h5⟩ := hall j _ hj
    simp [Ocean.sweep_cell] at h5
    rw [h4, ← h5]
  · intro j q z hj hz hd
    obtain ⟨c1, h4, h5⟩ := hall j _ hj
    rcases sweep_cell_spec h5 with ⟨h6, -⟩ | ⟨q1, z1, h6, h7, h8⟩
    · simp at h6
    · simp at h6
      subst h6
      rw [hz] at h7
      simp at h7
      subst h7
      rcases h8 with ⟨-, h9⟩ | ⟨h9, -⟩
      · rw [h4, h9]
      · rw [hd] at h9
        simp at h9

/-- The reproduction block, on a well-formed grid with the neighbourhood of
`this` and allocated neighbours: if the first neighbour of the own class is
mature and some slot is empty, the child is spawned at the index computed for
the first empty slot, which is the index `generate_neighbourhood` read for that
slot and held no entity; otherwise the state is unchanged.  In both cases
the block is defined. -/
theorem reproduce_char {w : World} {this p : Nat} {nb : Neighbourhood} (sym : Char)
    (mature : Object → Bool) (child : Object)
    (hwf : w.ocean.WF) (hp : w.ocean.data[p]? = some (some this))
    (hnb : w.ocean.generate_neighbourhood this = some nb) (hall : w.allocated nb.cells) :
    ((w.first_is_mature nb sym mature ∧ ∃ j : Nat, nb.cells[j]? = some none) →
      ∃ (i : Nat) (k : Int), first_empty nb.cells 0 = some i ∧
        w.ocean.spawn_index (find_index w.ocean.data this : Nat) i = some k ∧ 0 ≤ k ∧
        k.toNat < w.ocean.data.length ∧ w.ocean.data[k.toNat]? = some none ∧
        w.reproduce this nb sym mature child = some (w.with_child k.toNat child)) ∧
    (¬ (w.first_is_mature nb sym mature ∧ ∃ j : Nat, nb.cells[j]? = some none) →
      w.reproduce this nb sym mature child = some w) := by
  have hspawn : ∀ i : Nat, first_empty nb.cells 0 = some i →
      ∃ k : Int, w.ocean.spawn_index (find_index w.ocean.data this : Nat) i = some k ∧ 0 ≤ k ∧
        k.toNat < w.ocean.data.length ∧ w.ocean.data[k.toNat]? = some none ∧
        w.spawn this i child = some (w.with_child k.toNat child) := by
    intro i hi
    obtain ⟨j, hj, hc, -⟩ := first_empty_spec hi
    have hij : i = j := by omega
    subst hij
    obtain ⟨k, hk, hk0, hk1, hkn⟩ := slot_eq_read hwf hp hnb hc
    refine ⟨k, hk, hk0, hk1, hkn, ?_⟩
    unfold World.spawn
    rw [hk]
    simp only
    rw [write_in_range _ hk0 hk1]
    rfl
  rcases World.first_with_sym_spec w [sym] hall 0 with ⟨h1, h2⟩ | ⟨j, q, x, h1, h2, h3, h4, h5⟩
  · have hnot : ¬ w.first_is_mature nb sym mature := by
      rintro ⟨j, q, x, hj, hx, hs, -, -⟩
      exact h2 j q x hj hx (by simp [hs])
    refine ⟨fun h => absurd h.1 hnot, fun _ => ?_⟩
    unfold World.reproduce
    rw [h1]
  · have hsym : x.getSym = sym := by simpa using h4
    have hiff : w.first_is_mature nb sym mature ↔ mature x = true := by
      constructor
      · rintro ⟨j1, q1, x1, hj1, hx1, hs1, hm1, hmin1⟩
        rcases Nat.lt_trichotomy j1 j with hlt | heq | hgt
        · exact absurd (by simp [hs1]) (h5 j1 q1 x1 hlt hj1 hx1)
        · subst heq
          rw [h2] at hj1
          simp at hj1
          subst hj1
          rw [h3] at hx1
          simp at hx1
          subst hx1
          exact hm1
        · exact absurd hsym (hmin1 j q x hgt h2 h3)
      · intro hm
        refine ⟨j, q, x, h2, h3, hsym, hm, ?_⟩
        intro j1 q1 x1 hlt hj1 hx1 hs
        exact h5 j1 q1 x1 hlt hj1 hx1 (by simp [hs])
    have hrep : w.reproduce this nb sym mature child
        = if mature x then w.spawn_first_empty this nb child else some w := by
      unfold World.reproduce
      rw [h1]
      simp only
      rw [h3]
    constructor
    · rintro ⟨hm, j0, hj0⟩
      have hmx := hiff.1 hm
      cases hf : first_empty nb.cells 0 with
      | none => exact absurd hj0 (first_empty_none hf j0)
      | some i =>
        obtain ⟨k, hk, hk0, hk1, hkn, hsp⟩ := hspawn i hf
        refine ⟨i, k, rfl, hk, hk0, hk1, hkn, ?_⟩
        rw [hrep, if_pos hmx]
        unfold World.spawn_first_empty
        rw [hf]
        exact hsp
    · intro hnot
      rw [hrep]
      by_cases hmx : mature x = true
      · rw [if_pos hmx]
        unfold World.spawn_first_empty
        cases hf : first_empty nb.cells 0 with
        | none => rfl
        | some i =>
          exfalso
          apply hnot
          obtain ⟨j0, -, hc, -⟩ := first_empty_spec hf
          exact ⟨hiff.2 hmx, j0, hc⟩
      · rw [if_neg hmx]

theorem first_with_sym_defined (w : World) (syms : List Char) {cells : List Cell}
    (hall : w.allocated cells) (s : Nat) : ∃ r, w.first_with_sym syms cells s = some r := by
  rcases World.first_with_sym_spec w syms hall s with ⟨h, -⟩ | ⟨j, q, x, h, -⟩
  · exact ⟨_, h⟩
  · exact ⟨_, h⟩

theorem reproduce_defined {w : World} {this p : Nat} {nb : Neighbourhood} (sym : Char)
    (mature : Object → Bool) (child : Object)
    (hwf : w.ocean.WF) (hp : w.ocean.data[p]? = some (some this))
    (hnb : w.ocean.generate_neighbourhood this = some nb) (hall : w.allocated nb.cells) :
    ∃ w2, w.reproduce this nb sym mature child = some w2 := by
  obtain ⟨hyes, hno⟩ := reproduce_char sym mature child hwf hp hnb hall
  by_cases h : w.first_is_mature nb sym mature ∧ ∃ j : Nat, nb.cells[j]? = some none
  · obtain ⟨i, k, -, -, -, -, -, hr⟩ := hyes h
    exact ⟨_, hr⟩
  · exact ⟨_, hno h⟩

/-- The neighbours `generate_neighbourhood` returns in a valid state are
allocated. -/
theorem neighbours_allocated {w : World} (hv : w.Valid) {this : Nat} {nb : Neighbourhood}
    (hnb : w.ocean.generate_neighbourhood this = some nb) : w.allocated nb.cells := by
  obtain ⟨kn, ks, kw, ke, n, s, w0, e, -, hn, hs, hw, he, hcells⟩ := generate_neighbourhood_eq hnb
  have hdata := Valid.allocated_data hv
  intro j q hj
  rw [hcells] at hj
  rcases j with _ | _ | _ | _ | j
  · simp at hj
    subst hj
    exact hdata _ q (read_eq_some hn).2.2
  · simp at hj
    subst hj
    exact hdata _ q (read_eq_some hs).2.2
  · simp at hj
    subst hj
    exact hdata _ q (read_eq_some hw).2.2
  · simp at hj
    subst hj
    exact hdata _ q (read_eq_some he).2.2
  · simp at hj

/-- In a valid state the call `cell->tick(neighbourhood, ocean)` is defined for
every entity of the grid and its neighbourhood. -/
theorem object_tick_defined (env : Env) {w : World} (hv : w.Valid) {this pos : Nat}
    {nb : Neighbourhood} (hpos : w.ocean.data[pos]? = some (some this))
    (hnb : w.ocean.generate_neighbourhood this = some nb) :
    ∃ a w1, Object.tick env w this nb = some (a, w1) := by
  have hall := neighbours_allocated hv hnb
  have hlt : this < w.heap.length := hv.allocated pos this hpos
  have hfi : find_index w.ocean.data this < w.ocean.data.length :=
    (List.getElem?_eq_some_iff.1 (find_index_spec hpos).1).1
  have hderef : w.deref this = some w.heap[this] := by
    simp [World.deref, List.getElem?_eq_getElem hlt]
  unfold Object.tick
  rw [hderef]
  cases hx : w.heap[this] with
  | stone s =>
    rw [hx] at hderef
    simp only
    unfold Stone.tick
    rw [hderef]
    simp only
    split
    · rw [write_in_range _ (Int.ofNat_nonneg _) (by simpa [World.store] using hfi)]
      exact ⟨_, _, rfl⟩
    · exact ⟨_, _, rfl⟩
  | reef r =>
    rw [hx] at hderef
    simp only
    unfold Reef.tick
    rw [hderef]
    simp only
    split
    · rw [write_in_range _ (Int.ofNat_nonneg _) (by simpa [World.store] using hfi)]
      exact ⟨_, _, rfl⟩
    · exact ⟨_, _, rfl⟩
  | prey p =>
    rw [hx] at hderef
    simp only
    unfold Prey.tick
    rw [hderef]
    simp only
    split
    · exact ⟨_, _, rfl⟩
    · obtain ⟨r, hr⟩ := first_with_sym_defined
        (w.store this (.prey { p with age := incr_unsigned p.age })) ['P', 'A']
        (World.allocated_store hall this _) 0
      obtain ⟨b, hb⟩ := World.any_with_sym_defined
        (w.store this (.prey { p with age := incr_unsigned p.age })) 'R'
        (World.allocated_store hall this _)
      rw [hr, hb]
      simp only
      cases r with
      | some ij => exact ⟨_, _, rfl⟩
      | none =>
        simp only
        obtain ⟨w2, hw2⟩ := reproduce_defined
          (w := w.store this (.prey { p with age := incr_unsigned p.age }))
          'F' Prey.mature (.prey Prey.new) hv.wf hpos hnb (World.allocated_store hall this _)
        split
        · rename_i heq
          split at heq
          · rw [Prey.reproduce, hw2] at heq
            simp at heq
          · simp at heq
        · exact ⟨_, _, rfl⟩
  | predator p =>
    rw [hx] at hderef
    simp only
    unfold Predator.tick
    rw [hderef]
    simp only
    split
    · exact ⟨_, _, rfl⟩
    · rcases World.first_victim_spec
        (w.store this (.predator { p with age := incr_unsigned p.age })) false
        (World.allocated_store hall this _) with ⟨h1, -⟩ | ⟨j, q, y, h1, -, h3, -⟩
      · rw [h1]
        simp only
        obtain ⟨w2, hw2⟩ := reproduce_defined
          (w := w.store this (.predator { p with age := incr_unsigned p.age }))
          'P' Predator.mature (.predator Predator.new) hv.wf hpos hnb
          (World.allocated_store hall this _)
        split
        · rename_i heq
          split at heq
          · rw [Predator.reproduce, hw2] at heq
            simp at heq
          · simp at heq
        · exact ⟨_, _, rfl⟩
      · rw [h1]
        simp only
        rw [h3]
        exact ⟨_, _, rfl⟩
  | apex p =>
    rw [hx] at hderef
    simp only
    unfold ApexPredator.tick
    rw [hderef]
    simp only
    split
    · exact ⟨_, _, rfl⟩
    · rcases World.first_victim_spec
        (w.store this (.apex { p with age := incr_unsigned p.age }))
        (decide (p.hunger ≥ 5))
        (World.allocated_store hall this _) with ⟨h1, -⟩ | ⟨j, q, y, h1, -, h3, -⟩
      · rw [h1]
        simp only
        obtain ⟨w2, hw2⟩ := reproduce_defined
          (w := w.store this (.apex { p with age := incr_unsigned p.age }))
          'A' ApexPredator.mature (.apex ApexPredator.new) hv.wf hpos hnb
          (World.allocated_store hall this _)
        split
        · rename_i heq
          split at heq
          · rw [ApexPredator.reproduce, hw2] at heq
            simp at heq
          · simp at heq
        · exact ⟨_, _, rfl⟩
      · rw [h1]
        simp only
        rw [h3]
        exact ⟨_, _, rfl⟩

/-- One more `age++` on an object of the same class whose age is the age after
`k` increments gives the age after `k + 1` increments. -/
theorem age_after_succ {x x0 : Object} {k : Nat} (hs : x0.getSym = x.getSym)
    (ha : x0.age = x.age_after k) : x0.age_after 1 = x.age_after (k + 1) := by
  cases x <;> cases x0 <;> simp [Object.getSym] at hs <;>
    simp only [Object.age, Object.age_after] at ha ⊢
  · simp only [wrap_int] at ha ⊢
    push_cast
    omega
  · simp only [wrap_int] at ha ⊢
    push_cast
    omega
  all_goals
    have h : ∀ a b : Nat, (a : Int) = ((b + k) % 4294967296 : Nat) →
        (((a + 1) % 4294967296 : Nat) : Int) = ((b + (k + 1)) % 4294967296 : Nat) := by
      intro a b hab
      have hab1 : a = (b + k) % 4294967296 := by exact_mod_cast hab
      have : (a + 1) % 4294967296 = (b + (k + 1)) % 4294967296 := by
        rw [hab1]
        omega
      exact_mod_cast this
    exact h _ _ ha

theorem age_after_one_congr {x x0 : Object} (hs : x0.getSym = x.getSym)
    (ha : x0.age = x.age) : x0.age_after 1 = x.age_after 1 := by
  cases x <;> cases x0 <;> simp [Object.getSym] at hs <;>
    simp only [Object.age, Object.age_after] at ha ⊢
  · rw [ha]
  · rw [ha]
  all_goals
    have h1 : ∀ a b : Nat, (a : Int) = (b : Int) → a = b := fun a b h => by exact_mod_cast h
    rw [h1 _ _ ha]

theorem evaluations_succ {env : Env} {w v : World} {q i : Nat}
    (h : Ocean.scan env w i = some v) :
    Ocean.evaluations env w q (i + 1)
      = Ocean.evaluations env w q i + (if v.ocean.data[i]? = some (some q) then 1 else 0) := by
  simp only [Ocean.evaluations, h]

theorem scan_succ {env : Env} {w v v1 : World} {i : Nat}
    (h : Ocean.scan env w i = some v) (hstep : Ocean.tick_cell env v i = some v1) :
    Ocean.scan env w (i + 1) = some v1 := by
  simp only [Ocean.scan, h]
  exact hstep

/-- The loop body preserves the invariant `Tracked`. -/
theorem tracked_step {env : Env} {w v v1 : World} {q j0 i : Nat} {x : Object}
    (hv : v.Valid) (T : Tracked env w q j0 x i v)
    (hstep : Ocean.tick_cell env v i = some v1) : Tracked env w q j0 x (i + 1) v1 := by
  obtain ⟨xi, hxi, hsym, hage0, hage1⟩ := T.alive
  have hql : q < v.heap.length := World.deref_lt hxi
  have hev := evaluations_succ (q := q) T.scanned
  rcases tick_cell_cases hv hstep with ⟨rfl, hskip⟩ | ⟨p, hp, E⟩
  · -- the position is empty
    have hne : v1.ocean.data[i]? ≠ some (some q) := hskip q
    rw [if_neg hne, Nat.add_zero] at hev
    have hij : i ≠ j0 := by
      intro h
      subst h
      exact hne (T.before (le_refl _)).1
    refine ⟨scan_succ T.scanned hstep, ⟨xi, hxi, hsym, ?_, ?_⟩, ?_, ?_, ?_, ?_, ?_, ?_⟩
    · rw [hev]; exact hage0
    · rw [hev]; exact hage1
    · intro h
      rw [hev]
      exact T.before (by omega)
    · intro h
      rw [hev]
      exact T.after (by omega)
    · intro hs h
      rw [hev]
      exact T.fixed hs (by omega)
    · intro h
      rw [hev]
      have := T.count (by omega)
      omega
    · intro h v0 hv0 hA
      rw [hev]
      exact T.once (by omega) v0 hv0 hA
    · intro h v0 j1 hv0 hj1 hlt
      rw [hev]
      obtain ⟨h1, h2⟩ := T.again (by omega) v0 j1 hv0 hj1 hlt
      refine ⟨fun h3 => h1 (by omega), ?_⟩
      intro h3
      rcases Nat.lt_or_ge j1 i with h4 | h4
      · exact h2 h4
      · exact absurd (h1 h4) (by
          have : j1 = i := by omega
          rw [this]
          exact hne)
  · by_cases hpq : p = q
    · -- the entity itself is evaluated
      subst hpq
      rw [if_pos hp] at hev
      obtain ⟨y0, y1, hy0, hy1, hys, hya⟩ := E.self
      rw [hxi] at hy0
      simp at hy0
      subst hy0
      have hpos : j0 ≤ i := by
        by_contra h
        have := (T.before (by omega)).1
        have := hv.exclusive i j0 p hp this
        omega
      refine ⟨scan_succ T.scanned hstep, ⟨y1, hy1, by rw [hys, hsym], ?_, ?_⟩, ?_, ?_, ?_, ?_, ?_, ?_⟩
      · intro h; omega
      · intro _
        rw [hev, hya]
        by_cases h0 : Ocean.evaluations env w p i = 0
        · rw [h0]
          exact age_after_one_congr hsym (hage0 h0)
        · exact age_after_succ hsym (hage1 (by omega))
      · intro h; omega
      · intro _; omega
      · intro hs _
        have hij : i = j0 := by
          by_contra h
          have := (T.fixed hs (by omega)).2 i hp
          exact h this
        subst hij
        refine ⟨by rw [hev, (T.before (le_refl _)).2], ?_⟩
        intro j hj
        have := E.fixed xi j hxi (by rw [hsym]; exact hs) hj
        exact hv.exclusive j i p this hp
      · intro _
        rw [hev]
        rcases Nat.lt_or_ge j0 i with h4 | h4
        · have := T.count h4
          omega
        · have := (T.before h4).2
          omega
      · intro _ v0 hv0 hA
        rcases Nat.lt_or_ge j0 i with h4 | h4
        · have := (T.once h4 v0 hv0 hA).2 i hp
          omega
        · have hij : i = j0 := by omega
          subst hij
          rw [scan_succ T.scanned hstep] at hv0
          simp only [Option.some.injEq] at hv0
          subst hv0
          exact ⟨by rw [hev, (T.before (le_refl _)).2], hA⟩
      · intro _ v0 j1 hv0 hj1 hlt
        rcases Nat.lt_or_ge j0 i with h4 | h4
        · obtain ⟨h1, h2⟩ := T.again h4 v0 j1 hv0 hj1 hlt
          constructor
          · intro h3
            have := hv.exclusive i j1 p hp (h1 (by omega))
            omega
          · intro _
            rw [hev]
            have := T.after h4
            omega
        · have hij : i = j0 := by omega
          subst hij
          rw [scan_succ T.scanned hstep] at hv0
          simp only [Option.some.injEq] at hv0
          subst hv0
          exact ⟨fun _ => hj1, fun h3 => by omega⟩
    · -- another entity is evaluated
      have hne : v.ocean.data[i]? ≠ some (some q) := by
        rw [hp]
        intro h
        simp at h
        exact hpq h
      rw [if_neg hne, Nat.add_zero] at hev
      have hij : i ≠ j0 := by
        intro h
        subst h
        exact hne (T.before (le_refl _)).1
      have halive : ∃ xi1 : Object, v1.deref q = some xi1 ∧ xi1.getSym = x.getSym ∧
          xi1.age = xi.age := by
        rcases E.others q xi (Ne.symm hpq) hxi with h | h
        · exact ⟨xi, h, hsym, rfl⟩
        · exact ⟨xi.die, h, by rw [die_getSym]; exact hsym, die_age xi⟩
      obtain ⟨xi1, hxi1, hsym1, hage⟩ := halive
      refine ⟨scan_succ T.scanned hstep, ⟨xi1, hxi1, hsym1, ?_, ?_⟩, ?_, ?_, ?_, ?_, ?_, ?_⟩
      · rw [hev, hage]; exact hage0
      · rw [hev, hage]; exact hage1
      · intro h
        rw [hev]
        obtain ⟨h1, h2⟩ := T.before (by omega)
        exact ⟨E.stay q j0 (Ne.symm hpq) h1, h2⟩
      · intro h
        rw [hev]
        exact T.after (by omega)
      · intro hs h
        rw [hev]
        obtain ⟨h1, h2⟩ := T.fixed hs (by omega)
        refine ⟨h1, ?_⟩
        intro j hj
        exact h2 j (E.origin q j (Ne.symm hpq) hql hj)
      · intro h
        rw [hev]
        have := T.count (by omega)
        omega
      · intro h v0 hv0 hA
        rw [hev]
        obtain ⟨h1, h2⟩ := T.once (by omega) v0 hv0 hA
        refine ⟨h1, ?_⟩
        intro j hj
        exact h2 j (E.origin q j (Ne.symm hpq) hql hj)
      · intro h v0 j1 hv0 hj1 hlt
        rw [hev]
        obtain ⟨h1, h2⟩ := T.again (by omega) v0 j1 hv0 hj1 hlt
        constructor
        · intro h3
          exact E.stay q j1 (Ne.symm hpq) (h1 (by omega))
        · intro h3
          rcases Nat.lt_or_ge j1 i with h4 | h4
          · exact h2 h4
          · have h5 : j1 = i := by omega
            have h6 := h1 h4
            rw [h5] at h6
            exact absurd h6 hne

/-- The invariant `Tracked` holds throughout the first loop. -/
theorem tracked_scan {env : Env} {w : World} {q j0 : Nat} {x : Object} (hv : w.Valid)
    (hq : w.ocean.data[j0]? = some (some q)) (hx : w.deref q = some x) :
    ∀ (n : Nat) (wn : World), Ocean.scan env w n = some wn →
      wn.Valid ∧ Tracked env w q j0 x n wn := by
  refine scan_induction (fun i v => Tracked env w q j0 x i v) ?_ hv ?_
  · intro v v1 i hvv T hstep
    exact tracked_step hvv T hstep
  · refine ⟨rfl, ⟨x, hx, rfl, fun _ => rfl, ?_⟩, fun _ => ⟨hq, rfl⟩, ?_, ?_, ?_, ?_, ?_⟩
    · intro h
      simp [Ocean.evaluations] at h
    · intro h; omega
    · intro _ h; omega
    · intro h; omega
    · intro h; omega
    · intro h; omega

theorem first_victim_found {w : World} {b : Bool} {cells : List Cell} {q : Nat}
    (h : w.first_victim b cells = some (some q)) :
    ∃ (j : Nat) (x : Object), cells[j]? = some (some q) ∧ w.deref q = some x ∧
      x.is_victim b = true := by
  induction cells with
  | nil => simp [World.first_victim] at h
  | cons c cs ih =>
    have lift : w.first_victim b cs = some (some q) →
        ∃ (j : Nat) (x : Object), (c :: cs)[j]? = some (some q) ∧ w.deref q = some x ∧
          x.is_victim b = true := by
      intro h1
      obtain ⟨j, x, hj, hx, hv⟩ := ih h1
      exact ⟨j + 1, x, by simpa using hj, hx, hv⟩
    cases c with
    | none =>
      simp only [World.first_victim] at h
      exact lift h
    | some q0 =>
      simp only [World.first_victim] at h
      split at h
      · simp at h
      · rename_i p hp
        split at h
        · rename_i hc
          simp at h
          subst h
          exact ⟨0, _, by simp, hp, by simpa [Object.is_victim] using hc⟩
        · exact lift h
      · rename_i p hp
        split at h
        · rename_i hc
          simp at h
          subst h
          exact ⟨0, _, by simp, hp, by simpa [Object.is_victim] using hc⟩
        · exact lift h
      · exact lift h

/-- The state after the optional spawn of a reproduction block run in
`w.store this y`: the heap of `w` with `y` at `this`, possibly one child
appended; the draws made so far are those of `w`. -/
theorem after_reproduce {w v : World} {this : Nat} {nb : Neighbourhood} {y c : Object}
    (hlt : this < w.heap.length)
    (hrep : v = w.store this y ∨
      ∃ i : Nat, first_empty nb.cells 0 = some i ∧ (w.store this y).spawn this i c = some v) :
    v.rand_calls = w.rand_calls ∧ this < v.heap.length ∧ v.deref this = some y ∧
    (∀ q : Nat, q ≠ this → q < w.heap.length → v.deref q = w.deref q) := by
  rcases hrep with rfl | ⟨i, -, hsp⟩
  · refine ⟨rfl, by simpa [World.store] using hlt, World.deref_store_self _ hlt, ?_⟩
    intro q hq _
    exact World.deref_store_ne _ (Ne.symm hq)
  · obtain ⟨k, -, -, -, rfl⟩ := World.spawn_spec hsp
    refine ⟨rfl, by simp [World.store]; omega, ?_, ?_⟩
    · simp only [World.deref, World.store]
      rw [List.getElem?_append_left (by simpa using hlt)]
      simp [List.getElem?_set, hlt]
    · intro q hq hql
      simp only [World.deref, World.store]
      rw [List.getElem?_append_left (by simpa using hql)]
      simp [List.getElem?_set, Ne.symm hq]

/-- The three ways `Predator::tick` can go: the death check fires; or a
victim is found and killed; or no victim is found, the reproduction block runs
(when the predator is mature and its hunger is at most 5), speed and hunger are
updated and the random move is returned. -/
theorem predator_tick_cases {env : Env} {w w1 : World} {this : Nat} {nb : Neighbourhood}
    {a : Action} {p : Predator} (hthis : w.deref this = some (.predator p))
    (h : Predator.tick env w this nb = some (a, w1)) :
    ((Predator.max_age < incr_unsigned p.age ∨ 6 < p.hunger) ∧ a = .NoAction this ∧
      w1 = (w.store this (.predator { p with age := incr_unsigned p.age })).store this
        (.predator { p with age := incr_unsigned p.age, isdead := true })) ∨
    (¬ (Predator.max_age < incr_unsigned p.age ∨ 6 < p.hunger) ∧
      ∃ (victim : Nat) (x : Object),
        (w.store this (.predator { p with age := incr_unsigned p.age })).first_victim false
          nb.cells = some (some victim) ∧
        (w.store this (.predator { p with age := incr_unsigned p.age })).deref victim = some x ∧
        a = .NoAction this ∧
        w1 = ((w.store this (.predator { p with age := incr_unsigned p.age })).store victim
          x.die).store this
          (.predator { p with age := incr_unsigned p.age, hunger := 0, speed := 1 })) ∨
    (¬ (Predator.max_age < incr_unsigned p.age ∨ 6 < p.hunger) ∧
      (w.store this (.predator { p with age := incr_unsigned p.age })).first_victim false
        nb.cells = some none ∧
      ∃ v : World,
        (v = w.store this (.predator { p with age := incr_unsigned p.age }) ∨
          ∃ i : Nat, first_empty nb.cells 0 = some i ∧
            (w.store this (.predator { p with age := incr_unsigned p.age })).spawn this i
              (.predator Predator.new) = some v) ∧
        a = random_move this (if p.hunger = 2 then p.speed + 1 else p.speed)
          (env.rand w.rand_calls % 4) ∧
        w1 = { v.store this (.predator { age := incr_unsigned p.age, speed := (if p.hunger = 2 then p.speed + 1 else p.speed), hunger := p.hunger + 1, adult_predator_nearby := p.adult_predator_nearby, isdead := p.isdead }) with
          rand_calls := w.rand_calls + 1 }) := by
  have hlt := World.deref_lt hthis
  unfold Predator.tick at h
  rw [hthis] at h
  simp only at h
  split at h
  · rename_i hc
    simp at h
    exact Or.inl ⟨by simpa using hc, h.1.symm, h.2.symm⟩
  · rename_i hc
    right
    split at h
    · simp at h
    · rename_i victim hv
      split at h
      · simp at h
      · rename_i x hx
        simp at h
        exact Or.inl ⟨by simpa using hc, victim, x, hv, hx, h.1.symm, h.2.symm⟩
    · rename_i hv
      split at h
      · simp at h
      · rename_i v hw2
        have hrep : v = w.store this (.predator { p with age := incr_unsigned p.age }) ∨
            ∃ i : Nat, first_empty nb.cells 0 = some i ∧
              (w.store this (.predator { p with age := incr_unsigned p.age })).spawn this i
                (.predator Predator.new) = some v := by
          split at hw2
          · exact World.reproduce_spec hw2
          · simp at hw2
            exact Or.inl hw2.symm
        have hr := (after_reproduce hlt hrep).1
        simp only [World.draw_move, Option.some.injEq, Prod.mk.injEq] at h
        obtain ⟨rfl, rfl⟩ := h
        refine Or.inr ⟨by simpa using hc, hv, v, hrep, ?_, ?_⟩
        · simp only [World.store]
          rw [hr]
        · simp only [World.store]
          rw [hr]

/-- The three ways `ApexPredator::tick` can go: the death check fires; or a
victim is found and killed; or no victim is found, the reproduction block runs
(when the apex predator is mature and its hunger is at most 3), speed and
hunger are updated and the random move is returned. -/
theorem apex_tick_cases {env : Env} {w w1 : World} {this : Nat} {nb : Neighbourhood}
    {a : Action} {p : ApexPredator} (hthis : w.deref this = some (.apex p))
    (h : ApexPredator.tick env w this nb = some (a, w1)) :
    ((ApexPredator.max_age < incr_unsigned p.age ∨ 7 ≤ p.hunger) ∧ a = .NoAction this ∧
      w1 = (w.store this (.apex { p with age := incr_unsigned p.age })).store this
        (.apex { p with age := incr_unsigned p.age, isdead := true })) ∨
    (¬ (ApexPredator.max_age < incr_unsigned p.age ∨ 7 ≤ p.hunger) ∧
      ∃ (victim : Nat) (x : Object),
        (w.store this (.apex { p with age := incr_unsigned p.age })).first_victim
          (decide (p.hunger ≥ 5)) nb.cells = some (some victim) ∧
        (w.store this (.apex { p with age := incr_unsigned p.age })).deref victim = some x ∧
        a = .NoAction this ∧
        w1 = ((w.store this (.apex { p with age := incr_unsigned p.age })).store victim
          x.die).store this
          (.apex { p with age := incr_unsigned p.age, hunger := 0, speed := 1 })) ∨
    (¬ (ApexPredator.max_age < incr_unsigned p.age ∨ 7 ≤ p.hunger) ∧
      (w.store this (.apex { p with age := incr_unsigned p.age })).first_victim
        (decide (p.hunger ≥ 5)) nb.cells = some none ∧
      ∃ v : World,
        (v = w.store this (.apex { p with age := incr_unsigned p.age }) ∨
          ∃ i : Nat, first_empty nb.cells 0 = some i ∧
            (w.store this (.apex { p with age := incr_unsigned p.age })).spawn this i
              (.apex ApexPredator.new) = some v) ∧
        a = random_move this (if p.hunger = 5 then (if p.hunger = 2 then p.speed + 1 else p.speed) + 1 else (if p.hunger = 2 then p.speed + 1 else p.speed))
          (env.rand w.rand_calls % 4) ∧
        w1 = { v.store this (.apex { age := incr_unsigned p.age, speed := (if p.hunger = 5 then (if p.hunger = 2 then p.speed + 1 else p.speed) + 1 else (if p.hunger = 2 then p.speed + 1 else p.speed)), hunger := p.hunger + 1, adult_ap_nearby := p.adult_ap_nearby, isdead := p.isdead }) with
          rand_calls := w.rand_calls + 1 }) := by
  have hlt := World.deref_lt hthis
  unfold ApexPredator.tick at h
  rw [hthis] at h
  simp only at h
  split at h
  · rename_i hc
    simp at h
    exact Or.inl ⟨by simpa using hc, h.1.symm, h.2.symm⟩
  · rename_i hc
    right
    split at h
    · simp at h
    · rename_i victim hv
      split at h
      · simp at h
      · rename_i x hx
        simp at h
        exact Or.inl ⟨by simpa using hc, victim, x, hv, hx, h.1.symm, h.2.symm⟩
    · rename_i hv
      split at h
      · simp at h
      · rename_i v hw2
        have hrep : v = w.store this (.apex { p with age := incr_unsigned p.age }) ∨
            ∃ i : Nat, first_empty nb.cells 0 = some i ∧
              (w.store this (.apex { p with age := incr_unsigned p.age })).spawn this i
                (.apex ApexPredator.new) = some v := by
          split at hw2
          · exact World.reproduce_spec hw2
          · simp at hw2
            exact Or.inl hw2.symm
        have hr := (after_reproduce hlt hrep).1
        simp only [World.draw_move, Option.some.injEq, Prod.mk.injEq] at h
        obtain ⟨rfl, rfl⟩ := h
        refine Or.inr ⟨by simpa using hc, hv, v, hrep, ?_, ?_⟩
        · simp only [World.store]
          rw [hr]
        · simp only [World.store]
          rw [hr]

/-- The three ways `Prey::tick` can go: the death check fires; or a predator
or apex predator is found in slot `i` and the prey flees; or none is found,
the reproduction block runs (when the prey is mature) and the random move is
returned. -/
theorem prey_tick_cases {env : Env} {w w1 : World} {this : Nat} {nb : Neighbourhood}
    {a : Action} {p : Prey} (hthis : w.deref this = some (.prey p))
    (h : Prey.tick env w this nb = some (a, w1)) :
    (Prey.max_age < incr_unsigned p.age ∧ a = .NoAction this ∧
      w1 = (w.store this (.prey { p with age := incr_unsigned p.age })).store this
        (.prey { p with age := incr_unsigned p.age, isdead := true })) ∨
    (¬ Prey.max_age < incr_unsigned p.age ∧
      ∃ i q : Nat,
        (w.store this (.prey { p with age := incr_unsigned p.age })).first_with_sym ['P', 'A']
          nb.cells 0 = some (some (i, q)) ∧
        a = .Move this p.speed (Prey.flee_direction i) ∧
        w1 = w.store this (.prey { p with age := incr_unsigned p.age })) ∨
    (¬ Prey.max_age < incr_unsigned p.age ∧
      (w.store this (.prey { p with age := incr_unsigned p.age })).first_with_sym ['P', 'A']
        nb.cells 0 = some none ∧
      ∃ v : World,
        (v = w.store this (.prey { p with age := incr_unsigned p.age }) ∨
          ∃ i : Nat, first_empty nb.cells 0 = some i ∧
            (w.store this (.prey { p with age := incr_unsigned p.age })).spawn this i
              (.prey Prey.new) = some v) ∧
        a = random_move this p.speed (env.rand w.rand_calls % 4) ∧
        w1 = { v with rand_calls := w.rand_calls + 1 }) := by
  have hlt := World.deref_lt hthis
  unfold Prey.tick at h
  rw [hthis] at h
  simp only at h
  split at h
  · rename_i hc
    simp at h
    exact Or.inl ⟨by simpa using hc, h.1.symm, h.2.symm⟩
  · rename_i hc
    right
    split at h
    · rename_i pn rn hpn hrn
      split at h
      · rename_i i q
        simp at h
        exact Or.inl ⟨by simpa using hc, i, q, hpn, h.1.symm, h.2.symm⟩
      · split at h
        · simp at h
        · rename_i v hw2
          have hrep : v = w.store this (.prey { p with age := incr_unsigned p.age }) ∨
              ∃ i : Nat, first_empty nb.cells 0 = some i ∧
                (w.store this (.prey { p with age := incr_unsigned p.age })).spawn this i
                  (.prey Prey.new) = some v := by
            split at hw2
            · exact World.reproduce_spec hw2
            · simp at hw2
              exact Or.inl hw2.symm
          have hr := (after_reproduce hlt hrep).1
          simp only [World.draw_move, Option.some.injEq, Prod.mk.injEq] at h
          obtain ⟨rfl, rfl⟩ := h
          refine Or.inr ⟨by simpa using hc, hpn, v, hrep, ?_, ?_⟩
          · rw [hr]
          · rw [hr]
    · simp at h

/-- One call of `Predator::tick` keeps the relation between hunger and speed. -/
theorem predator_tick_keeps_speed {env : Env} {w w1 : World} {this : Nat}
    {nb : Neighbourhood} {a : Action} {p p1 : Predator}
    (hthis : w.deref this = some (.predator p))
    (htick : Predator.tick env w this nb = some (a, w1))
    (hp1 : w1.deref this = some (.predator p1))
    (hinv : 0 ≤ p.hunger ∧ p.hunger ≤ 7 ∧ (p.hunger ≤ 2 → p.speed = 1) ∧
      (3 ≤ p.hunger → p.speed = 2)) :
    0 ≤ p1.hunger ∧ p1.hunger ≤ 7 ∧ (p1.hunger ≤ 2 → p1.speed = 1) ∧
      (3 ≤ p1.hunger → p1.speed = 2) := by
  have hlt := World.deref_lt hthis
  obtain ⟨h0, h7, hs1, hs2⟩ := hinv
  rcases predator_tick_cases hthis htick with ⟨-, -, rfl⟩ | ⟨-, victim, x, -, -, -, rfl⟩ |
      ⟨hlive, -, v, hrep, -, rfl⟩
  · rw [World.deref_store_self _ (by simpa [World.store] using hlt)] at hp1
    simp only [Option.some.injEq, Object.predator.injEq] at hp1
    subst hp1
    exact ⟨h0, h7, hs1, hs2⟩
  · rw [World.deref_store_self _ (by simpa [World.store] using hlt)] at hp1
    simp only [Option.some.injEq, Object.predator.injEq] at hp1
    subst hp1
    simp
  · have hlt1 := (after_reproduce hlt hrep).2.1
    have hself : ({ v.store this (.predator { age := incr_unsigned p.age, speed := (if p.hunger = 2 then p.speed + 1 else p.speed), hunger := p.hunger + 1, adult_predator_nearby := p.adult_predator_nearby, isdead := p.isdead }) with rand_calls := w.rand_calls + 1 } : World).deref this
        = some (.predator { age := incr_unsigned p.age, speed := (if p.hunger = 2 then p.speed + 1 else p.speed), hunger := p.hunger + 1, adult_predator_nearby := p.adult_predator_nearby, isdead := p.isdead }) :=
      World.deref_store_self _ hlt1
    rw [hself] at hp1
    simp only [Option.some.injEq, Object.predator.injEq] at hp1
    subst hp1
    simp only
    have h6 : p.hunger ≤ 6 := by omega
    refine ⟨by omega, by omega, ?_, ?_⟩
    · intro h
      rw [if_neg (by omega)]
      exact hs1 (by omega)
    · intro h
      by_cases h2 : p.hunger = 2
      · rw [if_pos h2, hs1 (by omega)]
        rfl
      · rw [if_neg h2]
        exact hs2 (by omega)

/-- One call of `ApexPredator::tick` keeps the relation between hunger and
speed. -/
theorem apex_tick_keeps_speed {env : Env} {w w1 : World} {this : Nat}
    {nb : Neighbourhood} {a : Action} {p p1 : ApexPredator}
    (hthis : w.deref this = some (.apex p))
    (htick : ApexPredator.tick env w this nb = some (a, w1))
    (hp1 : w1.deref this = some (.apex p1))
    (hinv : 0 ≤ p.hunger ∧ p.hunger ≤ 7 ∧
      p.speed = 1 + (if 3 ≤ p.hunger then 1 else 0) + (if 6 ≤ p.hunger then 1 else 0)) :
    0 ≤ p1.hunger ∧ p1.hunger ≤ 7 ∧
      p1.speed = 1 + (if 3 ≤ p1.hunger then 1 else 0) + (if 6 ≤ p1.hunger then 1 else 0) := by
  have hlt := World.deref_lt hthis
  obtain ⟨h0, h7, hs⟩ := hinv
  rcases apex_tick_cases hthis htick with ⟨-, -, rfl⟩ | ⟨-, victim, x, -, -, -, rfl⟩ |
      ⟨hlive, -, v, hrep, -, rfl⟩
  · rw [World.deref_store_self _ (by simpa [World.store] using hlt)] at hp1
    simp only [Option.some.injEq, Object.apex.injEq] at hp1
    subst hp1
    exact ⟨h0, h7, hs⟩
  · rw [World.deref_store_self _ (by simpa [World.store] using hlt)] at hp1
    simp only [Option.some.injEq, Object.apex.injEq] at hp1
    subst hp1
    simp
  · have hlt1 := (after_reproduce hlt hrep).2.1
    have hself : ({ v.store this (.apex { age := incr_unsigned p.age, speed := (if p.hunger = 5 then (if p.hunger = 2 then p.speed + 1 else p.speed) + 1 else (if p.hunger = 2 then p.speed + 1 else p.speed)), hunger := p.hunger + 1, adult_ap_nearby := p.adult_ap_nearby, isdead := p.isdead }) with rand_calls := w.rand_calls + 1 } : World).deref this
        = some (.apex { age := incr_unsigned p.age, speed := (if p.hunger = 5 then (if p.hunger = 2 then p.speed + 1 else p.speed) + 1 else (if p.hunger = 2 then p.speed + 1 else p.speed)), hunger := p.hunger + 1, adult_ap_nearby := p.adult_ap_nearby, isdead := p.isdead }) :=
      World.deref_store_self _ hlt1
    rw [hself] at hp1
    simp only [Option.some.injEq, Object.apex.injEq] at hp1
    subst hp1
    simp only
    have h6 : p.hunger ≤ 6 := by omega
    refine ⟨by omega, by omega, ?_⟩
    rw [hs]
    split_ifs <;> omega

/-- The coordinate `(coord - d + extent) % extent` of `Move::apply` for a
distance within the extent. -/
theorem tmod_back {x d b : Int} (hx : 0 ≤ x) (hd : d ≤ b) (hb : 1 ≤ b) :
    (x - d + b).tmod b = (x - d) % b := by
  rw [Int.tmod_eq_emod (by omega) (by omega)]
  simp

/-- The coordinate `(coord + d + extent) % extent` of `Move::apply` for a
distance that is not negative. -/
theorem tmod_forth {x d b : Int} (hx : 0 ≤ x) (hd : 0 ≤ d) (hb : 1 ≤ b) :
    (x + d + b).tmod b = (x + d) % b := by
  rw [Int.tmod_eq_emod (by omega) (by omega)]
  simp

/-- A decidable criterion for `World.Paced`. -/
theorem paced_of_all {w : World} (h : w.heap.all Object.paced = true) : w.Paced := by
  intro q x hx
  have hmem : x ∈ w.heap := List.mem_iff_getElem?.2 ⟨q, hx⟩
  exact List.all_eq_true.1 h x hmem

theorem die_paced (x : Object) : x.die.paced = x.paced := by
  cases x <;> rfl

/-- The child a reproduction block allocates is the only object beyond the heap
there was. -/
theorem after_reproduce_fresh {w v : World} {this : Nat} {nb : Neighbourhood} {y c : Object}
    (hrep : v = w.store this y ∨
      ∃ i : Nat, first_empty nb.cells 0 = some i ∧ (w.store this y).spawn this i c = some v) :
    ∀ (q : Nat) (z : Object), w.heap.length ≤ q → v.deref q = some z → z = c := by
  intro q z hq hz
  rcases hrep with rfl | ⟨i, -, hsp⟩
  · have := World.deref_lt hz
    simp [World.store] at this
    omega
  · obtain ⟨k, -, -, -, rfl⟩ := World.spawn_spec hsp
    simp only [World.deref, World.store] at hz
    have hl : (w.heap.set this y).length ≤ q := by simpa using hq
    rw [List.getElem?_append_right hl] at hz
    have hq0 : q - (w.heap.set this y).length = 0 := by
      by_contra h
      have h1 : 1 ≤ q - (w.heap.set this y).length := by omega
      rw [List.getElem?_eq_none (by simpa using h1)] at hz
      simp at hz
    rw [hq0] at hz
    simpa using hz.symm

/-- The action the closing `switch` builds is a move of `this` by `speed`. -/
theorem random_move_count {this obj : Nat} {s n : Int} {r : Nat} {d : Move.Direction}
    (h : random_move this s r = .Move obj n d) : obj = this ∧ n = s := by
  rcases r with _ | _ | _ | _ | r <;> simp [random_move] at h
  all_goals exact ⟨h.1.symm, h.2.1.symm⟩

/-- A state of paced objects stays one when an object is stored that is paced,
and holds no more objects. -/
theorem paced_store {w : World} (hp : w.Paced) (this : Nat) {y : Object}
    (hy : y.paced = true) : (w.store this y).Paced := by
  intro q x hx
  by_cases hq : this = q
  · subst hq
    have hlt : this < w.heap.length := by
      have := World.deref_lt hx
      simpa [World.store] using this
    rw [World.deref_store_self _ hlt] at hx
    simp only [Option.some.injEq] at hx
    rw [← hx]
    exact hy
  · rw [World.deref_store_ne _ hq] at hx
    exact hp q x hx

/-- After a reproduction block the objects are paced if they were and the
child is. -/
theorem paced_after_reproduce {w v : World} {this : Nat} {nb : Neighbourhood} {y c : Object}
    (hp : w.Paced) (hlt : this < w.heap.length) (hy : y.paced = true) (hc : c.paced = true)
    (hrep : v = w.store this y ∨
      ∃ i : Nat, first_empty nb.cells 0 = some i ∧ (w.store this y).spawn this i c = some v) :
    v.Paced := by
  obtain ⟨-, -, hself, hothers⟩ := after_reproduce hlt hrep
  intro q z hz
  by_cases hq : q = this
  · subst hq
    rw [hself] at hz
    simp only [Option.some.injEq] at hz
    rw [← hz]
    exact hy
  · by_cases hql : q < w.heap.length
    · rw [hothers q hq hql] at hz
      exact hp q z hz
    · rw [after_reproduce_fresh hrep q z (by omega) hz]
      exact hc

/-- `Prey::tick` keeps the objects paced, and the move it returns is a move of
the prey by 1. -/
theorem prey_tick_paced {env : Env} {w w1 : World} {this : Nat} {nb : Neighbourhood}
    {a : Action} {p : Prey} (hp : w.Paced) (hthis : w.deref this = some (.prey p))
    (htick : Prey.tick env w this nb = some (a, w1)) :
    w1.Paced ∧ ∀ (obj : Nat) (n : Int) (d : Move.Direction), a = .Move obj n d →
      obj = this ∧ 1 ≤ n ∧ n ≤ 3 := by
  have hlt := World.deref_lt hthis
  have hs : p.speed = 1 := by simpa [Object.paced] using hp this _ hthis
  have hy : ∀ b : Bool, (Object.prey { p with age := incr_unsigned p.age, isdead := b }).paced
      = true := by
    intro b
    simpa [Object.paced] using hs
  have hy0 : (Object.prey { p with age := incr_unsigned p.age }).paced = true := by
    simpa [Object.paced] using hs
  rcases prey_tick_cases hthis htick with ⟨-, rfl, rfl⟩ | ⟨-, i, q, -, rfl, rfl⟩ |
      ⟨-, -, v, hrep, rfl, rfl⟩
  · refine ⟨paced_store (paced_store hp this hy0) this (hy true), ?_⟩
    intro obj n d h
    simp at h
  · refine ⟨paced_store hp this hy0, ?_⟩
    intro obj n d h
    simp only [Action.Move.injEq] at h
    obtain ⟨rfl, rfl, -⟩ := h
    omega
  · have hv := paced_after_reproduce hp hlt hy0 (c := .prey Prey.new) (by decide) hrep
    refine ⟨fun q x hx => hv q x hx, ?_⟩
    intro obj n d h
    obtain ⟨h1, h2⟩ := random_move_count h
    omega

/-- `Predator::tick` keeps the objects paced, and the move it returns is a move
of the predator by 1 or 2. -/
theorem predator_tick_paced {env : Env} {w w1 : World} {this : Nat} {nb : Neighbourhood}
    {a : Action} {p : Predator} (hp : w.Paced) (hthis : w.deref this = some (.predator p))
    (htick : Predator.tick env w this nb = some (a, w1)) :
    w1.Paced ∧ ∀ (obj : Nat) (n : Int) (d : Move.Direction), a = .Move obj n d →
      obj = this ∧ 1 ≤ n ∧ n ≤ 3 := by
  have hlt := World.deref_lt hthis
  have hs : 0 ≤ p.hunger ∧ p.hunger ≤ 7 ∧ (p.hunger ≤ 2 → p.speed = 1) ∧
      (3 ≤ p.hunger → p.speed = 2) := by
    have h := hp this _ hthis
    simp only [Object.paced, decide_eq_true_eq] at h
    exact h
  have hy : ∀ b : Bool,
      (Object.predator { p with age := incr_unsigned p.age, isdead := b }).paced = true := by
    intro b
    simp only [Object.paced, decide_eq_true_eq]
    exact hs
  have hy0 : (Object.predator { p with age := incr_unsigned p.age }).paced = true := by
    simp only [Object.paced, decide_eq_true_eq]
    exact hs
  rcases predator_tick_cases hthis htick with ⟨-, rfl, rfl⟩ | ⟨-, victim, x, -, hx, rfl, rfl⟩ |
      ⟨hlive, -, v, hrep, rfl, rfl⟩
  · refine ⟨paced_store (paced_store hp this hy0) this (hy true), ?_⟩
    intro obj n d h
    simp at h
  · have h1 := paced_store hp this hy0
    refine ⟨paced_store (paced_store h1 victim (by rw [die_paced]; exact h1 victim x hx)) this
      (by simp [Object.paced]), ?_⟩
    intro obj n d h
    simp at h
  · have hv := paced_after_reproduce hp hlt hy0 (c := .predator Predator.new) (by decide) hrep
    obtain ⟨h0, h7, hs1, hs2⟩ := hs
    have h6 : p.hunger ≤ 6 := by omega
    have hsp : (if p.hunger = 2 then p.speed + 1 else p.speed) = 1 ∧ p.hunger + 1 ≤ 2 ∨
        (if p.hunger = 2 then p.speed + 1 else p.speed) = 2 ∧ 3 ≤ p.hunger + 1 := by
      by_cases h2 : p.hunger = 2
      · rw [if_pos h2, hs1 (by omega)]
        exact Or.inr ⟨rfl, by omega⟩
      · rw [if_neg h2]
        by_cases h3 : p.hunger ≤ 2
        · exact Or.inl ⟨hs1 h3, by omega⟩
        · exact Or.inr ⟨hs2 (by omega), by omega⟩
    have hv1 := paced_store hv this (y := .predator { age := incr_unsigned p.age, speed := (if p.hunger = 2 then p.speed + 1 else p.speed), hunger := p.hunger + 1, adult_predator_nearby := p.adult_predator_nearby, isdead := p.isdead }) (by
      simp only [Object.paced, decide_eq_true_eq]
      omega)
    refine ⟨fun q x hx => hv1 q x hx, ?_⟩
    intro obj n d h
    obtain ⟨h1, h2⟩ := random_move_count h
    omega

/-- `ApexPredator::tick` keeps the objects paced, and the move it returns is a
move of the apex predator by 1, 2 or 3. -/
theorem apex_tick_paced {env : Env} {w w1 : World} {this : Nat} {nb : Neighbourhood}
    {a : Action} {p : ApexPredator} (hp : w.Paced) (hthis : w.deref this = some (.apex p))
    (htick : ApexPredator.tick env w this nb = some (a, w1)) :
    w1.Paced ∧ ∀ (obj : Nat) (n : Int) (d : Move.Direction), a = .Move obj n d →
      obj = this ∧ 1 ≤ n ∧ n ≤ 3 := by
  have hlt := World.deref_lt hthis
  have hs : 0 ≤ p.hunger ∧ p.hunger ≤ 7 ∧
      p.speed = 1 + (if 3 ≤ p.hunger then 1 else 0) + (if 6 ≤ p.hunger then 1 else 0) := by
    have h := hp this _ hthis
    simp only [Object.paced, decide_eq_true_eq] at h
    exact h
  have hy : ∀ b : Bool,
      (Object.apex { p with age := incr_unsigned p.age, isdead := b }).paced = true := by
    intro b
    simp only [Object.paced, decide_eq_true_eq]
    exact hs
  have hy0 : (Object.apex { p with age := incr_unsigned p.age }).paced = true := by
    simp only [Object.paced, decide_eq_true_eq]
    exact hs
  rcases apex_tick_cases hthis htick with ⟨-, rfl, rfl⟩ | ⟨-, victim, x, -, hx, rfl, rfl⟩ |
      ⟨hlive, -, v, hrep, rfl, rfl⟩
  · refine ⟨paced_store (paced_store hp this hy0) this (hy true), ?_⟩
    intro obj n d h
    simp at h
  · have h1 := paced_store hp this hy0
    refine ⟨paced_store (paced_store h1 victim (by rw [die_paced]; exact h1 victim x hx)) this
      (by simp [Object.paced]), ?_⟩
    intro obj n d h
    simp at h
  · have hv := paced_after_reproduce hp hlt hy0 (c := .apex ApexPredator.new) (by decide) hrep
    obtain ⟨h0, h7, hsp⟩ := hs
    have h6 : p.hunger ≤ 6 := by omega
    have hnew : (if p.hunger = 5 then (if p.hunger = 2 then p.speed + 1 else p.speed) + 1 else (if p.hunger = 2 then p.speed + 1 else p.speed))
        = 1 + (if 3 ≤ p.hunger + 1 then 1 else 0) + (if 6 ≤ p.hunger + 1 then 1 else 0) := by
      rw [hsp]
      split_ifs <;> omega
    have hv1 := paced_store hv this (y := .apex { age := incr_unsigned p.age, speed := (if p.hunger = 5 then (if p.hunger = 2 then p.speed + 1 else p.speed) + 1 else (if p.hunger = 2 then p.speed + 1 else p.speed)), hunger := p.hunger + 1, adult_ap_nearby := p.adult_ap_nearby, isdead := p.isdead }) (by
      simp only [Object.paced, decide_eq_true_eq]
      exact ⟨by omega, by omega, hnew⟩)
    refine ⟨fun q x hx => hv1 q x hx, ?_⟩
    intro obj n d h
    obtain ⟨h1, h2⟩ := random_move_count h
    refine ⟨h1, ?_⟩
    rw [h2, hnew]
    split_ifs <;> omega

/-- A stone and a reef have no speed to keep. -/
theorem paced_of_sym {x : Object} (h : x.getSym ∈ ['#', 'R']) : x.paced = true := by
  cases x <;> simp [Object.getSym] at h <;> rfl

/-- The tick of a stone or a reef keeps the objects paced and returns the
no-op action. -/
theorem still_tick_paced {w w1 : World} {this : Nat} {nb : Neighbourhood} {a : Action}
    {x : Object} (hp : w.Paced) (hx : w.deref this = some x) (hsym : x.getSym ∈ ['#', 'R'])
    (E : TickEffect w this nb a w1) :
    w1.Paced ∧ ∀ (obj : Nat) (n : Int) (d : Move.Direction), a = .Move obj n d →
      obj = this ∧ 1 ≤ n ∧ n ≤ 3 := by
  constructor
  · intro q z hz
    by_cases hq : q = this
    · subst hq
      obtain ⟨y, y1, hy, hy1, hys, -⟩ := E.self
      rw [hx] at hy
      simp only [Option.some.injEq] at hy
      subst hy
      rw [hz] at hy1
      simp only [Option.some.injEq] at hy1
      subst hy1
      exact paced_of_sym (by rw [hys]; exact hsym)
    · by_cases hql : q < w.heap.length
      · have hy : w.deref q = some w.heap[q] := by
          simp [World.deref, List.getElem?_eq_getElem hql]
        rcases E.others q _ hq hy with h1 | h1
        · rw [hz] at h1
          simp only [Option.some.injEq] at h1
          rw [h1]
          exact hp q _ hy
        · rw [hz] at h1
          simp only [Option.some.injEq] at h1
          rw [h1, die_paced]
          exact hp q _ hy
      · have hzl := World.deref_lt hz
        rcases E.grid with ⟨-, hl⟩ | ⟨y, child, _, _, hy, hys, -⟩ |
            ⟨y, z1, child, -, -, -, -, -, -, -, hl, hch, hcs⟩
        · omega
        · rw [hx] at hy
          simp only [Option.some.injEq] at hy
          subst hy
          simp at hsym hys
          rcases hsym with h | h <;> rcases hys with h1 | h1 | h1 <;> rw [h] at h1 <;>
            simp at h1
        · have hqe : q = w.heap.length := by omega
          subst hqe
          rw [hz] at hch
          simp only [Option.some.injEq] at hch
          subst hch
          exact paced_of_sym hcs
  · intro obj n d h
    rcases E.action with h1 | ⟨count, d1, y, -, hy, hys⟩
    · rw [h1] at h
      simp at h
    · rw [hx] at hy
      simp only [Option.some.injEq] at hy
      subst hy
      simp at hsym hys
      rcases hsym with h2 | h2 <;> rcases hys with h1 | h1 | h1 <;> rw [h2] at h1 <;>
        simp at h1

/-- Every call `cell->tick(neighbourhood, ocean)` keeps the objects paced, and
the move it returns, if any, is a move of the object itself by 1, 2 or 3. -/
theorem object_tick_paced {env : Env} {w w1 : World} {this : Nat} {nb : Neighbourhood}
    {a : Action} (hp : w.Paced) (h : Object.tick env w this nb = some (a, w1)) :
    w1.Paced ∧ ∀ (obj : Nat) (n : Int) (d : Move.Direction), a = .Move obj n d →
      obj = this ∧ 1 ≤ n ∧ n ≤ 3 := by
  have E := object_tick_effect h
  unfold Object.tick at h
  split at h
  · simp at h
  · rename_i s hs
    exact still_tick_paced hp hs (by simp [Object.getSym]) E
  · rename_i r hr
    exact still_tick_paced hp hr (by simp [Object.getSym]) E
  · rename_i p hthis
    exact prey_tick_paced hp hthis h
  · rename_i p hthis
    exact predator_tick_paced hp hthis h
  · rename_i p hthis
    exact apex_tick_paced hp hthis h

/-- On a grid with at least as many rows and columns as the distance,
`Move::apply` computes an index inside the grid. -/
theorem new_index_in_range {o : Ocean} (hwf : o.WF) {obj i : Nat}
    (hpos : o.data[i]? = some (some obj)) {count : Int} (h0 : 0 ≤ count)
    (hr : count ≤ o.rows) (hc : count ≤ o.cols) (d : Move.Direction) :
    ∃ k : Int, Move.new_index o obj count d = some k ∧ 0 ≤ k ∧ k.toNat < o.data.length := by
  have hfi : find_index o.data obj < o.data.length :=
    (List.getElem?_eq_some_iff.1 (find_index_spec hpos).1).1
  obtain ⟨hr0, hr1, hc0, hc1, -⟩ := row_col_range hwf hfi
  have hR := hwf.rows_pos
  have hC := hwf.cols_pos
  have hsz := hwf.size
  have hrows : ∀ x : Int, 0 ≤ x % o.rows ∧ x % o.rows < o.rows := fun x =>
    ⟨Int.emod_nonneg x (by omega), Int.emod_lt_of_pos x (by omega)⟩
  have hcols : ∀ x : Int, 0 ≤ x % o.cols ∧ x % o.cols < o.cols := fun x =>
    ⟨Int.emod_nonneg x (by omega), Int.emod_lt_of_pos x (by omega)⟩
  have hfin : ∀ r c : Int, 0 ≤ r → r < o.rows → 0 ≤ c → c < o.cols →
      0 ≤ r * o.cols + c ∧ (r * o.cols + c).toNat < o.data.length := by
    intro r c h1 h2 h3 h4
    obtain ⟨h5, h6⟩ := cell_index_range h1 h2 h3 h4
    refine ⟨h5, ?_⟩
    have : ((r * o.cols + c).toNat : Int) < o.data.length := by
      rw [Int.toNat_of_nonneg h5]
      omega
    exact_mod_cast this
  unfold Move.new_index
  simp only [cdiv_eq hC, cmod_eq hC]
  cases d with
  | N =>
    simp only [Move.destination, cmod_eq hR, tmod_back hr0 hr hR, Option.map_some']
    exact ⟨_, rfl, hfin _ _ (hrows _).1 (hrows _).2 hc0 hc1⟩
  | S =>
    simp only [Move.destination, cmod_eq hR, tmod_forth hr0 h0 hR, Option.map_some']
    exact ⟨_, rfl, hfin _ _ (hrows _).1 (hrows _).2 hc0 hc1⟩
  | W =>
    simp only [Move.destination, cmod_eq hC, tmod_back hc0 hc hC, Option.map_some']
    exact ⟨_, rfl, hfin _ _ hr0 hr1 (hcols _).1 (hcols _).2⟩
  | E =>
    simp only [Move.destination, cmod_eq hC, tmod_forth hc0 h0 hC, Option.map_some']
    exact ⟨_, rfl, hfin _ _ hr0 hr1 (hcols _).1 (hcols _).2⟩

/-- `Move::apply` keeps the dimensions of the grid. -/
theorem move_apply_dims {o o1 : Ocean} {obj : Nat} {count : Int} {d : Move.Direction}
    {b : Bool} (h : Move.apply o obj count d = some (b, o1)) :
    o1.rows = o.rows ∧ o1.cols = o.cols := by
  obtain ⟨-, k, -, -, -, hcase⟩ := Move.apply_spec h
  rcases hcase with ⟨q, -, rfl⟩ | ⟨-, rfl⟩
  · exact ⟨rfl, rfl⟩
  · exact ⟨rfl, rfl⟩

/-- On a grid of at least three rows and three columns, in a valid state of
paced objects, the body of the first loop of `Ocean::tick` is defined at every
position, and leaves a valid state of paced objects on a grid of the same
dimensions. -/
theorem tick_cell_defined (env : Env) {w : World} (i : Nat) (hv : w.Valid) (hp : w.Paced)
    (h3r : 3 ≤ w.ocean.rows) (h3c : 3 ≤ w.ocean.cols) :
    ∃ w1, Ocean.tick_cell env w i = some w1 ∧ w1.Valid ∧ w1.Paced ∧
      w1.ocean.rows = w.ocean.rows ∧ w1.ocean.cols = w.ocean.cols := by
  have hskip : (∀ p : Nat, w.ocean.data[i]? ≠ some (some p)) →
      Ocean.tick_cell env w i = some w := by
    intro h
    unfold Ocean.tick_cell
    split
    · rename_i cell hcell
      exact absurd hcell (h cell)
    · rfl
  cases hc : w.ocean.data[i]? with
  | none => exact ⟨w, hskip (by simp [hc]), hv, hp, rfl, rfl⟩
  | some c =>
    cases c with
    | none => exact ⟨w, hskip (by simp [hc]), hv, hp, rfl, rfl⟩
    | some p =>
      obtain ⟨nb, hnb⟩ := generate_neighbourhood_defined hv.wf hc
      obtain ⟨a, w0, htick⟩ := object_tick_defined env hv hc hnb
      have E := object_tick_effect htick
      obtain ⟨hp0, hmove⟩ := object_tick_paced hp htick
      obtain ⟨hv0, -, -, -, hkept, -⟩ := tick_frame hv hc hnb E
      have happ : ∃ (b : Bool) (o2 : Ocean), a.apply w0.ocean = some (b, o2) ∧
          o2.rows = w0.ocean.rows ∧ o2.cols = w0.ocean.cols := by
        cases a with
        | NoAction obj => exact ⟨true, w0.ocean, rfl, rfl, rfl⟩
        | Move obj count d =>
          obtain ⟨hobj, h1, h2⟩ := hmove obj count d rfl
          subst hobj
          have hpos : w0.ocean.data[i]? = some (some obj) := by
            rcases hkept with h | ⟨h, -, -⟩
            · exact h
            · simp at h
          obtain ⟨k, hk, hk0, hk1⟩ := new_index_in_range hv0.wf hpos (by omega : 0 ≤ count)
            (by rw [E.rows]; omega) (by rw [E.cols]; omega) d
          obtain ⟨o2, ho2⟩ := Move.apply_defined hk hk0 hk1
          exact ⟨true, o2, ho2, move_apply_dims ho2⟩
      obtain ⟨b, o2, happ, hrows, hcols⟩ := happ
      have hstep : Ocean.tick_cell env w i = some { w0 with ocean := o2 } := by
        unfold Ocean.tick_cell
        rw [hc]
        simp only [hnb, htick, happ]
      refine ⟨_, hstep, ?_, fun q x hx => hp0 q x hx, by rw [hrows, E.rows],
        by rw [hcols, E.cols]⟩
      rcases tick_cell_cases hv hstep with ⟨h, -⟩ | ⟨_, -, S⟩
      · rw [h]
        exact hv
      · exact S.valid

/-- On a grid of at least three rows and three columns, in a valid state of
paced objects, the first loop of `Ocean::tick` is defined up to every position. -/
theorem scan_defined (env : Env) {w : World} (hv : w.Valid) (hp : w.Paced)
    (h3r : 3 ≤ w.ocean.rows) (h3c : 3 ≤ w.ocean.cols) (n : Nat) :
    ∃ wn, Ocean.scan env w n = some wn ∧ wn.Valid ∧ wn.Paced ∧
      wn.ocean.rows = w.ocean.rows ∧ wn.ocean.cols = w.ocean.cols := by
  induction n with
  | zero => exact ⟨w, rfl, hv, hp, rfl, rfl⟩
  | succ n ih =>
    obtain ⟨wn, hs, hvn, hpn, hr, hc⟩ := ih
    obtain ⟨w1, h1, hv1, hp1, hr1, hc1⟩ :=
      tick_cell_defined env n hvn hpn (by rw [hr]; exact h3r) (by rw [hc]; exact h3c)
    exact ⟨w1, scan_succ hs h1, hv1, hp1, by rw [hr1, hr], by rw [hc1, hc]⟩

/-- On a grid of at least three rows and three columns, in a valid state of
paced objects, `Ocean::tick` is defined, and leaves a valid state of paced
objects on a grid of the same dimensions. -/
theorem tick_defined_of_paced (env : Env) {w : World} (hv : w.Valid) (hp : w.Paced)
    (h3r : 3 ≤ w.ocean.rows) (h3c : 3 ≤ w.ocean.cols) :
    ∃ w1, Ocean.tick env w = some w1 ∧ w1.Valid ∧ w1.Paced ∧
      w1.ocean.rows = w.ocean.rows ∧ w1.ocean.cols = w.ocean.cols := by
  obtain ⟨wn, hs, hvn, hpn, hr, hc⟩ := scan_defined env hv hp h3r h3c w.ocean.data.length
  obtain ⟨w1, hsw, hv1, hheap, -, hr1, hc1, -⟩ := sweep_spec hvn
  refine ⟨w1, ?_, hv1, ?_, by rw [hr1, hr], by rw [hc1, hc]⟩
  · unfold Ocean.tick
    rw [hs]
    exact hsw
  · intro q x hx
    apply hpn q x
    simpa [World.deref, hheap] using hx

/-- On a grid of at least three rows and three columns, from a valid state of
paced objects, every number of calls of `Ocean::tick` is defined. -/
theorem run_defined_of_paced (env : Env) (n : Nat) :
    ∀ w : World, w.Valid → w.Paced → 3 ≤ w.ocean.rows → 3 ≤ w.ocean.cols →
      ∃ wn, Ocean.run env n w = some wn ∧ wn.Valid ∧ wn.Paced ∧
        wn.ocean.rows = w.ocean.rows ∧ wn.ocean.cols = w.ocean.cols := by
  induction n with
  | zero =>
    intro w hv hp _ _
    exact ⟨w, rfl, hv, hp, rfl, rfl⟩
  | succ n ih =>
    intro w hv hp h3r h3c
    obtain ⟨w1, h1, hv1, hp1, hr1, hc1⟩ := tick_defined_of_paced env hv hp h3r h3c
    obtain ⟨wn, hn, hvn, hpn, hrn, hcn⟩ := ih w1 hv1 hp1 (by rw [hr1]; exact h3r)
      (by rw [hc1]; exact h3c)
    refine ⟨wn, ?_, hvn, hpn, by rw [hrn, hr1], by rw [hcn, hc1]⟩
    simp only [Ocean.run, h1]
    exact hn

/-- The body of the first loop of `Ocean::tick` keeps the dimensions of the
grid. -/
theorem tick_cell_dims {env : Env} {w w1 : World} {i : Nat}
    (h : Ocean.tick_cell env w i = some w1) :
    w1.ocean.rows = w.ocean.rows ∧ w1.ocean.cols = w.ocean.cols := by
  unfold Ocean.tick_cell at h
  split at h
  · split at h
    · simp at h
    · split at h
      · simp at h
      · rename_i a w0 htick
        have E := object_tick_effect htick
        split at h
        · simp at h
        · rename_i b o2 happ
          simp only [Option.some.injEq] at h
          subst h
          cases a with
          | NoAction obj =>
            simp only [Action.apply, NoAction.apply, Option.some.injEq, Prod.mk.injEq] at happ
            obtain ⟨-, rfl⟩ := happ
            exact ⟨E.rows, E.cols⟩
          | Move obj count d =>
            simp only [Action.apply] at happ
            obtain ⟨h1, h2⟩ := move_apply_dims happ
            exact ⟨by rw [← E.rows]; exact h1, by rw [← E.cols]; exact h2⟩
  · simp only [Option.some.injEq] at h
    subst h
    exact ⟨rfl, rfl⟩

/-- The first loop of `Ocean::tick` keeps the dimensions of the grid. -/
theorem scan_dims {env : Env} {w : World} :
    ∀ (n : Nat) (wn : World), Ocean.scan env w n = some wn →
      wn.ocean.rows = w.ocean.rows ∧ wn.ocean.cols = w.ocean.cols := by
  intro n
  induction n with
  | zero =>
    intro wn h
    simp only [Ocean.scan, Option.some.injEq] at h
    subst h
    exact ⟨rfl, rfl⟩
  | succ n ih =>
    intro wn h
    simp only [Ocean.scan] at h
    split at h
    · simp at h
    · rename_i wm hm
      obtain ⟨h1, h2⟩ := ih wm hm
      obtain ⟨h3, h4⟩ := tick_cell_dims h
      exact ⟨by rw [h3, h1], by rw [h4, h2]⟩

/-- Where the first loop of `Ocean::tick` is defined up to a position it is
defined up to every earlier one. -/
theorem scan_prefix {env : Env} {w : World} {n : Nat} {wn : World}
    (h : Ocean.scan env w n = some wn) :
    ∀ m : Nat, m ≤ n → ∃ v : World, Ocean.scan env w m = some v := by
  induction n generalizing wn with
  | zero =>
    intro m hm
    have : m = 0 := by omega
    subst this
    exact ⟨wn, h⟩
  | succ n ih =>
    intro m hm
    rcases Nat.lt_or_ge m (n + 1) with h1 | h1
    · simp only [Ocean.scan] at h
      split at h
      · simp at h
      · rename_i wm hwm
        exact ih hwm m (by omega)
    · have : m = n + 1 := by omega
      subst this
      exact ⟨wn, h⟩

/-- Two valid states on grids of the same dimensions have as many cells. -/
theorem length_of_dims {w v : World} (hw : w.ocean.WF) (hv : v.ocean.WF)
    (hr : v.ocean.rows = w.ocean.rows) (hc : v.ocean.cols = w.ocean.cols) :
    v.ocean.data.length = w.ocean.data.length := by
  have h1 := hw.size
  have h2 := hv.size
  rw [hr, hc, ← h1] at h2
  exact_mod_cast h2

/-! ## The claims -/

/-- C1 (defect of the code): `Move::apply` does not always relocate the entity
to the wrapped destination.  An apex predator alone on a grid of two rows and
two columns, at row 1, column 0, reaches speed 3 in its fifth tick and then
moves West by 3.  The wrapped destination is row 1, column 1 (index 3), which
is empty, but `Move::apply` computes the column `-1` and stores the entity at
index 1, which is row 0, column 1. -/
theorem Move.apply_misses_wrapped_destination :
    wrapped_destination apex_on_2x2.ocean 1 0 3 .W = (1, 1) ∧
    apex_on_2x2.ocean.data[3]? = some none ∧
    Move.apply apex_on_2x2.ocean 0 3 .W
      = some (true, { rows := 2, cols := 2, data := [none, some 0, none, none] }) ∧
    (Ocean.run (Env.const 3 0) 4 apex_on_2x2).map (fun w => (w.ocean, w.heap))
      = some (apex_on_2x2.ocean,
          [.apex { age := 5, speed := 2, hunger := 5, adult_ap_nearby := false,
                   isdead := false }]) ∧
    (Ocean.run (Env.const 3 0) 5 apex_on_2x2).map (fun w => w.ocean.data)
      = some [none, some 0, none, none] := by
  decide

/-- C2 (defect of the code): the destination coordinate `Move::apply` computes
is not always in `[0, extent)`.  On a grid of two rows a move North by 3 from
row 0 computes the row `(0 - 3 + 2) % 2 = -1` where the wrapped row is 1, so
the destination index is `-1`, outside the vector.  An apex predator alone on a
grid of two rows and one column makes this move in its fifth tick. -/
theorem Move.destination_negative :
    Move.destination apex_on_2x1.ocean 0 0 3 .N = some (-1, 0) ∧
    wrapped_destination apex_on_2x1.ocean 0 0 3 .N = (1, 0) ∧
    Move.new_index apex_on_2x1.ocean 0 3 .N = some (-1) ∧
    Move.apply apex_on_2x1.ocean 0 3 .N = none ∧
    (Ocean.run (Env.const 0 0) 4 apex_on_2x1).map (fun w => (w.ocean, w.heap))
      = some (apex_on_2x1.ocean,
          [.apex { age := 5, speed := 2, hunger := 5, adult_ap_nearby := false,
                   isdead := false }]) ∧
    Ocean.run (Env.const 0 0) 5 apex_on_2x1 = none := by
  decide

/-- C9 (defect of the code): the reef a stone turns into does not have age 0.
`Reef()` leaves `age` unset, so the reef that replaces a stone of age 7 has the
age the memory held before, whatever value `j` that is. -/
theorem Stone.tick_reef_age_unset (j : Int) :
    Stone.tick (Env.const 0 j) stone_of_age_7 0 { cells := [some 0, some 0, some 0, some 0] }
      = some (.NoAction 0,
          { ocean := { rows := 1, cols := 1, data := [some 1] },
            heap := [.stone { age := 8 }, .reef { age := j }], rand_calls := 0 }) := by
  rfl

/-- C10 (counterexample): a reef of age `a` with `a + 1 >= 4` is not always
replaced by a stone.  For the greatest `int`, `a = 2147483647`, the increment
`age++` wraps to `-2147483648`, which is below 4: `Reef::tick` leaves the reef
at its position, with that age.  A reef holds this age when its memory did, the
constructor `Reef()` leaving `age` unset: the stone of `stone_of_age_7` turns
into such a reef in its first tick, and the reef is still there, with age
`-2147483648`, after the second. -/
theorem reef_of_greatest_age_stays :
    4 ≤ (2147483647 : Int) + 1 ∧
    reef_of_greatest_age.ocean.data[0]? = some (some 0) ∧
    reef_of_greatest_age.deref 0 = some (.reef { age := 2147483647 }) ∧
    Reef.tick reef_of_greatest_age 0 { cells := [some 0, some 0, some 0, some 0] }
      = some (.NoAction 0,
          { ocean := { rows := 1, cols := 1, data := [some 0] },
            heap := [.reef { age := -2147483648 }], rand_calls := 0 }) ∧
    Ocean.run (Env.const 0 2147483647) 1 stone_of_age_7
      = some { ocean := { rows := 1, cols := 1, data := [some 1] },
               heap := [.stone { age := 8 }, .reef { age := 2147483647 }], rand_calls := 0 } ∧
    Ocean.run (Env.const 0 2147483647) 2 stone_of_age_7
      = some { ocean := { rows := 1, cols := 1, data := [some 1] },
               heap := [.stone { age := 8 }, .reef { age := -2147483648 }],
               rand_calls := 0 } := by
  decide

/-- C10 (as amended): a reef of age `a` at position `p`, with `a1` its age
after the increment `age++` of an `int`: `a1 = a + 1`, except that `a1` is the
least `int` when `a` is the greatest.  `Reef::tick` returns the no-op action,
which leaves the grid as it is; the grid dimensions, the other positions and
the other objects are unchanged.  If `a1 < 4` the grid is unchanged and the
reef has age `a1`; if `a1 >= 4` position `p` holds a newly allocated stone of
age 0. -/
theorem Reef.tick_spec (w : World) (this p : Nat) (a : Int) (nb : Neighbourhood)
    (hx : Exclusive w.ocean.data)
    (hp : w.ocean.data[p]? = some (some this))
    (hthis : w.deref this = some (.reef { age := a })) :
    ∃ w1, Reef.tick w this nb = some (.NoAction this, w1) ∧
      Action.apply w1.ocean (.NoAction this) = some (true, w1.ocean) ∧
      w1.ocean.rows = w.ocean.rows ∧ w1.ocean.cols = w.ocean.cols ∧
      w1.rand_calls = w.rand_calls ∧
      (∀ j : Nat, j ≠ p → w1.ocean.data[j]? = w.ocean.data[j]?) ∧
      (∀ q : Nat, q ≠ this → q < w.heap.length → w1.deref q = w.deref q) ∧
      (incr_int a < 4 → w1.ocean = w.ocean ∧ w1.heap.length = w.heap.length ∧
        w1.deref this = some (.reef { age := incr_int a })) ∧
      (4 ≤ incr_int a → ∃ fresh : Nat, w.heap.length ≤ fresh ∧
        w1.ocean.data[p]? = some (some fresh) ∧
        w1.deref fresh = some (.stone { age := 0 })) ∧
      (-2147483648 ≤ a → a < 2147483647 → incr_int a = a + 1) ∧
      (a = 2147483647 → incr_int a = -2147483648) := by
  have hlt := World.deref_lt hthis
  have hfi : find_index w.ocean.data this = p := find_index_of_exclusive hx hp
  have hpl : p < w.ocean.data.length := (List.getElem?_eq_some_iff.1 hp).1
  have hmax : a = 2147483647 → incr_int a = -2147483648 := by
    intro h
    rw [h]
    exact incr_int_max
  by_cases hage : 4 ≤ incr_int a
  · refine ⟨{ w with
        ocean := { w.ocean with data := w.ocean.data.set p (some w.heap.length) },
        heap := w.heap.set this (.reef { age := incr_int a }) ++ [.stone Stone.new] }, ?_, rfl,
      rfl, rfl, rfl, ?_, ?_, ?_, ?_, fun h0 h1 => incr_int_eq h0 h1, hmax⟩
    · unfold Reef.tick
      rw [hthis]
      simp only [World.store, Reef.age_to_stone]
      rw [if_pos (by simpa using hage), hfi,
        write_in_range _ (Int.ofNat_nonneg _) (by simpa using hpl)]
      simp
    · intro j hj
      simp [List.getElem?_set, Ne.symm hj]
    · intro q hq hql
      simp only [World.deref]
      rw [List.getElem?_append_left (by simpa using hql)]
      simp [List.getElem?_set, Ne.symm hq]
    · intro h; omega
    · intro _
      refine ⟨w.heap.length, le_refl _, ?_, ?_⟩
      · simp [List.getElem?_set, hpl]
      · simp only [World.deref]
        rw [List.getElem?_append_right (by simp)]
        simp [Stone.new]
  · refine ⟨w.store this (.reef { age := incr_int a }), ?_, rfl, rfl, rfl, rfl, ?_, ?_, ?_, ?_,
      fun h0 h1 => incr_int_eq h0 h1, hmax⟩
    · unfold Reef.tick
      rw [hthis]
      simp only [Reef.age_to_stone]
      rw [if_neg (by simpa using hage)]
    · intro j _; rfl
    · intro q hq _
      exact World.deref_store_ne _ (Ne.symm hq)
    · intro _
      exact ⟨rfl, by simp [World.store], World.deref_store_self _ hlt⟩
    · intro h; omega

/-- Witness for C10: the reef of age 3 of `reef_of_age_3` is replaced by a
stone of age 0. -/
theorem Reef.tick_spec_witness :
    ∃ w1, Reef.tick reef_of_age_3 0 { cells := [some 0, some 0, some 0, some 0] }
        = some (.NoAction 0, w1) ∧
      Action.apply w1.ocean (.NoAction 0) = some (true, w1.ocean) ∧
      w1.ocean.rows = reef_of_age_3.ocean.rows ∧
      w1.ocean.cols = reef_of_age_3.ocean.cols ∧
      w1.rand_calls = reef_of_age_3.rand_calls ∧
      (∀ j : Nat, j ≠ 0 → w1.ocean.data[j]? = reef_of_age_3.ocean.data[j]?) ∧
      (∀ q : Nat, q ≠ 0 → q < reef_of_age_3.heap.length →
        w1.deref q = reef_of_age_3.deref q) ∧
      (incr_int 3 < 4 → w1.ocean = reef_of_age_3.ocean ∧
        w1.heap.length = reef_of_age_3.heap.length ∧
        w1.deref 0 = some (.reef { age := incr_int 3 })) ∧
      (4 ≤ incr_int 3 → ∃ fresh : Nat, reef_of_age_3.heap.length ≤ fresh ∧
        w1.ocean.data[0]? = some (some fresh) ∧
        w1.deref fresh = some (.stone { age := 0 })) ∧
      (-2147483648 ≤ (3 : Int) → (3 : Int) < 2147483647 → incr_int 3 = 3 + 1) ∧
      ((3 : Int) = 2147483647 → incr_int 3 = -2147483648) :=
  Reef.tick_spec reef_of_age_3 0 0 3 { cells := [some 0, some 0, some 0, some 0] }
    (Exclusive_of_pairwise (by decide)) (by decide) (by decide)

/-- C5: a predator that passes its death check (age after the increment at
most 15, hunger at most 6) and has, in slot `i`, a prey `q` flagged neither
dead nor shielded, every prey in an earlier slot being flagged dead or
shielded.  `Predator::tick` returns the no-op action, marks `q` dead, sets the
predator's hunger to 0 and speed to 1, allocates nothing, and changes neither
the grid nor any other object. -/
theorem Predator.tick_kills_first_prey (env : Env) (w : World) (this : Nat)
    (nb : Neighbourhood) (p : Predator) (i q : Nat) (v : Prey)
    (hthis : w.deref this = some (.predator p))
    (hage : incr_unsigned p.age ≤ Predator.max_age) (hhunger : p.hunger ≤ 6)
    (hall : w.allocated nb.cells)
    (hq : nb.cells[i]? = some (some q))
    (hv : w.deref q = some (.prey v)) (hlive : v.isdead = false)
    (hshield : v.reef_nearby = false)
    (hfirst : ∀ (j r : Nat) (u : Prey), j < i → nb.cells[j]? = some (some r) →
      w.deref r = some (.prey u) → u.isdead = true ∨ u.reef_nearby = true) :
    ∃ w1, Predator.tick env w this nb = some (.NoAction this, w1) ∧
      Action.apply w1.ocean (.NoAction this) = some (true, w1.ocean) ∧
      w1.ocean = w.ocean ∧ w1.heap.length = w.heap.length ∧
      w1.rand_calls = w.rand_calls ∧
      w1.deref q = some (.prey { v with isdead := true }) ∧
      w1.deref this
        = some (.predator { p with age := incr_unsigned p.age, hunger := 0, speed := 1 }) ∧
      ∀ r : Nat, r ≠ q → r ≠ this → w1.deref r = w.deref r := by
  have hlt := World.deref_lt hthis
  have hqlt := World.deref_lt hv
  have hne : this ≠ q := by
    intro h
    rw [h, hv] at hthis
    simp at hthis
  let p1 : Predator := { p with age := incr_unsigned p.age }
  have hd1 : ∀ r : Nat, r ≠ this → (w.store this (.predator p1)).deref r = w.deref r :=
    fun r hr => World.deref_store_ne _ (Ne.symm hr)
  have hself : (w.store this (.predator p1)).deref this = some (.predator p1) :=
    World.deref_store_self _ hlt
  have hvict : (w.store this (.predator p1)).first_victim false nb.cells = some (some q) := by
    rcases World.first_victim_spec (w.store this (.predator p1)) false
        (World.allocated_store hall this _) with ⟨-, h2⟩ | ⟨j, q1, x, h1, h2, h3, h4, h5⟩
    · have := h2 i q (.prey v) hq (by rw [hd1 q (Ne.symm hne)]; exact hv)
      simp [Object.is_victim, hlive, hshield] at this
    · have hq1 : q1 ≠ this := by
        intro h
        rw [h, hself] at h3
        simp at h3
        subst h3
        simp [Object.is_victim] at h4
      rcases Nat.lt_trichotomy j i with hlt1 | heq | hgt
      · rw [hd1 q1 hq1] at h3
        cases x with
        | prey u =>
          rcases hfirst j q1 u hlt1 h2 h3 with hu | hu <;> simp [Object.is_victim, hu] at h4
        | predator u => simp [Object.is_victim] at h4
        | stone s => simp [Object.is_victim] at h4
        | reef r => simp [Object.is_victim] at h4
        | apex a => simp [Object.is_victim] at h4
      · subst heq
        rw [hq] at h2
        simp at h2
        subst h2
        exact h1
      · have := h5 i q (.prey v) hgt hq (by rw [hd1 q (Ne.symm hne)]; exact hv)
        simp [Object.is_victim, hlive, hshield] at this
  refine ⟨((w.store this (.predator p1)).store q (Object.prey v).die).store this
      (.predator { p1 with hunger := 0, speed := 1 }), ?_, rfl, rfl, ?_, rfl, ?_, ?_, ?_⟩
  · unfold Predator.tick
    rw [hthis]
    simp only
    rw [if_neg (by
      simp only [Predator.max_age] at hage ⊢
      omega)]
    rw [hvict]
    simp only
    rw [hd1 q (Ne.symm hne), hv]
  · simp [World.store]
  · rw [World.deref_store_ne _ hne, World.deref_store_self _ (by simpa [World.store] using hqlt)]
    rfl
  · rw [World.deref_store_self _ (by simpa [World.store] using hlt)]
  · intro r hrq hrt
    rw [World.deref_store_ne _ (Ne.symm hrt), World.deref_store_ne _ (Ne.symm hrq),
      World.deref_store_ne _ (Ne.symm hrt)]

/-- Witness for C5: the predator of `predator_between_preys`, whose West
neighbour is a prey flagged dead and whose East neighbour is a live prey. -/
theorem Predator.tick_kills_first_prey_witness :
    ∃ w1, Predator.tick (Env.const 0 0) predator_between_preys 1
        { cells := [some 1, some 1, some 0, some 2] } = some (.NoAction 1, w1) ∧
      Action.apply w1.ocean (.NoAction 1) = some (true, w1.ocean) ∧
      w1.ocean = predator_between_preys.ocean ∧
      w1.heap.length = predator_between_preys.heap.length ∧
      w1.rand_calls = predator_between_preys.rand_calls ∧
      w1.deref 2 = some (.prey { Prey.new with isdead := true }) ∧
      w1.deref 1 = some (.predator { Predator.new with
        age := incr_unsigned Predator.new.age, hunger := 0, speed := 1 }) ∧
      ∀ r : Nat, r ≠ 2 → r ≠ 1 → w1.deref r = predator_between_preys.deref r :=
  Predator.tick_kills_first_prey (Env.const 0 0) predator_between_preys 1
    { cells := [some 1, some 1, some 0, some 2] } Predator.new 3 2 Prey.new
    (by decide) (by decide) (by decide)
    (allocated_of_all (by decide))
    (by decide) (by decide) (by decide) (by decide)
    (by
      intro j r u hj hc hu
      interval_cases j
      · simp at hc
        subst hc
        simp [World.deref, predator_between_preys] at hu
      · simp at hc
        subst hc
        simp [World.deref, predator_between_preys] at hu
      · simp at hc
        subst hc
        simp [World.deref, predator_between_preys] at hu
        subst hu
        simp)

theorem prey_scan_sees_no_predator {w : World} {this : Nat} {nb : Neighbourhood} {p r : Prey}
    (hthis : w.deref this = some (.prey p)) (hall : w.allocated nb.cells)
    (hsafe : ∀ (j q : Nat) (x : Object), nb.cells[j]? = some (some q) → w.deref q = some x →
      x.getSym ≠ 'P' ∧ x.getSym ≠ 'A') :
    (w.store this (.prey r)).first_with_sym ['P', 'A'] nb.cells 0 = some none := by
  rcases World.first_with_sym_spec (w.store this (.prey r)) ['P', 'A']
      (World.allocated_store hall this _) 0 with ⟨h1, -⟩ | ⟨j, q, x, -, h2, h3, h4, -⟩
  · exact h1
  · exfalso
    by_cases hq : this = q
    · subst hq
      rw [World.deref_store_self _ (World.deref_lt hthis)] at h3
      simp at h3
      subst h3
      simp [Object.getSym] at h4
    · rw [World.deref_store_ne _ hq] at h3
      have := hsafe j q x h2 h3
      simp at h4
      rcases h4 with h | h
      · exact this.1 h
      · exact this.2 h

/-- C7 (as amended): a prey on a well-formed grid, with the neighbourhood
`generate_neighbourhood` gives it, that survives its age check, is mature after
the increment and has no predator or apex predator among its neighbours.  If
the FIRST neighbour in the order N, S, W, E that is a prey is mature (age at
least 2, read after the increment of `this`) and some slot is empty, then
`Prey::tick` spawns a fresh prey in the cell of the first empty slot, which was
empty; otherwise it spawns nothing and leaves the grid as it is.  In both cases
it is defined and returns the random move. -/
theorem prey_spawns_iff_first_prey_mature (env : Env) (w : World) (this pos : Nat)
    (nb : Neighbourhood) (p : Prey)
    (hwf : w.ocean.WF) (hpos : w.ocean.data[pos]? = some (some this))
    (hnb : w.ocean.generate_neighbourhood this = some nb) (hall : w.allocated nb.cells)
    (hthis : w.deref this = some (.prey p))
    (hage : incr_unsigned p.age ≤ Prey.max_age)
    (hmature : Prey.mature_age ≤ incr_unsigned p.age)
    (hsafe : ∀ (j q : Nat) (x : Object), nb.cells[j]? = some (some q) → w.deref q = some x →
      x.getSym ≠ 'P' ∧ x.getSym ≠ 'A') :
    (((w.store this (.prey { p with age := incr_unsigned p.age })).first_is_mature nb 'F'
          Prey.mature ∧ ∃ j : Nat, nb.cells[j]? = some none) →
      ∃ (i : Nat) (k : Int), first_empty nb.cells 0 = some i ∧
        w.ocean.spawn_index (find_index w.ocean.data this : Nat) i = some k ∧ 0 ≤ k ∧
        w.ocean.data[k.toNat]? = some none ∧
        Prey.tick env w this nb
          = some (random_move this p.speed (env.rand w.rand_calls % 4),
              { (w.store this (.prey { p with age := incr_unsigned p.age })).with_child
                  k.toNat (.prey Prey.new) with rand_calls := w.rand_calls + 1 })) ∧
    (¬ ((w.store this (.prey { p with age := incr_unsigned p.age })).first_is_mature nb 'F'
          Prey.mature ∧ ∃ j : Nat, nb.cells[j]? = some none) →
      Prey.tick env w this nb
        = some (random_move this p.speed (env.rand w.rand_calls % 4),
            { w.store this (.prey { p with age := incr_unsigned p.age }) with
                rand_calls := w.rand_calls + 1 })) := by
  obtain ⟨b, hb⟩ := World.any_with_sym_defined
    (w.store this (.prey { p with age := incr_unsigned p.age })) 'R'
    (World.allocated_store hall this _)
  have hscan := prey_scan_sees_no_predator (r := { p with age := incr_unsigned p.age })
    hthis hall hsafe
  have htick : ∀ w2 : World, Prey.reproduce
        (w.store this (.prey { p with age := incr_unsigned p.age })) this nb = some w2 →
      Prey.tick env w this nb = some (w2.draw_move env this p.speed) := by
    intro w2 hw2
    unfold Prey.tick
    rw [hthis]
    simp only
    rw [if_neg (by omega), hscan, hb]
    simp only
    rw [if_pos hmature, hw2]
  obtain ⟨hyes, hno⟩ := reproduce_char (w := w.store this (.prey { p with age := incr_unsigned p.age }))
    'F' Prey.mature (.prey Prey.new) hwf hpos hnb (World.allocated_store hall this _)
  constructor
  · intro h
    obtain ⟨i, k, hi, hk, hk0, -, hkn, hrep⟩ := hyes h
    exact ⟨i, k, hi, hk, hk0, hkn, htick _ hrep⟩
  · intro h
    exact htick _ (hno h)

/-- Witness for C7: the prey in the middle of `prey_below_adult`, whose North
neighbour is a prey of age 5 and whose South slot is the first empty one,
spawns a prey South of itself. -/
theorem prey_spawns_iff_first_prey_mature_witness :
    ∃ (i : Nat) (k : Int),
      first_empty [some 1, none, none, none] 0 = some i ∧
      prey_below_adult.ocean.spawn_index
        (find_index prey_below_adult.ocean.data 0 : Nat) i = some k ∧ 0 ≤ k ∧
      prey_below_adult.ocean.data[k.toNat]? = some none ∧
      Prey.tick (Env.const 0 0) prey_below_adult 0 { cells := [some 1, none, none, none] }
        = some (random_move 0 (Prey.mk 5 1 false false false).speed
              ((Env.const 0 0).rand prey_below_adult.rand_calls % 4),
            { (prey_below_adult.store 0 (.prey { Prey.mk 5 1 false false false with
                  age := incr_unsigned (Prey.mk 5 1 false false false).age })).with_child
                k.toNat (.prey Prey.new) with rand_calls := prey_below_adult.rand_calls + 1 }) :=
  (prey_spawns_iff_first_prey_mature (Env.const 0 0) prey_below_adult 0 4
    { cells := [some 1, none, none, none] } (Prey.mk 5 1 false false false)
    ⟨by decide, by decide, by decide⟩ (by decide) (by decide)
    (allocated_of_all (by decide)) (by decide) (by decide) (by decide)
    (fun j q x hj hx => by
      have := neighbours_of_all (w := prey_below_adult)
        (fun x => decide (x.getSym ≠ 'P' ∧ x.getSym ≠ 'A')) (by decide) j q x hj hx
      simpa using this)).1
    ⟨⟨0, 1, .prey (Prey.mk 5 1 false false false), by decide, by decide, by decide, by decide,
        fun j1 q1 x1 hj1 => absurd hj1 (Nat.not_lt_zero _)⟩, ⟨1, by decide⟩⟩

/-- C7 (counterexample): a neighbour that is a mature prey and an empty slot do
not suffice.  The prey in the middle of `prey_between_young_and_adult` survives
its age check, is mature, has no predator nearby, has a prey of age 5 South of
it and empty slots West and East; but its North neighbour, the first prey in
scan order, has age 0, and `Prey::tick` spawns nothing: the grid is unchanged
and nothing is allocated. -/
theorem prey_ignores_later_mature_prey :
    prey_between_young_and_adult.ocean.generate_neighbourhood 0
      = some { cells := [some 1, some 2, none, none] } ∧
    prey_between_young_and_adult.deref 0 = some (.prey (Prey.mk 5 1 false false false)) ∧
    prey_between_young_and_adult.deref 1 = some (.prey (Prey.mk 0 1 false false false)) ∧
    prey_between_young_and_adult.deref 2 = some (.prey (Prey.mk 5 1 false false false)) ∧
    Prey.tick (Env.const 0 0) prey_between_young_and_adult 0
        { cells := [some 1, some 2, none, none] }
      = some (.Move 0 1 .N,
          { ocean := prey_between_young_and_adult.ocean,
            heap := [.prey (Prey.mk 6 1 false false false),
                     .prey (Prey.mk 0 1 false false false),
                     .prey (Prey.mk 5 1 false false false)],
            rand_calls := 1 }) := by
  decide

/-- C6 (defect of the code): a prey adjacent to a reef is not shielded.  On the
grid `prey_beside_reef` the North neighbour of the prey (address 2, index 4) is
a reef.  When the first loop of `Ocean::tick` has passed the prey, the prey is
still at index 4, beside the reef, and its field `reef_nearby` is still
`false`: `Prey::tick` sets a local variable of that name.  The predator East of
it, evaluated next, therefore marks the prey dead, and the sweep removes it. -/
theorem prey_beside_reef_is_killed :
    prey_beside_reef.ocean.generate_neighbourhood 2
      = some { cells := [some 0, none, some 1, some 3] } ∧
    prey_beside_reef.deref 0 = some (.reef { age := 0 }) ∧
    (Ocean.scan (Env.const 0 0) prey_beside_reef 5).map
        (fun w => (w.ocean.data, w.deref 2))
      = some (prey_beside_reef.ocean.data,
          some (.prey { age := 1, speed := 1, adult_prey_nearby := false, isdead := false,
                        reef_nearby := false })) ∧
    (Ocean.scan (Env.const 0 0) prey_beside_reef 6).map (fun w => w.deref 2)
      = some (some (.prey { age := 1, speed := 1, adult_prey_nearby := false, isdead := true,
                            reef_nearby := false })) ∧
    (Ocean.tick (Env.const 0 0) prey_beside_reef).map (fun w => w.ocean.data)
      = some [none, some 0, none, some 1, none, some 3, none, none, none] := by
  decide

theorem heap_length_le_succ {w w1 : World} {this : Nat} {nb : Neighbourhood} {a : Action}
    (E : TickEffect w this nb a w1) : w1.heap.length ≤ w.heap.length + 1 := by
  rcases E.grid with ⟨-, hl⟩ | ⟨_, _, _, _, -, -, -, -, -, -, -, hl, -⟩ |
      ⟨_, _, _, -, -, -, -, -, -, -, hl, -⟩ <;> omega

/-- Occupancy exclusivity where the operations are defined.  In a valid state
(well-formed grid, no address at two positions, every cell empty or allocated):
`Move::apply` for an entity of the grid, where it is defined, keeps the state
valid and the set of entities in the grid; a call of `tick` for an entity of
the grid (with a reproduction spawn or a stone/reef transformation) is defined
and keeps the state valid, every entity stays in the grid except a replaced
stone or reef, and the only entity that may appear is the newly allocated one;
the sweep is defined, keeps the state valid and removes exactly the animals
flagged dead; after a whole `Ocean::tick`, where it is defined, the state is
valid and every entity of the grid is at exactly one position, unless it was
replaced or is flagged dead; and on a grid of at least three rows and three
columns whose animals have the speed the program gives them the whole
`Ocean::tick` is defined, and leaves such a state. -/
theorem occupancy_exclusive (env : Env) (w : World) (hv : w.Valid) :
    (∀ (obj : Nat) (count : Int) (d : Move.Direction) (b : Bool) (o1 : Ocean),
      w.ocean.holds obj → Move.apply w.ocean obj count d = some (b, o1) →
      ({ w with ocean := o1 } : World).Valid ∧ ∀ q : Nat, o1.holds q ↔ w.ocean.holds q) ∧
    (∀ (this : Nat) (nb : Neighbourhood), w.ocean.holds this →
      w.ocean.generate_neighbourhood this = some nb →
      ∃ (a : Action) (w1 : World), Object.tick env w this nb = some (a, w1) ∧ w1.Valid ∧
        (∀ q : Nat, w.ocean.holds q → w1.ocean.holds q ∨
          (q = this ∧ ∃ z : Object, w1.deref q = some z ∧ z.transformed = true)) ∧
        (∀ q : Nat, w1.ocean.holds q → w.ocean.holds q ∨ q = w.heap.length)) ∧
    (∃ w1 : World, Ocean.sweep w = some w1 ∧ w1.Valid ∧
      ∀ q : Nat, w1.ocean.holds q ↔
        (w.ocean.holds q ∧ ∃ z : Object, w.deref q = some z ∧ z.flagged_dead = false)) ∧
    (∀ w1 : World, Ocean.tick env w = some w1 → w1.Valid ∧
      ∀ q : Nat, w.ocean.holds q →
        (∃! j : Nat, w1.ocean.data[j]? = some (some q)) ∨
        ∃ z : Object, w1.deref q = some z ∧
          (z.transformed = true ∨ z.flagged_dead = true)) ∧
    (w.Paced → 3 ≤ w.ocean.rows → 3 ≤ w.ocean.cols →
      ∃ w1 : World, Ocean.tick env w = some w1 ∧ w1.Valid ∧ w1.Paced ∧
        w1.ocean.rows = w.ocean.rows ∧ w1.ocean.cols = w.ocean.cols) := by
  refine ⟨?_, ?_, ?_, ?_, fun hp h3r h3c => tick_defined_of_paced env hv hp h3r h3c⟩
  · intro obj count d b o1 ⟨i, hi⟩ happ
    obtain ⟨hwf, hx, hstay, horigin, hkept, hsub⟩ := move_frame hv.wf hv.exclusive hi happ
    refine ⟨⟨hwf, hx, ?_⟩, ?_⟩
    · intro j q hj
      obtain ⟨j1, hj1⟩ := hsub q j hj
      exact hv.allocated j1 q hj1
    · intro q
      constructor
      · rintro ⟨j, hj⟩
        exact hsub q j hj
      · rintro ⟨j, hj⟩
        by_cases hq : q = obj
        · subst hq
          exact hkept
        · exact ⟨j, hstay q j hq hj⟩
  · intro this nb ⟨pos, hpos⟩ hnb
    obtain ⟨a, w1, htick⟩ := object_tick_defined env hv hpos hnb
    have E := object_tick_effect htick
    obtain ⟨hv1, hlen, hstay, horigin, hkept, hsame⟩ := tick_frame hv hpos hnb E
    refine ⟨a, w1, htick, hv1, ?_, ?_⟩
    · rintro q ⟨j, hj⟩
      by_cases hq : q = this
      · subst hq
        rcases hkept with h1 | ⟨-, -, h1⟩
        · exact Or.inl ⟨pos, h1⟩
        · exact Or.inr ⟨rfl, h1⟩
      · exact Or.inl ⟨j, hstay q j hq hj⟩
    · rintro q ⟨j, hj⟩
      by_cases hq : q = this
      · subst hq
        exact Or.inl ⟨j, hsame j hj⟩
      · by_cases hql : q < w.heap.length
        · exact Or.inl ⟨j, horigin q j hq hql hj⟩
        · right
          have h1 := hv1.allocated j q hj
          have h2 := heap_length_le_succ E
          omega
  · obtain ⟨w1, hs, hv1, -, -, -, -, key, -, -⟩ := sweep_spec hv
    refine ⟨w1, hs, hv1, ?_⟩
    intro q
    constructor
    · rintro ⟨j, hj⟩
      obtain ⟨h1, h2⟩ := (key j q).1 hj
      exact ⟨⟨j, h1⟩, h2⟩
    · rintro ⟨⟨j, hj⟩, h2⟩
      exact ⟨j, (key j q).2 ⟨hj, h2⟩⟩
  · intro w1 htick
    unfold Ocean.tick at htick
    split at htick
    · simp at htick
    · rename_i wn hscan
      obtain ⟨hvn, hkeep⟩ := scan_keeps hv hscan
      obtain ⟨w2, hs, hv2, hheap, -, -, -, key, -, -⟩ := sweep_spec hvn
      rw [hs] at htick
      simp at htick
      subst htick
      refine ⟨hv2, ?_⟩
      intro q hq
      have hd : ∀ r : Nat, w2.deref r = wn.deref r := by
        intro r
        simp [World.deref, hheap]
      rcases hkeep q hq with ⟨j, hj⟩ | ⟨z, hz, hzt⟩
      · obtain ⟨z, hz⟩ := Valid.allocated_data hvn j q hj
        cases hzd : z.flagged_dead with
        | false =>
          left
          refine ⟨j, (key j q).2 ⟨hj, z, hz, hzd⟩, ?_⟩
          intro j1 hj1
          exact hv2.exclusive j1 j q hj1 ((key j q).2 ⟨hj, z, hz, hzd⟩)
        | true =>
          right
          exact ⟨z, by rw [hd]; exact hz, Or.inr hzd⟩
      · right
        exact ⟨z, by rw [hd]; exact hz, Or.inl hzt⟩

/-- Witness: the state `prey_beside_reef` is valid, one `Ocean::tick`
takes it to `prey_beside_reef_after`, which is valid, and each of its four
entities is at exactly one position afterwards or is flagged dead. -/
theorem occupancy_exclusive_witness :
    prey_beside_reef.Valid ∧
    Ocean.tick (Env.const 0 0) prey_beside_reef = some prey_beside_reef_after ∧
    prey_beside_reef_after.Valid ∧
    ∀ q : Nat, prey_beside_reef.ocean.holds q →
      (∃! j : Nat, prey_beside_reef_after.ocean.data[j]? = some (some q)) ∨
      ∃ z : Object, prey_beside_reef_after.deref q = some z ∧
        (z.transformed = true ∨ z.flagged_dead = true) :=
  have hv : prey_beside_reef.Valid :=
    valid_of_checks (by decide) (by decide) (by decide) (by decide) (by decide)
  ⟨hv, by decide,
    (occupancy_exclusive (Env.const 0 0) prey_beside_reef hv).2.2.2.1 prey_beside_reef_after
      (by decide)⟩

/-- C4 (defect of the code): occupancy exclusivity is not kept by every
`Move::apply`.  The state `apex_on_2x1_after_4` is the one the program reaches
from a fresh apex predator on a grid of two rows and one column by four ticks;
it is valid, no entity is at two positions, and the apex predator is at
position 0.  In the fifth tick `ApexPredator::tick` returns the move North by
3, for which `Move::apply` computes the index `-1`: the cell it tests, and
would write the entity to, lies outside the vector that is the grid, so the
move and with it the tick have no defined result, and nothing keeps the entity
recorded at a position. -/
theorem exclusive_grid_move_leaves_vector :
    Ocean.run (Env.const 0 0) 4 apex_on_2x1 = some apex_on_2x1_after_4 ∧
    apex_on_2x1_after_4.Valid ∧ apex_on_2x1_after_4.Paced ∧
    apex_on_2x1_after_4.ocean.holds 0 ∧
    apex_on_2x1_after_4.ocean.generate_neighbourhood 0
      = some { cells := [none, none, some 0, some 0] } ∧
    Object.tick (Env.const 0 0) apex_on_2x1_after_4 0 { cells := [none, none, some 0, some 0] }
      = some (.Move 0 3 .N,
          { ocean := apex_on_2x1_after_4.ocean,
            heap := [.apex { age := 6, speed := 3, hunger := 6, adult_ap_nearby := false,
                             isdead := false }],
            rand_calls := 6 }) ∧
    Move.new_index apex_on_2x1_after_4.ocean 0 3 .N = some (-1) ∧
    apex_on_2x1_after_4.ocean.read (-1) = none ∧
    Move.apply apex_on_2x1_after_4.ocean 0 3 .N = none ∧
    Ocean.tick_cell (Env.const 0 0) apex_on_2x1_after_4 0 = none ∧
    Ocean.tick (Env.const 0 0) apex_on_2x1_after_4 = none :=
  ⟨by decide,
    valid_of_checks (by decide) (by decide) (by decide) (by decide) (by decide),
    paced_of_all (by decide), ⟨0, by decide⟩, by decide, by decide, by decide, by decide,
    by decide, by decide, by decide⟩

theorem evaluations_le (env : Env) (w : World) (q n : Nat) :
    Ocean.evaluations env w q n ≤ n := by
  induction n with
  | zero => simp [Ocean.evaluations]
  | succ n ih =>
    simp only [Ocean.evaluations]
    have : (match Ocean.scan env w n with
        | some wi => if wi.ocean.data[n]? = some (some q) then 1 else 0
        | none => 0) ≤ 1 := by
      split
      · split <;> omega
      · omega
    omega

/-- The age of a stone or reef after one `age++`. -/
theorem age_after_one_of_sym {x : Object} (h : x.getSym ∈ ['#', 'R']) :
    x.age_after 1 = incr_int x.age := by
  cases x <;> simp [Object.getSym] at h <;>
    simp [Object.age_after, Object.age, incr_int]

/-- C3 (as amended): a valid state, and an entity `q` with fields `x` stored
at position `j0` of the grid.  On a grid of at least three rows and three
columns whose animals have the speed the program gives them, `Ocean::tick` is
defined.  Whenever `Ocean::tick` is defined and `q` is in the grid after it:
the object at `q` has the same class and is not flagged dead, and its age is
the age of `x` after `k` executions of `age++` (an `int` or `unsigned int`
increment, which wraps as the type does), where `k` is the number of positions
at which the first loop found `q`.  No entity is skipped: `k ≥ 1`; and
`k ≤ cells - j0`.  For a stone or a reef `k = 1`.  In general `k = 1` exactly
when the evaluation of `q` at `j0` leaves it at no position after `j0`; an
animal whose move carries it to a later position is evaluated again there. -/
theorem age_grows_by_evaluations (env : Env) (w : World) (q j0 : Nat) (x : Object)
    (hv : w.Valid) (hq : w.ocean.data[j0]? = some (some q)) (hx : w.deref q = some x) :
    (w.Paced → 3 ≤ w.ocean.rows → 3 ≤ w.ocean.cols →
      ∃ w1 : World, Ocean.tick env w = some w1) ∧
    (∀ w1 : World, Ocean.tick env w = some w1 → w1.ocean.holds q →
      ∃ x1 : Object, w1.deref q = some x1 ∧ x1.getSym = x.getSym ∧
        x1.flagged_dead = false ∧
        1 ≤ Ocean.evaluations env w q w.ocean.data.length ∧
        Ocean.evaluations env w q w.ocean.data.length + j0 ≤ w.ocean.data.length ∧
        x1.age = x.age_after (Ocean.evaluations env w q w.ocean.data.length) ∧
        (x.getSym ∈ ['#', 'R'] →
          Ocean.evaluations env w q w.ocean.data.length = 1 ∧ x1.age = incr_int x.age) ∧
        ∃ v0 : World, Ocean.scan env w (j0 + 1) = some v0 ∧
          (Ocean.evaluations env w q w.ocean.data.length = 1 ↔
            ∀ j1 : Nat, v0.ocean.data[j1]? = some (some q) → j1 ≤ j0)) := by
  have hj0l : j0 < w.ocean.data.length := (List.getElem?_eq_some_iff.1 hq).1
  constructor
  · intro hp h3r h3c
    obtain ⟨w1, h1, -⟩ := tick_defined_of_paced env hv hp h3r h3c
    exact ⟨w1, h1⟩
  · intro w1 htick hafter
    unfold Ocean.tick at htick
    split at htick
    · simp at htick
    · rename_i wn hscan
      obtain ⟨hvn, T⟩ := tracked_scan hv hq hx _ wn hscan
      obtain ⟨w2, hs, -, hheap, -, -, -, key, -⟩ := sweep_spec hvn
      rw [hs] at htick
      simp only [Option.some.injEq] at htick
      subst htick
      obtain ⟨j, hj⟩ := hafter
      obtain ⟨-, z, hz, hzd⟩ := (key j q).1 hj
      obtain ⟨xn, hxn, hsym, -, hage⟩ := T.alive
      rw [hz] at hxn
      simp only [Option.some.injEq] at hxn
      subst hxn
      have h1 := T.after hj0l
      obtain ⟨v0, hv0⟩ := scan_prefix hscan (j0 + 1) (by omega)
      refine ⟨z, ?_, hsym, hzd, h1, T.count hj0l, hage h1, ?_, v0, hv0, ?_, ?_⟩
      · simp only [World.deref, hheap]
        exact hz
      · intro hs
        have hk := (T.fixed hs hj0l).1
        refine ⟨hk, ?_⟩
        rw [hage h1, hk]
        exact age_after_one_of_sym hs
      · intro hk j1 hj1
        by_contra hlt
        have hv0v := (tracked_scan hv hq hx _ v0 hv0).1
        obtain ⟨hr, hc⟩ := scan_dims _ v0 hv0
        have hlen := length_of_dims hv.wf hv0v.wf hr hc
        have hj1l : j1 < v0.ocean.data.length := (List.getElem?_eq_some_iff.1 hj1).1
        have := (T.again hj0l v0 j1 hv0 hj1 (by omega)).2 (by omega)
        omega
      · intro hA
        exact (T.once hj0l v0 hv0 hA).1

/-- Witness for C3: the prey of `lone_prey`, with every draw 1 (East). -/
theorem age_grows_by_evaluations_witness :
    ∃ x1 : Object, lone_prey_after.deref 0 = some x1 ∧
      x1.getSym = (Object.prey Prey.new).getSym ∧ x1.flagged_dead = false ∧
      1 ≤ Ocean.evaluations (Env.const 1 0) lone_prey 0 lone_prey.ocean.data.length ∧
      Ocean.evaluations (Env.const 1 0) lone_prey 0 lone_prey.ocean.data.length + 0
        ≤ lone_prey.ocean.data.length ∧
      x1.age = (Object.prey Prey.new).age_after
        (Ocean.evaluations (Env.const 1 0) lone_prey 0 lone_prey.ocean.data.length) ∧
      ((Object.prey Prey.new).getSym ∈ ['#', 'R'] →
        Ocean.evaluations (Env.const 1 0) lone_prey 0 lone_prey.ocean.data.length = 1 ∧
          x1.age = incr_int (Object.prey Prey.new).age) ∧
      ∃ v0 : World, Ocean.scan (Env.const 1 0) lone_prey (0 + 1) = some v0 ∧
        (Ocean.evaluations (Env.const 1 0) lone_prey 0 lone_prey.ocean.data.length = 1 ↔
          ∀ j1 : Nat, v0.ocean.data[j1]? = some (some 0) → j1 ≤ 0) :=
  (age_grows_by_evaluations (Env.const 1 0) lone_prey 0 0 (.prey Prey.new)
    (valid_of_checks (by decide) (by decide) (by decide) (by decide) (by decide))
    (by decide) (by decide)).2 lone_prey_after (by decide) ⟨0, by decide⟩

/-- C3 (counterexample): an entity can be evaluated more than once in one tick.
The prey of `lone_prey`, alone on a grid of three rows and three columns, is in
the grid before and after one `Ocean::tick` in which every draw is 1 (East); it
is found at the positions 0, 1 and 2 of the first loop, and its age goes from 0
to 3. -/
theorem prey_ages_thrice_in_one_tick :
    lone_prey.deref 0 = some (.prey (Prey.mk 0 1 false false false)) ∧
    lone_prey.ocean.data[0]? = some (some 0) ∧
    Ocean.tick (Env.const 1 0) lone_prey
      = some { ocean := lone_prey.ocean,
               heap := [.prey (Prey.mk 3 1 false false false)], rand_calls := 3 } ∧
    Ocean.evaluations (Env.const 1 0) lone_prey 0 9 = 3 := by
  decide

/-! ## Further properties -/

/-- The frame of `Move::apply` when the destination index `k` it computes lies
in the grid, for an entity stored at position `s` only: if the cell `k` is
empty, the entity is stored at `k`, the cell `s` is emptied and every other
cell is unchanged; if the cell `k` is occupied (also by the entity itself),
the ocean is unchanged.  In both cases `true` is returned. -/
theorem move_apply_in_grid (o : Ocean) (obj s : Nat) (count : Int) (d : Move.Direction)
    (k : Int) (hx : Exclusive o.data) (hs : o.data[s]? = some (some obj))
    (hk : Move.new_index o obj count d = some k) (hk0 : 0 ≤ k)
    (hk1 : k.toNat < o.data.length) :
    (o.data[k.toNat]? = some none →
      Move.apply o obj count d
        = some (true, { o with data := (o.data.set k.toNat (some obj)).set s none })) ∧
    (∀ q : Nat, o.data[k.toNat]? = some (some q) →
      Move.apply o obj count d = some (true, o)) := by
  have hfi : find_index o.data obj = s := find_index_of_exclusive hx hs
  have hr : o.read k = o.data[k.toNat]? := by unfold Ocean.read; rw [if_pos hk0]
  have hsl : s < o.data.length := (List.getElem?_eq_some_iff.1 hs).1
  constructor
  · intro hkn
    unfold Move.apply
    rw [hk]
    simp only
    rw [hr, hkn]
    simp only
    rw [write_in_range _ hk0 hk1]
    simp only
    rw [hfi, write_in_range _ (Int.ofNat_nonneg _) (by simpa using hsl)]
    simp
  · intro q hkq
    unfold Move.apply
    rw [hk]
    simp only
    rw [hr, hkq]

/-- Witness: a move North by 1 from row 0 of a grid of three rows lands in
row 2. -/
theorem move_apply_in_grid_witness :
    (lone_prey.ocean.data[(6 : Int).toNat]? = some none →
      Move.apply lone_prey.ocean 0 1 .N
        = some (true, { lone_prey.ocean with
            data := (lone_prey.ocean.data.set (6 : Int).toNat (some 0)).set 0 none })) ∧
    (∀ q : Nat, lone_prey.ocean.data[(6 : Int).toNat]? = some (some q) →
      Move.apply lone_prey.ocean 0 1 .N = some (true, lone_prey.ocean)) :=
  move_apply_in_grid lone_prey.ocean 0 0 1 .N 6 (Exclusive_of_pairwise (by decide))
    (by decide) (by decide) (by decide) (by decide)

/-- A stone of age `a` at position `p`: `Stone::tick` returns the no-op action.
With `a1` the age after `age++` (`a + 1`, unless `a` is the greatest `int`): if
`a1 < 8` the grid is unchanged and the stone has age `a1`; if `a1 >= 8`
position `p` holds a newly allocated reef, whose age is the value its memory
held, and every other position is unchanged. -/
theorem stone_tick_spec (env : Env) (w : World) (this p : Nat) (a : Int) (nb : Neighbourhood)
    (hx : Exclusive w.ocean.data)
    (hp : w.ocean.data[p]? = some (some this))
    (hthis : w.deref this = some (.stone { age := a })) :
    (incr_int a < 8 →
      Stone.tick env w this nb
        = some (.NoAction this, w.store this (.stone { age := incr_int a }))) ∧
    (8 ≤ incr_int a →
      Stone.tick env w this nb
        = some (.NoAction this,
            { w with
              ocean := { w.ocean with data := w.ocean.data.set p (some w.heap.length) },
              heap := w.heap.set this (.stone { age := incr_int a })
                ++ [.reef { age := env.junk w.heap.length }] })) ∧
    (-2147483648 ≤ a → a < 2147483647 → incr_int a = a + 1) := by
  have hfi : find_index w.ocean.data this = p := find_index_of_exclusive hx hp
  have hpl : p < w.ocean.data.length := (List.getElem?_eq_some_iff.1 hp).1
  refine ⟨?_, ?_, fun h0 h1 => incr_int_eq h0 h1⟩
  · intro h
    unfold Stone.tick
    rw [hthis]
    simp only [Stone.age_to_reef]
    rw [if_neg (by omega)]
  · intro h
    unfold Stone.tick
    rw [hthis]
    simp only [World.store, Stone.age_to_reef]
    rw [if_pos (by simpa using h), hfi,
      write_in_range _ (Int.ofNat_nonneg _) (by simpa using hpl)]
    simp [Reef.new]

/-- Witness: the stone of `stone_of_age_7`. -/
theorem stone_tick_spec_witness :
    (incr_int 7 < 8 →
      Stone.tick (Env.const 0 5) stone_of_age_7 0 { cells := [] }
        = some (.NoAction 0, stone_of_age_7.store 0 (.stone { age := incr_int 7 }))) ∧
    (8 ≤ incr_int 7 →
      Stone.tick (Env.const 0 5) stone_of_age_7 0 { cells := [] }
        = some (.NoAction 0,
            { stone_of_age_7 with
              ocean := { stone_of_age_7.ocean with
                data := stone_of_age_7.ocean.data.set 0 (some stone_of_age_7.heap.length) },
              heap := stone_of_age_7.heap.set 0 (.stone { age := incr_int 7 })
                ++ [.reef { age := (Env.const 0 5).junk stone_of_age_7.heap.length }] })) ∧
    (-2147483648 ≤ (7 : Int) → (7 : Int) < 2147483647 → incr_int 7 = 7 + 1) :=
  stone_tick_spec (Env.const 0 5) stone_of_age_7 0 0 7 { cells := [] }
    (Exclusive_of_pairwise (by decide)) (by decide) (by decide)

/-- The field `reef_nearby` of a prey is never assigned by `Prey::tick`: after
the tick the prey has its age incremented, possibly `isdead` set, and every
other field, `reef_nearby` included, as before. -/
theorem prey_tick_keeps_reef_nearby (env : Env) (w w1 : World) (this : Nat)
    (nb : Neighbourhood) (a : Action) (p : Prey)
    (hthis : w.deref this = some (.prey p))
    (htick : Prey.tick env w this nb = some (a, w1)) :
    ∃ b : Bool, w1.deref this
      = some (.prey { age := incr_unsigned p.age, speed := p.speed,
                      adult_prey_nearby := p.adult_prey_nearby, isdead := b,
                      reef_nearby := p.reef_nearby }) := by
  have hlt := World.deref_lt hthis
  unfold Prey.tick at htick
  rw [hthis] at htick
  simp only at htick
  split at htick
  · simp at htick
    obtain ⟨-, rfl⟩ := htick
    exact ⟨true, World.deref_store_self _ (by simpa [World.store] using hlt)⟩
  · split at htick
    · split at htick
      · simp at htick
        obtain ⟨-, rfl⟩ := htick
        exact ⟨p.isdead, World.deref_store_self _ hlt⟩
      · split at htick
        · simp at htick
        · rename_i w2 hw2
          simp only [World.draw_move, Option.some.injEq, Prod.mk.injEq] at htick
          obtain ⟨-, rfl⟩ := htick
          refine ⟨p.isdead, ?_⟩
          have hrep : w2 = w.store this (.prey { p with age := incr_unsigned p.age }) ∨
              ∃ i : Nat, first_empty nb.cells 0 = some i ∧
                (w.store this (.prey { p with age := incr_unsigned p.age })).spawn this i
                  (.prey Prey.new) = some w2 := by
            split at hw2
            · exact World.reproduce_spec hw2
            · simp at hw2
              exact Or.inl hw2.symm
          rcases hrep with rfl | ⟨i, -, hsp⟩
          · exact World.deref_store_self _ hlt
          · obtain ⟨k, -, -, -, rfl⟩ := World.spawn_spec hsp
            simp only [World.deref, World.store]
            rw [List.getElem?_append_left (by simpa using hlt)]
            simp [List.getElem?_set, hlt]
    · simp at htick

/-- Witness: the prey of `prey_beside_reef`, whose North neighbour is a reef. -/
theorem prey_tick_keeps_reef_nearby_witness :
    ∃ b : Bool, (prey_beside_reef.store 2 (.prey { Prey.new with age := 1 })).deref 2
      = some (.prey { age := incr_unsigned Prey.new.age, speed := Prey.new.speed,
                      adult_prey_nearby := Prey.new.adult_prey_nearby, isdead := b,
                      reef_nearby := Prey.new.reef_nearby }) :=
  prey_tick_keeps_reef_nearby (Env.const 0 0) prey_beside_reef
    (prey_beside_reef.store 2 (.prey { Prey.new with age := 1 })) 2
    { cells := [some 0, none, some 1, some 3] } (.Move 2 1 .W) Prey.new
    (by decide) (by decide)

/-- Witness: three ticks from `lone_prey`, a grid of three rows and three
columns with one fresh prey, are defined. -/
theorem run_defined_of_paced_witness :
    ∃ wn, Ocean.run (Env.const 1 0) 3 lone_prey = some wn ∧ wn.Valid ∧ wn.Paced ∧
      wn.ocean.rows = lone_prey.ocean.rows ∧ wn.ocean.cols = lone_prey.ocean.cols :=
  run_defined_of_paced (Env.const 1 0) 3 lone_prey
    (valid_of_checks (by decide) (by decide) (by decide) (by decide) (by decide))
    (paced_of_all (by decide)) (by decide) (by decide)

/-- C17 (counterexample): `Move::apply` does not return `false` for a blocked
move.  On the grid `prey_beside_reef` the prey at index 4 moves West by 1; the
destination, index 3, holds the stone; the ocean is left unchanged and the
value returned is `true`. -/
theorem blocked_move_returns_true :
    Move.new_index prey_beside_reef.ocean 2 1 .W = some 3 ∧
    prey_beside_reef.ocean.data[3]? = some (some 1) ∧
    Move.apply prey_beside_reef.ocean 2 1 .W = some (true, prey_beside_reef.ocean) := by
  decide

/-- C17 (as amended): whenever `Move::apply` returns, it returns `true`: both
when the destination cell was empty and the entity was relocated there (the
first position holding it being emptied), and when the destination cell is
occupied and the ocean is left unchanged. -/
theorem move_apply_always_true (o o1 : Ocean) (obj : Nat) (count : Int)
    (d : Move.Direction) (b : Bool) (h : Move.apply o obj count d = some (b, o1)) :
    b = true ∧ ∃ k : Int, Move.new_index o obj count d = some k ∧ 0 ≤ k ∧
      k.toNat < o.data.length ∧
      ((o.data[k.toNat]? = some none ∧
          o1 = { o with data := (o.data.set k.toNat (some obj)).set (find_index o.data obj) none }) ∨
        ((∃ q : Nat, o.data[k.toNat]? = some (some q)) ∧ o1 = o)) := by
  obtain ⟨hb, k, hk, hk0, hk1, hcase⟩ := Move.apply_spec h
  refine ⟨hb, k, hk, hk0, hk1, ?_⟩
  rcases hcase with ⟨q, hq, ho⟩ | ⟨hn, ho⟩
  · exact Or.inr ⟨⟨q, hq⟩, ho⟩
  · exact Or.inl ⟨hn, ho⟩

/-- Witness for C17: the blocked move of the prey of `prey_beside_reef`. -/
theorem move_apply_always_true_witness :
    true = true ∧ ∃ k : Int, Move.new_index prey_beside_reef.ocean 2 1 .W = some k ∧ 0 ≤ k ∧
      k.toNat < prey_beside_reef.ocean.data.length ∧
      ((prey_beside_reef.ocean.data[k.toNat]? = some none ∧
          prey_beside_reef.ocean = { prey_beside_reef.ocean with
            data := (prey_beside_reef.ocean.data.set k.toNat (some 2)).set
              (find_index prey_beside_reef.ocean.data 2) none }) ∨
        ((∃ q : Nat, prey_beside_reef.ocean.data[k.toNat]? = some (some q)) ∧
          prey_beside_reef.ocean = prey_beside_reef.ocean)) :=
  move_apply_always_true prey_beside_reef.ocean prey_beside_reef.ocean 2 1 .W true (by decide)

theorem sweep_cell_eq_swept {w : World} {c c1 : Cell} (h : Ocean.sweep_cell w c = some c1) :
    c1 = w.swept c := by
  rcases sweep_cell_spec h with ⟨rfl, rfl⟩ | ⟨q, z, rfl, hz, ⟨hd, rfl⟩ | ⟨hd, rfl⟩⟩
  · rfl
  · simp [World.swept, hz, hd]
  · simp [World.swept, hz, hd]

/-- C12: after a defined `Ocean::tick` no position holds an animal whose dead
flag is set.  The tick is the first loop followed by the sweep of its result
`wn`; the sweep leaves the heap, the dimensions and the number of cells as
they are, and each cell holds `wn.swept c` where it held `c`: nothing where
an animal flagged dead was, the same content everywhere else, stones and
reefs included. -/
theorem no_dead_after_tick (env : Env) (w w1 : World) (h : Ocean.tick env w = some w1) :
    (∀ (j q : Nat) (z : Object), w1.ocean.data[j]? = some (some q) → w1.deref q = some z →
      z.flagged_dead = false) ∧
    ∃ wn : World, Ocean.scan env w w.ocean.data.length = some wn ∧
      Ocean.sweep wn = some w1 ∧ w1.heap = wn.heap ∧
      w1.ocean.rows = wn.ocean.rows ∧ w1.ocean.cols = wn.ocean.cols ∧
      w1.ocean.data.length = wn.ocean.data.length ∧
      ∀ j : Nat, w1.ocean.data[j]? = (wn.ocean.data[j]?).map wn.swept := by
  unfold Ocean.tick at h
  split at h
  · simp at h
  · rename_i wn hscan
    have hsw := h
    unfold Ocean.sweep at h
    split at h
    · simp at h
    · rename_i cells1 hc
      simp at h
      subst h
      obtain ⟨hl, hall⟩ := sweep_cells_spec hc
      have hcell : ∀ j : Nat, cells1[j]? = (wn.ocean.data[j]?).map wn.swept := by
        intro j
        cases hj : wn.ocean.data[j]? with
        | none =>
          have : wn.ocean.data.length ≤ j := List.getElem?_eq_none_iff.1 hj
          simp
          omega
        | some c =>
          obtain ⟨c1, h1, h2⟩ := hall j c hj
          rw [h1, sweep_cell_eq_swept h2]
          rfl
      refine ⟨?_, wn, hscan, hsw, rfl, rfl, rfl, hl, hcell⟩
      intro j q z hj hz
      have hj1 := hcell j
      simp only at hj
      rw [hj] at hj1
      cases hc0 : wn.ocean.data[j]? with
      | none =>
        rw [hc0] at hj1
        simp at hj1
      | some c =>
        rw [hc0] at hj1
        simp at hj1
        cases c with
        | none => simp [World.swept] at hj1
        | some q0 =>
          have hz0 : wn.deref q = some z := hz
          simp only [World.swept] at hj1
          cases hd0 : wn.deref q0 with
          | none =>
            rw [hd0] at hj1
            simp at hj1
            subst hj1
            rw [hd0] at hz0
            simp at hz0
          | some z0 =>
            rw [hd0] at hj1
            simp only at hj1
            split at hj1
            · simp at hj1
            · rename_i hnd
              simp at hj1
              subst hj1
              rw [hd0] at hz0
              simp at hz0
              subst hz0
              simpa using hnd

/-- Witness for C12: the tick of `prey_beside_reef`, in which the prey is
marked dead by the predator and swept. -/
theorem no_dead_after_tick_witness :
    (∀ (j q : Nat) (z : Object), prey_beside_reef_after.ocean.data[j]? = some (some q) →
      prey_beside_reef_after.deref q = some z → z.flagged_dead = false) ∧
    ∃ wn : World,
      Ocean.scan (Env.const 0 0) prey_beside_reef prey_beside_reef.ocean.data.length = some wn ∧
      Ocean.sweep wn = some prey_beside_reef_after ∧ prey_beside_reef_after.heap = wn.heap ∧
      prey_beside_reef_after.ocean.rows = wn.ocean.rows ∧
      prey_beside_reef_after.ocean.cols = wn.ocean.cols ∧
      prey_beside_reef_after.ocean.data.length = wn.ocean.data.length ∧
      ∀ j : Nat, prey_beside_reef_after.ocean.data[j]? = (wn.ocean.data[j]?).map wn.swept :=
  no_dead_after_tick (Env.const 0 0) prey_beside_reef prey_beside_reef_after (by decide)

/-- C11: the death check comes first and does not look at the neighbourhood.
For a prey: if its age after the increment exceeds 7, `Prey::tick` returns the
no-op action and sets `isdead`; nothing else changes but the age: the ocean,
the number of objects, the draws made, every other object, and the speed of
the prey.  If the age after the increment is at most 7, the prey's own fields
other than the age, `isdead` included, are as before whenever the tick is
defined.  For a predator likewise, with the check `age > 15 || hunger > 6`;
hunger and speed are unchanged when it fires, and `isdead` is unchanged when
it does not. -/
theorem death_check_first (env : Env) (w : World) (this : Nat) (nb : Neighbourhood) :
    (∀ p : Prey, w.deref this = some (.prey p) →
      (Prey.max_age < incr_unsigned p.age →
        ∃ w1, Prey.tick env w this nb = some (.NoAction this, w1) ∧
          Action.apply w1.ocean (.NoAction this) = some (true, w1.ocean) ∧
          w1.ocean = w.ocean ∧ w1.heap.length = w.heap.length ∧
          w1.rand_calls = w.rand_calls ∧
          w1.deref this = some (.prey { p with age := incr_unsigned p.age, isdead := true }) ∧
          ∀ q : Nat, q ≠ this → w1.deref q = w.deref q) ∧
      (incr_unsigned p.age ≤ Prey.max_age →
        ∀ (a : Action) (w1 : World), Prey.tick env w this nb = some (a, w1) →
          w1.deref this = some (.prey { p with age := incr_unsigned p.age }))) ∧
    (∀ p : Predator, w.deref this = some (.predator p) →
      ((Predator.max_age < incr_unsigned p.age ∨ 6 < p.hunger) →
        ∃ w1, Predator.tick env w this nb = some (.NoAction this, w1) ∧
          Action.apply w1.ocean (.NoAction this) = some (true, w1.ocean) ∧
          w1.ocean = w.ocean ∧ w1.heap.length = w.heap.length ∧
          w1.rand_calls = w.rand_calls ∧
          w1.deref this
            = some (.predator { p with age := incr_unsigned p.age, isdead := true }) ∧
          ∀ q : Nat, q ≠ this → w1.deref q = w.deref q) ∧
      (¬ (Predator.max_age < incr_unsigned p.age ∨ 6 < p.hunger) →
        ∀ (a : Action) (w1 : World), Predator.tick env w this nb = some (a, w1) →
          ∃ p1 : Predator, w1.deref this = some (.predator p1) ∧ p1.isdead = p.isdead)) := by
  constructor
  · intro p hthis
    have hlt := World.deref_lt hthis
    constructor
    · intro hage
      refine ⟨(w.store this (.prey { p with age := incr_unsigned p.age })).store this
        (.prey { p with age := incr_unsigned p.age, isdead := true }), ?_, rfl, rfl,
        by simp [World.store], rfl,
        World.deref_store_self _ (by simpa [World.store] using hlt), ?_⟩
      · unfold Prey.tick
        rw [hthis]
        simp only
        rw [if_pos hage]
      · intro q hq
        rw [World.deref_store_ne _ (Ne.symm hq), World.deref_store_ne _ (Ne.symm hq)]
    · intro hage a w1 htick
      rcases prey_tick_cases hthis htick with ⟨h1, -⟩ | ⟨-, i, q, -, -, rfl⟩ |
          ⟨-, -, v, hrep, -, rfl⟩
      · omega
      · exact World.deref_store_self _ hlt
      · exact (after_reproduce hlt hrep).2.2.1
  · intro p hthis
    have hlt := World.deref_lt hthis
    constructor
    · intro hdead
      refine ⟨(w.store this (.predator { p with age := incr_unsigned p.age })).store this
        (.predator { p with age := incr_unsigned p.age, isdead := true }), ?_, rfl, rfl,
        by simp [World.store], rfl,
        World.deref_store_self _ (by simpa [World.store] using hlt), ?_⟩
      · unfold Predator.tick
        rw [hthis]
        simp only
        rw [if_pos (by simpa using hdead)]
      · intro q hq
        rw [World.deref_store_ne _ (Ne.symm hq), World.deref_store_ne _ (Ne.symm hq)]
    · intro hlive a w1 htick
      rcases predator_tick_cases hthis htick with ⟨h1, -⟩ | ⟨-, victim, x, -, hx, -, rfl⟩ |
          ⟨-, -, v, hrep, -, rfl⟩
      · exact absurd h1 hlive
      · exact ⟨_, World.deref_store_self _ (by simpa [World.store] using hlt), rfl⟩
      · exact ⟨_, World.deref_store_self _ (after_reproduce hlt hrep).2.1, rfl⟩

/-- Witness for C11: the prey of age 7 of `old_prey_and_starved_predator`,
whose neighbours are itself and a predator. -/
theorem death_check_first_witness :
    ∃ w1, Prey.tick (Env.const 0 0) old_prey_and_starved_predator 0
        { cells := [some 0, some 0, some 1, some 1] } = some (.NoAction 0, w1) ∧
      Action.apply w1.ocean (.NoAction 0) = some (true, w1.ocean) ∧
      w1.ocean = old_prey_and_starved_predator.ocean ∧
      w1.heap.length = old_prey_and_starved_predator.heap.length ∧
      w1.rand_calls = old_prey_and_starved_predator.rand_calls ∧
      w1.deref 0 = some (.prey { Prey.mk 7 1 false false false with
        age := incr_unsigned (Prey.mk 7 1 false false false).age, isdead := true }) ∧
      ∀ q : Nat, q ≠ 0 → w1.deref q = old_prey_and_starved_predator.deref q :=
  ((death_check_first (Env.const 0 0) old_prey_and_starved_predator 0
    { cells := [some 0, some 0, some 1, some 1] }).1 (Prey.mk 7 1 false false false)
    (by decide)).1 (by decide)

/-- C13: a prey that survives its age check and has a predator or an apex
predator among its four neighbours flees.  With `j` the first slot, in the
order North, South, West, East, that holds one, `Prey::tick` is defined and
returns the `Move` of distance `speed` in the direction opposite to slot `j`
(North to South, South to North, West to East, East to West).  The world it
leaves differs from the one before only in the age of the prey: the grid and
the number of objects are the same, so no offspring is spawned, and no random
number is drawn.  The speed of a prey is 1 from its construction on. -/
theorem prey_flees_first_predator (env : Env) (w : World) (this : Nat) (nb : Neighbourhood)
    (p : Prey) (hthis : w.deref this = some (.prey p))
    (hage : incr_unsigned p.age ≤ Prey.max_age)
    (hall : w.allocated nb.cells) (hlen : nb.cells.length = 4)
    (hsome : ∃ (j q : Nat) (x : Object), nb.cells[j]? = some (some q) ∧
      w.deref q = some x ∧ (x.getSym = 'P' ∨ x.getSym = 'A')) :
    ∃ (j q : Nat) (x : Object) (d : Move.Direction),
      nb.cells[j]? = some (some q) ∧ w.deref q = some x ∧
      (x.getSym = 'P' ∨ x.getSym = 'A') ∧
      (∀ (j1 q1 : Nat) (x1 : Object), j1 < j → nb.cells[j1]? = some (some q1) →
        w.deref q1 = some x1 → ¬ (x1.getSym = 'P' ∨ x1.getSym = 'A')) ∧
      ((j = 0 ∧ d = .S) ∨ (j = 1 ∧ d = .N) ∨ (j = 2 ∧ d = .E) ∨ (j = 3 ∧ d = .W)) ∧
      Prey.tick env w this nb
        = some (.Move this p.speed d, w.store this (.prey { p with age := incr_unsigned p.age })) ∧
      (w.store this (.prey { p with age := incr_unsigned p.age })).ocean = w.ocean ∧
      (w.store this (.prey { p with age := incr_unsigned p.age })).heap.length
        = w.heap.length ∧
      (w.store this (.prey { p with age := incr_unsigned p.age })).rand_calls = w.rand_calls ∧
      (∀ q1 : Nat, q1 ≠ this →
        (w.store this (.prey { p with age := incr_unsigned p.age })).deref q1 = w.deref q1) ∧
      Prey.new.speed = 1 := by
  have hlt := World.deref_lt hthis
  have hself : (w.store this (.prey { p with age := incr_unsigned p.age })).deref this
      = some (.prey { p with age := incr_unsigned p.age }) := World.deref_store_self _ hlt
  have hall1 := World.allocated_store hall this (.prey { p with age := incr_unsigned p.age })
  -- a predator is never the prey itself, so the store does not change it
  have hsame : ∀ (q : Nat) (x : Object), (x.getSym = 'P' ∨ x.getSym = 'A') →
      (w.deref q = some x ↔
        (w.store this (.prey { p with age := incr_unsigned p.age })).deref q = some x) := by
    intro q x hx
    by_cases hq : this = q
    · subst hq
      rw [hself, hthis]
      constructor
      · intro h
        simp only [Option.some.injEq] at h
        subst h
        simp [Object.getSym] at hx
      · intro h
        simp only [Option.some.injEq] at h
        subst h
        simp [Object.getSym] at hx
    · rw [World.deref_store_ne _ hq]
  have hsym : ∀ x : Object, x.getSym ∈ ['P', 'A'] ↔ (x.getSym = 'P' ∨ x.getSym = 'A') := by
    intro x
    simp
  obtain ⟨b, hb⟩ := World.any_with_sym_defined
    (w.store this (.prey { p with age := incr_unsigned p.age })) 'R' hall1
  rcases World.first_with_sym_spec (w.store this (.prey { p with age := incr_unsigned p.age }))
    ['P', 'A'] hall1 0 with ⟨-, hnone⟩ | ⟨j, q, x, hfirst, hj, hx, hmem, hmin⟩
  · obtain ⟨j, q, x, hj, hx, hpa⟩ := hsome
    exact absurd ((hsym x).2 hpa) (hnone j q x hj ((hsame q x hpa).1 hx))
  · have hpa := (hsym x).1 hmem
    have hj4 : j < 4 := by
      have := (List.getElem?_eq_some_iff.1 hj).1
      omega
    refine ⟨j, q, x, Prey.flee_direction j, hj, (hsame q x hpa).2 hx, hpa, ?_, ?_, ?_,
      rfl, by simp [World.store], rfl, fun q1 hq1 => World.deref_store_ne _ (Ne.symm hq1), rfl⟩
    · intro j1 q1 x1 hj1 hc hx1 hpa1
      exact hmin j1 q1 x1 hj1 hc ((hsame q1 x1 hpa1).1 hx1) ((hsym x1).2 hpa1)
    · have : j = 0 ∨ j = 1 ∨ j = 2 ∨ j = 3 := by omega
      rcases this with rfl | rfl | rfl | rfl <;> simp [Prey.flee_direction]
    · unfold Prey.tick
      rw [hthis]
      simp only
      rw [if_neg (by simpa using hage), hfirst, hb]
      simp

/-- Witness for C13: the prey of `prey_beside_reef`, whose East neighbour is a
predator. -/
theorem prey_flees_first_predator_witness :
    ∃ (j q : Nat) (x : Object) (d : Move.Direction),
      [some 0, none, some 1, some 3][j]? = some (some q) ∧
      prey_beside_reef.deref q = some x ∧
      (x.getSym = 'P' ∨ x.getSym = 'A') ∧
      (∀ (j1 q1 : Nat) (x1 : Object), j1 < j →
        [some 0, none, some 1, some 3][j1]? = some (some q1) →
        prey_beside_reef.deref q1 = some x1 → ¬ (x1.getSym = 'P' ∨ x1.getSym = 'A')) ∧
      ((j = 0 ∧ d = .S) ∨ (j = 1 ∧ d = .N) ∨ (j = 2 ∧ d = .E) ∨ (j = 3 ∧ d = .W)) ∧
      Prey.tick (Env.const 0 0) prey_beside_reef 2 { cells := [some 0, none, some 1, some 3] }
        = some (.Move 2 Prey.new.speed d,
            prey_beside_reef.store 2 (.prey { Prey.new with age := incr_unsigned Prey.new.age })) ∧
      (prey_beside_reef.store 2
        (.prey { Prey.new with age := incr_unsigned Prey.new.age })).ocean
          = prey_beside_reef.ocean ∧
      (prey_beside_reef.store 2
        (.prey { Prey.new with age := incr_unsigned Prey.new.age })).heap.length
          = prey_beside_reef.heap.length ∧
      (prey_beside_reef.store 2
        (.prey { Prey.new with age := incr_unsigned Prey.new.age })).rand_calls
          = prey_beside_reef.rand_calls ∧
      (∀ q1 : Nat, q1 ≠ 2 →
        (prey_beside_reef.store 2
          (.prey { Prey.new with age := incr_unsigned Prey.new.age })).deref q1
            = prey_beside_reef.deref q1) ∧
      Prey.new.speed = 1 :=
  prey_flees_first_predator (Env.const 0 0) prey_beside_reef 2
    { cells := [some 0, none, some 1, some 3] } Prey.new (by decide) (by decide)
    (allocated_of_all (by decide)) (by decide)
    ⟨3, 3, .predator Predator.new, by decide, by decide, by decide⟩

/-- C14: an apex predator that passes its death check (age after the increment
at most 18, hunger below 7).  A neighbour is eligible if it is a prey flagged
neither dead nor shielded or, only when the hunger is at least 5, a predator
not flagged dead.  If slot `i` holds an eligible neighbour `q` and no earlier
slot, in the order North, South, West, East, does, `ApexPredator::tick` returns
the no-op action, flags `q` dead, sets the apex predator's hunger to 0 and
speed to 1, allocates nothing, draws nothing, and changes neither the grid nor
any other object.  When the hunger is below 5 no predator is changed, whatever
the tick does.  When no neighbour is eligible nothing is killed: the objects
other than the apex predator are as before and its hunger grows by 1. -/
theorem apex_kills_first_eligible (env : Env) (w : World) (this : Nat) (nb : Neighbourhood)
    (p : ApexPredator) (hthis : w.deref this = some (.apex p))
    (hage : incr_unsigned p.age ≤ ApexPredator.max_age) (hhunger : p.hunger < 7)
    (hall : w.allocated nb.cells) :
    (∀ x : Object, x.is_victim (decide (p.hunger ≥ 5)) = true ↔
      ((∃ f : Prey, x = .prey f ∧ f.isdead = false ∧ f.reef_nearby = false) ∨
        (5 ≤ p.hunger ∧ ∃ g : Predator, x = .predator g ∧ g.isdead = false))) ∧
    (∀ (i q : Nat) (x : Object), nb.cells[i]? = some (some q) → w.deref q = some x →
      x.is_victim (decide (p.hunger ≥ 5)) = true →
      (∀ (j r : Nat) (u : Object), j < i → nb.cells[j]? = some (some r) →
        w.deref r = some u → u.is_victim (decide (p.hunger ≥ 5)) = false) →
      ∃ w1, ApexPredator.tick env w this nb = some (.NoAction this, w1) ∧
        Action.apply w1.ocean (.NoAction this) = some (true, w1.ocean) ∧
        w1.ocean = w.ocean ∧ w1.heap.length = w.heap.length ∧
        w1.rand_calls = w.rand_calls ∧
        w1.deref q = some x.die ∧ x.die.flagged_dead = true ∧
        w1.deref this
          = some (.apex { p with age := incr_unsigned p.age, hunger := 0, speed := 1 }) ∧
        ∀ r : Nat, r ≠ q → r ≠ this → w1.deref r = w.deref r) ∧
    (p.hunger < 5 → ∀ (a : Action) (w1 : World),
      ApexPredator.tick env w this nb = some (a, w1) →
      ∀ (q : Nat) (g : Predator), w.deref q = some (.predator g) →
        w1.deref q = some (.predator g)) ∧
    ((∀ (j q : Nat) (x : Object), nb.cells[j]? = some (some q) → w.deref q = some x →
        x.is_victim (decide (p.hunger ≥ 5)) = false) →
      ∀ (a : Action) (w1 : World), ApexPredator.tick env w this nb = some (a, w1) →
        (∀ q : Nat, q ≠ this → q < w.heap.length → w1.deref q = w.deref q) ∧
        ∃ p1 : ApexPredator, w1.deref this = some (.apex p1) ∧ p1.hunger = p.hunger + 1) := by
  have hlt := World.deref_lt hthis
  have hlive : ¬ (ApexPredator.max_age < incr_unsigned p.age ∨ 7 ≤ p.hunger) := by omega
  have hd1 : ∀ r : Nat, r ≠ this →
      (w.store this (.apex { p with age := incr_unsigned p.age })).deref r = w.deref r :=
    fun r hr => World.deref_store_ne _ (Ne.symm hr)
  have hself : (w.store this (.apex { p with age := incr_unsigned p.age })).deref this
      = some (.apex { p with age := incr_unsigned p.age }) := World.deref_store_self _ hlt
  -- a victim is never the apex predator itself
  have hvne : ∀ (b : Bool) (q : Nat) (x : Object), x.is_victim b = true →
      (w.deref q = some x ∨
        (w.store this (.apex { p with age := incr_unsigned p.age })).deref q = some x) →
      q ≠ this := by
    intro b q x hx hq heq
    subst heq
    rw [hself, hthis] at hq
    rcases hq with hq | hq
    · simp only [Option.some.injEq] at hq
      subst hq
      simp [Object.is_victim] at hx
    · simp only [Option.some.injEq] at hq
      subst hq
      simp [Object.is_victim] at hx
  refine ⟨?_, ?_, ?_, ?_⟩
  · intro x
    cases x with
    | prey f => simp [Object.is_victim]
    | predator g => simp [Object.is_victim]
    | stone s => simp [Object.is_victim]
    | reef r => simp [Object.is_victim]
    | apex a => simp [Object.is_victim]
  · intro i q x hq hx hvic hfirst
    have hqlt := World.deref_lt hx
    have hne : q ≠ this := hvne _ q x hvic (Or.inl hx)
    have hdie : x.die.flagged_dead = true := by
      cases x with
      | prey f => rfl
      | predator g => rfl
      | stone s => simp [Object.is_victim] at hvic
      | reef r => simp [Object.is_victim] at hvic
      | apex a => simp [Object.is_victim] at hvic
    have hvict : (w.store this (.apex { p with age := incr_unsigned p.age })).first_victim
        (decide (p.hunger ≥ 5)) nb.cells = some (some q) := by
      rcases World.first_victim_spec (w.store this (.apex { p with age := incr_unsigned p.age }))
          (decide (p.hunger ≥ 5)) (World.allocated_store hall this _)
        with ⟨-, h2⟩ | ⟨j, q1, x1, h1, h2, h3, h4, h5⟩
      · have := h2 i q x hq (by rw [hd1 q hne]; exact hx)
        rw [hvic] at this
        simp at this
      · have hq1 : q1 ≠ this := hvne _ q1 x1 h4 (Or.inr h3)
        rcases Nat.lt_trichotomy j i with hlt1 | heq | hgt
        · rw [hd1 q1 hq1] at h3
          have := hfirst j q1 x1 hlt1 h2 h3
          rw [h4] at this
          simp at this
        · subst heq
          rw [hq] at h2
          simp at h2
          subst h2
          exact h1
        · have := h5 i q x hgt hq (by rw [hd1 q hne]; exact hx)
          rw [hvic] at this
          simp at this
    refine ⟨((w.store this (.apex { p with age := incr_unsigned p.age })).store q x.die).store
      this (.apex { p with age := incr_unsigned p.age, hunger := 0, speed := 1 }),
      ?_, rfl, rfl, ?_, rfl, ?_, hdie, ?_, ?_⟩
    · unfold ApexPredator.tick
      rw [hthis]
      simp only
      rw [if_neg (by simpa using hlive), hvict]
      simp only
      rw [hd1 q hne, hx]
    · simp [World.store]
    · rw [World.deref_store_ne _ (Ne.symm hne),
        World.deref_store_self _ (by simpa [World.store] using hqlt)]
    · rw [World.deref_store_self _ (by simpa [World.store] using hlt)]
    · intro r hrq hrt
      rw [World.deref_store_ne _ (Ne.symm hrt), World.deref_store_ne _ (Ne.symm hrq),
        World.deref_store_ne _ (Ne.symm hrt)]
  · intro h5 a w1 htick q g hg
    have hb : decide (p.hunger ≥ 5) = false := by simpa using h5
    have hqt : q ≠ this := by
      intro heq
      rw [heq, hthis] at hg
      simp at hg
    rcases apex_tick_cases hthis htick with ⟨h1, -⟩ | ⟨-, victim, x, hv, hx, -, rfl⟩ |
        ⟨-, -, v, hrep, -, rfl⟩
    · exact absurd h1 hlive
    · obtain ⟨j, x0, -, hx0, hvic⟩ := first_victim_found hv
      rw [hx] at hx0
      simp only [Option.some.injEq] at hx0
      subst hx0
      rw [hb] at hvic
      have hqv : q ≠ victim := by
        intro heq
        rw [← heq, hd1 q hqt, hg] at hx
        simp only [Option.some.injEq] at hx
        subst hx
        simp [Object.is_victim] at hvic
      rw [World.deref_store_ne _ (Ne.symm hqt), World.deref_store_ne _ (Ne.symm hqv),
        hd1 q hqt, hg]
    · have h3 := (after_reproduce hlt hrep).2.2.2 q hqt (World.deref_lt hg)
      show (v.store this _).deref q = _
      rw [World.deref_store_ne _ (Ne.symm hqt), h3, hg]
  · intro hnone a w1 htick
    rcases apex_tick_cases hthis htick with ⟨h1, -⟩ | ⟨-, victim, x, hv, hx, -, rfl⟩ |
        ⟨-, -, v, hrep, -, rfl⟩
    · exact absurd h1 hlive
    · obtain ⟨j, x0, hj, hx0, hvic⟩ := first_victim_found hv
      have hne := hvne _ victim x0 hvic (Or.inr hx0)
      rw [hd1 victim hne] at hx0
      have := hnone j victim x0 hj hx0
      rw [hvic] at this
      simp at this
    · obtain ⟨-, hlt1, -, hothers⟩ := after_reproduce hlt hrep
      constructor
      · intro q hqt hql
        show (v.store this _).deref q = _
        rw [World.deref_store_ne _ (Ne.symm hqt), hothers q hqt hql]
      · exact ⟨_, World.deref_store_self _ hlt1, rfl⟩

/-- Witness for C14: the apex predator of `hungry_apex_among_animals` has
hunger 5; the first eligible neighbour is the predator South of it. -/
theorem apex_kills_first_eligible_witness :
    ∃ w1, ApexPredator.tick (Env.const 0 0) hungry_apex_among_animals 0
        { cells := [some 1, some 2, some 3, none] } = some (.NoAction 0, w1) ∧
      Action.apply w1.ocean (.NoAction 0) = some (true, w1.ocean) ∧
      w1.ocean = hungry_apex_among_animals.ocean ∧
      w1.heap.length = hungry_apex_among_animals.heap.length ∧
      w1.rand_calls = hungry_apex_among_animals.rand_calls ∧
      w1.deref 2 = some (Object.predator Predator.new).die ∧
      (Object.predator Predator.new).die.flagged_dead = true ∧
      w1.deref 0 = some (.apex { (ApexPredator.mk 0 2 5 false false) with
        age := incr_unsigned (ApexPredator.mk 0 2 5 false false).age, hunger := 0, speed := 1 }) ∧
      ∀ r : Nat, r ≠ 2 → r ≠ 0 → w1.deref r = hungry_apex_among_animals.deref r :=
  (apex_kills_first_eligible (Env.const 0 0) hungry_apex_among_animals 0
    { cells := [some 1, some 2, some 3, none] } (ApexPredator.mk 0 2 5 false false)
    (by decide) (by decide) (by decide) (allocated_of_all (by decide))).2.1
    1 2 (.predator Predator.new) (by decide) (by decide) (by decide)
    (by
      intro j r u hj hc hu
      interval_cases j
      simp at hc
      subst hc
      simp [World.deref, hungry_apex_among_animals] at hu
      subst hu
      rfl)

/-- C15: a predator on the grid of a valid state that passes its death check
(age after the increment at most 15, hunger at most 6) and has no prey flagged
neither dead nor shielded among its neighbours.  `Predator::tick` is defined
and returns a `Move`, not the no-op action.  The speed grows by 1 if the hunger
was 2 and is unchanged otherwise; the hunger grows by 1; the distance of the
move is the updated speed; one random number is drawn, and its remainder `r`
modulo 4 fixes the direction: 0 North, 1 East, 2 South, 3 West.  Every
direction is issued for exactly one of the four values of `r`. -/
theorem predator_without_kill_moves (env : Env) (w : World) (this pos : Nat)
    (nb : Neighbourhood) (p : Predator) (hv : w.Valid)
    (hpos : w.ocean.data[pos]? = some (some this))
    (hnb : w.ocean.generate_neighbourhood this = some nb)
    (hthis : w.deref this = some (.predator p))
    (hage : incr_unsigned p.age ≤ Predator.max_age) (hhunger : p.hunger ≤ 6)
    (hnone : ∀ (j q : Nat) (f : Prey), nb.cells[j]? = some (some q) →
      w.deref q = some (.prey f) → f.isdead = true ∨ f.reef_nearby = true) :
    (∃ (d : Move.Direction) (w1 : World) (p1 : Predator),
      Predator.tick env w this nb = some (.Move this p1.speed d, w1) ∧
      w1.deref this = some (.predator p1) ∧
      (p.hunger = 2 → p1.speed = p.speed + 1) ∧ (p.hunger ≠ 2 → p1.speed = p.speed) ∧
      p1.hunger = p.hunger + 1 ∧ p1.age = incr_unsigned p.age ∧ p1.isdead = p.isdead ∧
      w1.rand_calls = w.rand_calls + 1 ∧
      ((env.rand w.rand_calls % 4 = 0 ∧ d = .N) ∨ (env.rand w.rand_calls % 4 = 1 ∧ d = .E) ∨
        (env.rand w.rand_calls % 4 = 2 ∧ d = .S) ∨ (env.rand w.rand_calls % 4 = 3 ∧ d = .W))) ∧
    (∀ (s : Int) (d : Move.Direction), ∃ r : Nat, r < 4 ∧
      random_move this s r = .Move this s d ∧
      ∀ r1 : Nat, r1 < 4 → random_move this s r1 = .Move this s d → r1 = r) := by
  have hlt := World.deref_lt hthis
  have hlive : ¬ (Predator.max_age < incr_unsigned p.age ∨ 6 < p.hunger) := by omega
  constructor
  · obtain ⟨a, w1, htick⟩ := object_tick_defined env hv hpos hnb
    unfold Object.tick at htick
    rw [hthis] at htick
    simp only at htick
    rcases predator_tick_cases hthis htick with ⟨h1, -⟩ | ⟨-, victim, x, hvic, hx, -, -⟩ |
        ⟨-, -, v, hrep, ha, hw1⟩
    · exact absurd h1 hlive
    · exfalso
      obtain ⟨j, x0, hj, hx0, hx1⟩ := first_victim_found hvic
      have hne : this ≠ victim := by
        intro heq
        rw [← heq, World.deref_store_self _ hlt] at hx0
        simp only [Option.some.injEq] at hx0
        subst hx0
        simp [Object.is_victim] at hx1
      rw [World.deref_store_ne _ hne] at hx0
      cases x0 with
      | prey f =>
        rcases hnone j victim f hj hx0 with hf | hf <;> simp [Object.is_victim, hf] at hx1
      | predator g => simp [Object.is_victim] at hx1
      | stone s => simp [Object.is_victim] at hx1
      | reef r => simp [Object.is_victim] at hx1
      | apex a => simp [Object.is_victim] at hx1
    · have hlt1 := (after_reproduce hlt hrep).2.1
      have hr4 : env.rand w.rand_calls % 4 < 4 := Nat.mod_lt _ (by decide)
      have hdir : ∀ (s : Int) (r : Nat), r < 4 → ∃ d : Move.Direction,
          random_move this s r = .Move this s d ∧
          ((r = 0 ∧ d = .N) ∨ (r = 1 ∧ d = .E) ∨ (r = 2 ∧ d = .S) ∨ (r = 3 ∧ d = .W)) := by
        intro s r hr
        have : r = 0 ∨ r = 1 ∨ r = 2 ∨ r = 3 := by omega
        rcases this with rfl | rfl | rfl | rfl
        · exact ⟨.N, rfl, by simp⟩
        · exact ⟨.E, rfl, by simp⟩
        · exact ⟨.S, rfl, by simp⟩
        · exact ⟨.W, rfl, by simp⟩
      obtain ⟨d, hd, hmap⟩ := hdir (if p.hunger = 2 then p.speed + 1 else p.speed)
        (env.rand w.rand_calls % 4) hr4
      refine ⟨d, w1, { age := incr_unsigned p.age, speed := (if p.hunger = 2 then p.speed + 1 else p.speed), hunger := p.hunger + 1, adult_predator_nearby := p.adult_predator_nearby, isdead := p.isdead }, ?_, ?_, ?_, ?_, rfl, rfl, rfl, ?_, hmap⟩
      · rw [htick, ha, hd]
      · rw [hw1]
        exact World.deref_store_self _ hlt1
      · intro h2
        simp [h2]
      · intro h2
        simp [h2]
      · rw [hw1]
  · intro s d
    cases d with
    | N =>
      refine ⟨0, by decide, rfl, ?_⟩
      intro r1 hr1 h
      interval_cases r1 <;> simp [random_move] at h ⊢
    | E =>
      refine ⟨1, by decide, rfl, ?_⟩
      intro r1 hr1 h
      interval_cases r1 <;> simp [random_move] at h ⊢
    | S =>
      refine ⟨2, by decide, rfl, ?_⟩
      intro r1 hr1 h
      interval_cases r1 <;> simp [random_move] at h ⊢
    | W =>
      refine ⟨3, by decide, rfl, ?_⟩
      intro r1 hr1 h
      interval_cases r1 <;> simp [random_move] at h ⊢

/-- Witness for C15: the predator of `predator_of_hunger_2`, with a draw of 1. -/
theorem predator_without_kill_moves_witness :
    ∃ (d : Move.Direction) (w1 : World) (p1 : Predator),
      Predator.tick (Env.const 1 0) predator_of_hunger_2 0
        { cells := [none, none, some 1, none] } = some (.Move 0 p1.speed d, w1) ∧
      w1.deref 0 = some (.predator p1) ∧
      ((Predator.mk 0 1 2 false false).hunger = 2 →
        p1.speed = (Predator.mk 0 1 2 false false).speed + 1) ∧
      ((Predator.mk 0 1 2 false false).hunger ≠ 2 →
        p1.speed = (Predator.mk 0 1 2 false false).speed) ∧
      p1.hunger = (Predator.mk 0 1 2 false false).hunger + 1 ∧
      p1.age = incr_unsigned (Predator.mk 0 1 2 false false).age ∧
      p1.isdead = (Predator.mk 0 1 2 false false).isdead ∧
      w1.rand_calls = predator_of_hunger_2.rand_calls + 1 ∧
      (((Env.const 1 0).rand predator_of_hunger_2.rand_calls % 4 = 0 ∧ d = .N) ∨
        ((Env.const 1 0).rand predator_of_hunger_2.rand_calls % 4 = 1 ∧ d = .E) ∨
        ((Env.const 1 0).rand predator_of_hunger_2.rand_calls % 4 = 2 ∧ d = .S) ∨
        ((Env.const 1 0).rand predator_of_hunger_2.rand_calls % 4 = 3 ∧ d = .W)) :=
  (predator_without_kill_moves (Env.const 1 0) predator_of_hunger_2 0 4
    { cells := [none, none, some 1, none] } (Predator.mk 0 1 2 false false)
    (valid_of_checks (by decide) (by decide) (by decide) (by decide) (by decide))
    (by decide) (by decide) (by decide) (by decide) (by decide)
    (by
      intro j q f hc hf
      rcases j with _ | _ | _ | _ | j
      · simp at hc
      · simp at hc
      · simp at hc
        subst hc
        simp [World.deref, predator_of_hunger_2] at hf
        subst hf
        simp
      · simp at hc
      · simp at hc)).1

/-- C18: in every state of a predator reached from a freshly constructed one
by calls of `Predator::tick`, with any worlds, neighbourhoods and draws,
`0 ≤ hunger ≤ 7`, the speed is 1 when `hunger ≤ 2` and 2 when `hunger ≥ 3`.
In every state of an apex predator reached likewise by `ApexPredator::tick`,
`0 ≤ hunger ≤ 7` and the speed is `1 + [hunger ≥ 3] + [hunger ≥ 6]`.  Hence
every `Move` the tick of a reachable predator returns has distance 1 or 2, and
every `Move` the tick of a reachable apex predator returns has distance 1, 2
or 3. -/
theorem speed_is_function_of_hunger :
    (∀ p : Predator, Predator.Reachable p →
      0 ≤ p.hunger ∧ p.hunger ≤ 7 ∧ (p.hunger ≤ 2 → p.speed = 1) ∧
        (3 ≤ p.hunger → p.speed = 2)) ∧
    (∀ p : ApexPredator, ApexPredator.Reachable p →
      0 ≤ p.hunger ∧ p.hunger ≤ 7 ∧
        p.speed = 1 + (if 3 ≤ p.hunger then 1 else 0) + (if 6 ≤ p.hunger then 1 else 0)) ∧
    (∀ (env : Env) (w w1 : World) (this obj : Nat) (nb : Neighbourhood) (p : Predator)
        (n : Int) (d : Move.Direction),
      Predator.Reachable p → w.deref this = some (.predator p) →
      Predator.tick env w this nb = some (.Move obj n d, w1) → n = 1 ∨ n = 2) ∧
    (∀ (env : Env) (w w1 : World) (this obj : Nat) (nb : Neighbourhood) (p : ApexPredator)
        (n : Int) (d : Move.Direction),
      ApexPredator.Reachable p → w.deref this = some (.apex p) →
      ApexPredator.tick env w this nb = some (.Move obj n d, w1) →
      n = 1 ∨ n = 2 ∨ n = 3) := by
  have hpred : ∀ p : Predator, Predator.Reachable p →
      0 ≤ p.hunger ∧ p.hunger ≤ 7 ∧ (p.hunger ≤ 2 → p.speed = 1) ∧
        (3 ≤ p.hunger → p.speed = 2) := by
    intro p hp
    induction hp with
    | fresh => simp [Predator.new]
    | tick env w w1 this nb a p p1 _ hthis htick hp1 ih =>
      exact predator_tick_keeps_speed hthis htick hp1 ih
  have hapex : ∀ p : ApexPredator, ApexPredator.Reachable p →
      0 ≤ p.hunger ∧ p.hunger ≤ 7 ∧
        p.speed = 1 + (if 3 ≤ p.hunger then 1 else 0) + (if 6 ≤ p.hunger then 1 else 0) := by
    intro p hp
    induction hp with
    | fresh => simp [ApexPredator.new]
    | tick env w w1 this nb a p p1 _ hthis htick hp1 ih =>
      exact apex_tick_keeps_speed hthis htick hp1 ih
  have hmove : ∀ (this obj : Nat) (s n : Int) (r : Nat) (d : Move.Direction),
      random_move this s r = .Move obj n d → n = s := by
    intro this obj s n r d h
    rcases r with _ | _ | _ | _ | r <;> simp [random_move] at h
    all_goals exact h.2.1.symm
  refine ⟨hpred, hapex, ?_, ?_⟩
  · intro env w w1 this obj nb p n d hp hthis htick
    obtain ⟨h0, h7, hs1, hs2⟩ := hpred p hp
    rcases predator_tick_cases hthis htick with ⟨-, ha, -⟩ | ⟨-, victim, x, -, -, ha, -⟩ |
        ⟨hlive, -, v, -, ha, -⟩
    · simp at ha
    · simp at ha
    · have hn := hmove _ _ _ _ _ _ ha.symm
      subst hn
      by_cases h2 : p.hunger = 2
      · rw [if_pos h2, hs1 (by omega)]
        exact Or.inr rfl
      · rw [if_neg h2]
        by_cases h3 : p.hunger ≤ 2
        · exact Or.inl (hs1 h3)
        · exact Or.inr (hs2 (by omega))
  · intro env w w1 this obj nb p n d hp hthis htick
    obtain ⟨h0, h7, hs⟩ := hapex p hp
    rcases apex_tick_cases hthis htick with ⟨-, ha, -⟩ | ⟨-, victim, x, -, -, ha, -⟩ |
        ⟨hlive, -, v, -, ha, -⟩
    · simp at ha
    · simp at ha
    · have hn := hmove _ _ _ _ _ _ ha.symm
      subst hn
      have h6 : p.hunger ≤ 6 := by omega
      rw [hs]
      split_ifs <;> omega

/-- Witness for C18: the predator of age 3, speed 2 and hunger 3 is reached
from a fresh one by three calls of `Predator::tick`, each on a grid of one
cell, and its next call returns a move of distance 2. -/
theorem speed_is_function_of_hunger_witness :
    Predator.Reachable (Predator.mk 3 2 3 false false) ∧
    (alone (.predator (Predator.mk 3 2 3 false false))).deref 0
      = some (.predator (Predator.mk 3 2 3 false false)) ∧
    Predator.tick (Env.const 0 0) (alone (.predator (Predator.mk 3 2 3 false false))) 0
        { cells := [some 0, some 0, some 0, some 0] }
      = some (.Move 0 2 .N,
          { alone (.predator (Predator.mk 4 2 4 false false)) with rand_calls := 1 }) ∧
    ((2 : Int) = 1 ∨ (2 : Int) = 2) :=
  have h1 : Predator.Reachable (Predator.mk 1 1 1 false false) :=
    Predator.Reachable.tick (Env.const 0 0) (alone (.predator Predator.new))
      { alone (.predator (Predator.mk 1 1 1 false false)) with rand_calls := 1 } 0
      { cells := [some 0, some 0, some 0, some 0] } (.Move 0 1 .N) Predator.new _
      Predator.Reachable.fresh (by decide) (by decide) (by decide)
  have h2 : Predator.Reachable (Predator.mk 2 1 2 false false) :=
    Predator.Reachable.tick (Env.const 0 0) (alone (.predator (Predator.mk 1 1 1 false false)))
      { alone (.predator (Predator.mk 2 1 2 false false)) with rand_calls := 1 } 0
      { cells := [some 0, some 0, some 0, some 0] } (.Move 0 1 .N) _ _
      h1 (by decide) (by decide) (by decide)
  have h3 : Predator.Reachable (Predator.mk 3 2 3 false false) :=
    Predator.Reachable.tick (Env.const 0 0) (alone (.predator (Predator.mk 2 1 2 false false)))
      { alone (.predator (Predator.mk 3 2 3 false false)) with rand_calls := 1 } 0
      { cells := [some 0, some 0, some 0, some 0] } (.Move 0 2 .N) _ _
      h2 (by decide) (by decide) (by decide)
  ⟨h3, by decide, by decide,
    speed_is_function_of_hunger.2.2.1 (Env.const 0 0)
      (alone (.predator (Predator.mk 3 2 3 false false)))
      { alone (.predator (Predator.mk 4 2 4 false false)) with rand_calls := 1 } 0 0
      { cells := [some 0, some 0, some 0, some 0] } (Predator.mk 3 2 3 false false) 2 .N
      h3 (by decide) (by decide)⟩

end OceanSim
